import Mathlib

/-!
# Parser-TypeChecking: a shallow embedding of the Go sources

The development follows the repository file by file:

* `Tokens/Token.go`, `Constants/Constant.go`: the token kinds and character classes;
* `Globals/Globals.go`: the variable context and the state record `Vars`;
* `LexicalAnalyser/LexicalAnalyser.go`: `GetChar`, `LexicalAnalyser`;
* `Parsetree/ParseTree.go`: the flat node sequence and `AddToken` with its helpers,
  and the renderer `SubTreeToStandardOutput`;
* `Parser/Parser.go`: the recursive-descent functions `Judgement`, `Expr`, `LExpr`, ...;
* `TypeChecker/TypeChecker.go`: `findE`, `findWord`, `findRule`, `findType`, `TypeChecker`;
* `main.go`: the body of the per-line loop.

Conventions of the embedding.

* The line the lexer reads is a Go `[]rune`; it is the `List Char` of its runes.  A Go
  `string` is indexed and measured in bytes; the texts of `TypeChecker.go` are the
  `List Char` of their bytes, one `Char` below 256 for each byte (`ofBytes`).  `findE`
  reads a byte and appends `string(byte)`, which is the UTF-8 text of the code point of
  that number: one byte below 0x80, two bytes from 0x80 on (`byteToString`).  On ASCII
  text runes and bytes are the same, and everything outside `findE` is modelled on ASCII
  text: the character classes of Go's `unicode` package are taken on the ASCII range (the
  letters `a`-`z`, `A`-`Z` and the digits `0`-`9`), every other character except the ones
  the lexer names explicitly is of class `UNDEFINED`, and `findWord`, which ranges over
  the runes of a string, stops at the first character that is no ASCII letter.  The
  lexeme `λ` that the parser gives a Lambda node counts as one character here and as two
  bytes in Go, which matters only where the renderer measures that lexeme.
* Go `int` is `Int`, without the wrapping of 64-bit arithmetic (`wrapInt64`); the
  depths and indices of the evaluated lines stay far from the 64-bit bounds, and the
  statement about `IncrementDepthFromIndex` on an arbitrary tree carries the bound.
* Mutable state is passed explicitly.  A function that can end the process returns a
  `Res`: `exit msg` is `fmt.Fprintf(os.Stderr, msg); os.Exit(1)`, `panic` is a Go run-time
  panic (index or slice bound out of range), and `outOfFuel` is the only artefact of the
  embedding: recursive Go functions take a recursion budget.  The budgets are chosen from
  the length of the line or text at hand; `mainLine_inBudget` shows that the loop body of
  `main` never uses one up, and `JudgementFuel_mono` that a larger budget changes nothing.
* The lines guarded by `DebugMode` only print tracing text; `main` always sets
  `DebugMode = false`, and the embedding leaves the tracing out.
-/

namespace LambdaChecker

/-- A Go rune slice as the list of its runes, and a Go string as the list of its bytes;
on ASCII text the two are the same. -/
abbrev GoString := List Char

/-- Outcome of a Go function that may end the process. -/
inductive Res (α : Type) where
  | ok (a : α)
  | exit (stderr : GoString)
  | panic
  | outOfFuel
deriving DecidableEq, Repr

/-- Sequencing of outcomes: the first abnormal outcome ends the run. -/
def Res.bind {α β : Type} (r : Res α) (f : α → Res β) : Res β :=
  match r with
  | .ok a => f a
  | .exit m => .exit m
  | .panic => .panic
  | .outOfFuel => .outOfFuel

instance : Monad Res where
  pure := Res.ok
  bind := Res.bind

/-- The run ended normally. -/
def Res.isOk {α : Type} : Res α → Bool
  | .ok _ => true
  | _ => false

/-! ## Tokens/Token.go and Constants/Constant.go -/

/-- Internal codes for the lexemes (`Tokens`), in the order of the `iota` block. -/
inductive Token where
  | TokenVariable
  | TokenLambda
  | TokenLeftBracket
  | TokenRightBracket
  | TokenFunction
  | TypeSymbol
  | TokenUVar
  | TokenDoubleDot
  | LexicalEndOfLine
  | SyntaxError
  | Application
deriving DecidableEq, Repr

/-- Character classes (`CharClass`), in the order of the `iota` block. -/
inductive CharClass where
  | LOWLETTER
  | UPLETTER
  | DIGIT
  | LBRACKET
  | RBRACKET
  | LAMBDA
  | TYPESYMBOL
  | DoubleDot
  | FUNCTION1
  | FUNCTION2
  | UNDEFINED
  | ENDOFLINE
  | SPACE
deriving DecidableEq, Repr

/-! ## Parsetree/ParseTree.go: data -/

/-- The struct `Node`. -/
structure Node where
  Token : LambdaChecker.Token
  Lexeme : GoString
  Depth : Int
  IsInApplication : Bool
  IsSecondInApplication : Bool
  BracketCounter : Int
deriving DecidableEq, Repr

/-- The struct `ParseTree`. -/
structure ParseTree where
  IndexDoubleDot : Int
  Nodes : List Node
  currentDepth : Int
deriving DecidableEq, Repr

/-! ## Globals/Globals.go: data -/

/-- The struct `VariableType`. -/
structure VariableType where
  VarName : GoString
  TypeName : GoString
deriving DecidableEq, Repr

/-- The struct `VarTypeList`. -/
structure VarTypeList where
  list : List VariableType
deriving DecidableEq, Repr

/-- The struct `Vars`, with the two output streams of the process added as
`Stdout` and `Stderr` (one entry per printed line, oldest first). -/
structure Vars where
  DebugMode : Bool
  Context : VarTypeList
  Tree : ParseTree
  CurrentLine : GoString
  Index : Int
  ReadChar : Char
  CharClass : LambdaChecker.CharClass
  Token : LambdaChecker.Token
  PrevToken : LambdaChecker.Token
  Lexeme : GoString
  ExpectVariable : Bool
  ExpectUp : Bool
  CountBrackets : Int
  Stdout : List GoString
  Stderr : List GoString
deriving DecidableEq, Repr

/-- The value of `new(Globals.Vars)`: every field is its zero value. -/
def newVars : Vars :=
  { DebugMode := false, Context := ⟨[]⟩, Tree := ⟨0, [], 0⟩, CurrentLine := [],
    Index := 0, ReadChar := Char.ofNat 0, CharClass := .LOWLETTER,
    Token := .TokenVariable, PrevToken := .TokenVariable, Lexeme := [],
    ExpectVariable := false, ExpectUp := false, CountBrackets := 0,
    Stdout := [], Stderr := [] }

/-- Indexing `s[i]` of a string or rune slice; `none` is Go's index-out-of-range panic. -/
def charAt (s : GoString) (i : Int) : Option Char :=
  if i < 0 then none else s[i.toNat]?

/-- Indexing that panics out of range. -/
def charAtR (s : GoString) (i : Int) : Res Char :=
  match charAt s i with
  | some c => .ok c
  | none => .panic

/-! ## LexicalAnalyser/LexicalAnalyser.go -/

/-- The test `unicode.IsDigit`, on the ASCII range. -/
def IsDigit (c : Char) : Bool := decide (48 ≤ c.toNat ∧ c.toNat ≤ 57)

/-- The test `unicode.IsLower`, on the ASCII range. -/
def IsLower (c : Char) : Bool := decide (97 ≤ c.toNat ∧ c.toNat ≤ 122)

/-- The test `unicode.IsUpper`, on the ASCII range. -/
def IsUpper (c : Char) : Bool := decide (65 ≤ c.toNat ∧ c.toNat ≤ 90)

/-- The test `unicode.IsLetter`, on the ASCII range. -/
def IsLetter (c : Char) : Bool := IsLower c || IsUpper c

/-- The chain of tests in `GetChar` that assigns a character its class. -/
def classOf (c : Char) : CharClass :=
  if IsDigit c then .DIGIT
  else if IsLetter c && c != 'λ' then
    (if IsLower c then .LOWLETTER else .UPLETTER)
  else if c == '\\' || c == 'λ' then .LAMBDA
  else if c == '(' then .LBRACKET
  else if c == ')' then .RBRACKET
  else if c == '^' then .TYPESYMBOL
  else if c == '-' then .FUNCTION1
  else if c == '>' then .FUNCTION2
  else if c == ' ' then .SPACE
  else if c == ':' then .DoubleDot
  else .UNDEFINED

/-- The function `AddChar`: append the character read to the lexeme. -/
def AddChar (v : Vars) : Vars :=
  { v with Lexeme := v.Lexeme ++ [v.ReadChar] }

/-- The function `GetChar`: advance the index and classify the character there. -/
def GetChar (v : Vars) : Res Vars :=
  let v1 := { v with Index := v.Index + 1 }
  if v1.Index ≥ (v1.CurrentLine.length : Int) then
    .ok { v1 with CharClass := .ENDOFLINE }
  else
    match charAt v1.CurrentLine v1.Index with
    | none => .panic
    | some c => .ok { v1 with ReadChar := c, CharClass := classOf c }

/-- The loop `for CharClass is a letter or digit { AddChar; GetChar }` of an identifier. -/
def identLoop : Nat → Vars → Res Vars
  | 0, _ => .outOfFuel
  | n + 1, v =>
    if v.CharClass = .LOWLETTER ∨ v.CharClass = .UPLETTER ∨ v.CharClass = .DIGIT then
      (GetChar (AddChar v)).bind (identLoop n)
    else .ok v

/-- The function `LexicalAnalyser` with a recursion budget: the token found and the new
state.  The caller stores the token (`context.Token = LexicalAnalyser(context)`). -/
def LexicalAnalyserFuel : Nat → Vars → Res (Token × Vars)
  | 0, _ => .outOfFuel
  | n + 1, v =>
    (GetChar v).bind fun v1 =>
    let v2 := { v1 with PrevToken := v1.Token }
    match v2.CharClass with
    | .LOWLETTER =>
      (identLoop (v2.CurrentLine.length + 2) v2).bind fun v3 =>
        .ok (.TokenVariable, { v3 with Index := v3.Index - 1 })
    | .UPLETTER =>
      (identLoop (v2.CurrentLine.length + 2) v2).bind fun v3 =>
        .ok (.TokenUVar, { v3 with Index := v3.Index - 1 })
    | .TYPESYMBOL => .ok (.TypeSymbol, v2)
    | .FUNCTION1 => (GetChar v2).bind fun v3 => .ok (.TokenFunction, v3)
    | .FUNCTION2 => .exit "Syntax error: Function type had invalid declaration".toList
    | .DIGIT => .exit "Syntax error: Cannot start a variable with digit".toList
    | .LBRACKET => .ok (.TokenLeftBracket, v2)
    | .RBRACKET => .ok (.TokenRightBracket, v2)
    | .LAMBDA => .ok (.TokenLambda, v2)
    | .SPACE => LexicalAnalyserFuel n v2
    | .DoubleDot => .ok (.TokenDoubleDot, v2)
    | .ENDOFLINE => .ok (.LexicalEndOfLine, v2)
    | .UNDEFINED => .ok (.SyntaxError, v2)

/-- The function `LexicalAnalyser`; each recursive call (on a space) has advanced the
index by one, so a budget of the line length plus two is never used up. -/
def LexicalAnalyser (v : Vars) : Res (Token × Vars) :=
  LexicalAnalyserFuel (v.CurrentLine.length + 2) v

/-- The statement `context.Token = LexicalAnalyser(context)`. -/
def nextToken (v : Vars) : Res Vars :=
  (LexicalAnalyser v).bind fun r => .ok { r.2 with Token := r.1 }

/-! ## Parsetree/ParseTree.go: the builder -/

/-- The read `tree.Nodes[i]`; out of range is a panic. -/
def getNode (ns : List Node) (i : Int) : Res Node :=
  if i < 0 then .panic
  else match ns[i.toNat]? with
    | some n => .ok n
    | none => .panic

/-- The write `tree.Nodes[i] = n`; out of range is a panic. -/
def setNode (ns : List Node) (i : Int) (n : Node) : Res (List Node) :=
  if i < 0 ∨ (ns.length : Int) ≤ i then .panic
  else .ok (ns.set i.toNat n)

/-- A field update `tree.Nodes[i].f = ...`, as read, change, write. -/
def updNode (ns : List Node) (i : Int) (f : Node → Node) : Res (List Node) :=
  (getNode ns i).bind fun n => setNode ns i (f n)

/-- The reslice `tree.Nodes = tree.Nodes[:len(tree.Nodes)-1]`; panics on an empty slice. -/
def popNode (ns : List Node) : Res (List Node) :=
  match ns with
  | [] => .panic
  | _ :: _ => .ok ns.dropLast

/-- The loop of `IncrementDepthFromIndex`: `for i := index; i < len; i++ { Nodes[i].Depth++ }`,
with the number of remaining iterations as budget. -/
def incrementLoop : Nat → List Node → Int → Res (List Node)
  | 0, ns, _ => .ok ns
  | k + 1, ns, i =>
    if i < (ns.length : Int) then
      (updNode ns i fun n => { n with Depth := n.Depth + 1 }).bind fun ns1 =>
        incrementLoop k ns1 (i + 1)
    else .ok ns

/-- The method `IncrementDepthFromIndex`. -/
def IncrementDepthFromIndex (tree : ParseTree) (index : Int) : Res ParseTree :=
  (incrementLoop (tree.Nodes.length + 1) tree.Nodes index).bind fun ns =>
    .ok { tree with Nodes := ns }

/-- First loop of `InjectNodeAtIndex`: collect `Nodes[i]` for `i` from `index` to the end. -/
def collectMoved : Nat → List Node → Int → List Node → Res (List Node)
  | 0, _, _, moved => .ok moved
  | k + 1, ns, i, moved =>
    if i < (ns.length : Int) then
      (getNode ns i).bind fun n => collectMoved k ns (i + 1) (moved ++ [n])
    else .ok moved

/-- Second loop of `InjectNodeAtIndex`: `for i := 0; i < len(NodesMoved)-1; i++
{ Nodes[index+1+i] = NodesMoved[i] }`. -/
def writeMoved : Nat → List Node → List Node → Int → Int → Res (List Node)
  | 0, ns, _, _, _ => .ok ns
  | k + 1, ns, moved, index, i =>
    if i < (moved.length : Int) - 1 then
      (getNode moved i).bind fun m =>
      (setNode ns (index + 1 + i) m).bind fun ns1 =>
        writeMoved k ns1 moved index (i + 1)
    else .ok ns

/-- The method `InjectNodeAtIndex`, on the node slice. -/
def injectNodes (ns : List Node) (injectNode : Node) (index : Int) : Res (List Node) :=
  (collectMoved (ns.length + 1) ns index []).bind fun moved =>
  (setNode ns index injectNode).bind fun ns1 =>
  (writeMoved (moved.length + 1) ns1 moved index 0).bind fun ns2 =>
  (getNode moved ((moved.length : Int) - 1)).bind fun last =>
    .ok (ns2 ++ [last])

/-- The method `InjectNodeAtIndex`. -/
def InjectNodeAtIndex (tree : ParseTree) (injectNode : Node) (index : Int) : Res ParseTree :=
  (injectNodes tree.Nodes injectNode index).bind fun ns => .ok { tree with Nodes := ns }

/-- The method `RemoveRedundantBrackets`: the two nodes after the call and the value
returned. -/
def RemoveRedundantBrackets (nodeLeft nodeRight : Node) : Node × Node × Int :=
  let left := nodeLeft.BracketCounter
  let right := nodeRight.BracketCounter
  if left > 0 ∧ right < 0 then
    if left > -right then
      let l := { nodeLeft with BracketCounter := nodeLeft.BracketCounter + nodeRight.BracketCounter }
      (l, { nodeRight with BracketCounter := 0 }, l.BracketCounter)
    else if left = -right then
      ({ nodeLeft with BracketCounter := 0 }, { nodeRight with BracketCounter := 0 }, 0)
    else
      ({ nodeLeft with BracketCounter := 0 },
        { nodeRight with BracketCounter := nodeRight.BracketCounter + left }, 0)
  else (nodeLeft, nodeRight, nodeLeft.BracketCounter)

/-- The method `ClearTree`. -/
def ClearTree (_tree : ParseTree) : ParseTree :=
  { currentDepth := 0, Nodes := [], IndexDoubleDot := -1 }

/-- Appending a node: `tree.Nodes = append(tree.Nodes, newNode)`. -/
def appendNode (tree : ParseTree) (n : Node) : ParseTree :=
  { tree with Nodes := tree.Nodes ++ [n] }

/-- The method `UVarFunctToNestedFunc`; `prevNode` is the caller's copy of the last node. -/
def UVarFunctToNestedFunc (tree : ParseTree) (prevNode : Node) (indexAppliedNode : Int)
    (token : Token) (lexeme : GoString) (bracketsCounter : Int) : Res ParseTree :=
  (popNode tree.Nodes).bind fun ns =>
  (getNode ns indexAppliedNode).bind fun applied =>
  let prev := { prevNode with Depth := applied.Depth, IsInApplication := true,
                              IsSecondInApplication := true }
  (updNode ns indexAppliedNode fun n => { n with Depth := n.Depth + 1 }).bind fun ns1 =>
  let depth := tree.currentDepth + 1
  (updNode ns1 indexAppliedNode fun n => { n with IsSecondInApplication := false }).bind fun ns2 =>
  (injectNodes ns2 prev indexAppliedNode).bind fun ns3 =>
    .ok { tree with currentDepth := depth,
                    Nodes := ns3 ++ [⟨token, lexeme, depth, true, true, bracketsCounter⟩] }

/-- The method `UVarFuncToPrevUVar`. -/
def UVarFuncToPrevUVar (tree : ParseTree) (prevNode : Node)
    (token : Token) (lexeme : GoString) (bracketsCounter : Int) : Res ParseTree :=
  (popNode tree.Nodes).bind fun ns =>
  let last : Int := (ns.length : Int) - 1
  (getNode ns last).bind fun l =>
  let prev := { prevNode with BracketCounter := l.BracketCounter }
  (updNode ns last fun n => { n with BracketCounter := 0 }).bind fun ns1 =>
  (updNode ns1 last fun n => { n with Depth := n.Depth + 1 }).bind fun ns2 =>
  let depth := tree.currentDepth + 1
  (updNode ns2 last fun n => { n with IsInApplication := true }).bind fun ns3 =>
  (updNode ns3 last fun n => { n with IsSecondInApplication := false }).bind fun ns4 =>
  (injectNodes ns4 prev last).bind fun ns5 =>
    .ok { tree with currentDepth := depth,
                    Nodes := ns5 ++ [⟨token, lexeme, depth, true, true, bracketsCounter⟩] }

/-- The method `UVarFuncToBracketNode`. -/
def UVarFuncToBracketNode (tree : ParseTree) (prevNode : Node) (indexBracketNode : Int)
    (token : Token) (lexeme : GoString) (bracketsCounter : Int) : Res ParseTree :=
  (getNode tree.Nodes indexBracketNode).bind fun b0 =>
  let isAlreadyApplied := b0.IsInApplication && !b0.IsSecondInApplication
  (popNode tree.Nodes).bind fun ns =>
  (getNode ns indexBracketNode).bind fun b1 =>
  let prev1 := { prevNode with Depth := b1.Depth }
  (updNode ns indexBracketNode fun n => { n with IsInApplication := true }).bind fun ns1 =>
  (updNode ns1 indexBracketNode fun n => { n with IsSecondInApplication := false }).bind fun ns2 =>
  (IncrementDepthFromIndex { tree with Nodes := ns2 } indexBracketNode).bind fun t3 =>
  (getNode t3.Nodes indexBracketNode).bind fun b3 =>
  let prev2 := { prev1 with BracketCounter := b3.BracketCounter }
  (updNode t3.Nodes indexBracketNode fun n => { n with BracketCounter := 0 }).bind fun ns4 =>
  (injectNodes ns4 prev2 indexBracketNode).bind fun ns5 =>
  let depth := if isAlreadyApplied then prev2.Depth else prev2.Depth + 1
  .ok { t3 with currentDepth := depth,
                Nodes := ns5 ++ [⟨token, lexeme, depth, true, true, bracketsCounter⟩] }

/-- First loop of `ApplyToClosestLambda`: while the new node still has closing brackets,
cancel them against the nodes with opening brackets, from the last node backwards.
The counter `k` stands for the index `i = k - 1`. -/
def cancelLoop : Nat → List Node → Node → Res (List Node × Node)
  | 0, ns, newNode => .ok (ns, newNode)
  | k + 1, ns, newNode =>
    if newNode.BracketCounter < 0 then
      (getNode ns k).bind fun n =>
      if n.BracketCounter > 0 then
        let r := RemoveRedundantBrackets n newNode
        (setNode ns k r.1).bind fun ns1 => cancelLoop k ns1 r.2.1
      else cancelLoop k ns newNode
    else .ok (ns, newNode)

/-- Second loop of `ApplyToClosestLambda`: find the closest lambda and nest it, with
the new node, in a fresh application.  Without a lambda nothing is added. -/
def lambdaLoop : Nat → ParseTree → Token → GoString → Int → Res ParseTree
  | 0, tree, _, _, _ => .ok tree
  | k + 1, tree, token, lexeme, bracketsCounter =>
    (getNode tree.Nodes k).bind fun n =>
    if n.Token = .TokenLambda then
      (getNode tree.Nodes (k + 1)).bind fun n1 =>
      let app : Node := ⟨.Application, "Apply".toList, n.Depth, n.IsInApplication,
        n.IsSecondInApplication, n1.BracketCounter⟩
      (updNode tree.Nodes (k + 1) fun m => { m with BracketCounter := 0 }).bind fun ns1 =>
      let depth := n.Depth + 1
      (IncrementDepthFromIndex { tree with Nodes := ns1, currentDepth := depth } k).bind fun t2 =>
      (updNode t2.Nodes k fun m => { m with IsInApplication := true }).bind fun ns3 =>
      (updNode ns3 k fun m => { m with IsSecondInApplication := false }).bind fun ns4 =>
      (injectNodes ns4 app k).bind fun ns5 =>
        .ok { t2 with Nodes := ns5 ++ [⟨token, lexeme, depth, true, true, bracketsCounter⟩] }
    else lambdaLoop k tree token lexeme bracketsCounter

/-- The method `ApplyToClosestLambda`. -/
def ApplyToClosestLambda (tree : ParseTree) (token : Token) (lexeme : GoString)
    (bracketsCounter : Int) : Res ParseTree :=
  let newNode : Node := ⟨token, lexeme, tree.currentDepth, true, true, bracketsCounter⟩
  (cancelLoop tree.Nodes.length tree.Nodes newNode).bind fun r =>
    lambdaLoop (tree.Nodes.length - 1) { tree with Nodes := r.1 } token lexeme bracketsCounter

/-- The method `IsPrevLambda`: the tree after the call and the value returned. -/
def IsPrevLambda (tree : ParseTree) (token : Token) (lexeme : GoString)
    (bracketsCounter : Int) : Res (ParseTree × Bool) :=
  if tree.Nodes.length > 1 then
    (getNode tree.Nodes ((tree.Nodes.length : Int) - 2)).bind fun n =>
    if n.Token = .TokenLambda then
      let depth := tree.currentDepth + 1
      .ok ({ tree with currentDepth := depth,
                       Nodes := tree.Nodes ++ [⟨token, lexeme, depth, false, false, bracketsCounter⟩] },
           true)
    else .ok (tree, false)
  else .ok (tree, false)

/-- The method `ApplyToBracketNode`. -/
def ApplyToBracketNode (tree : ParseTree) (indexBracketNode : Int) (token : Token)
    (lexeme : GoString) (bracketsCounter : Int) : Res ParseTree :=
  (getNode tree.Nodes indexBracketNode).bind fun b0 =>
  let oldDepthAtApplication := b0.Depth
  (IncrementDepthFromIndex tree indexBracketNode).bind fun t1 =>
  let depth := oldDepthAtApplication + 1
  let newNode : Node := ⟨token, lexeme, depth, true, true, bracketsCounter⟩
  (getNode t1.Nodes indexBracketNode).bind fun b1 =>
  let r := RemoveRedundantBrackets b1 newNode
  (setNode t1.Nodes indexBracketNode r.1).bind fun ns2 =>
  let newNode1 := r.2.1
  let application : Node := ⟨.Application, "Apply".toList, oldDepthAtApplication, false, false, r.2.2⟩
  (updNode ns2 indexBracketNode fun n => { n with BracketCounter := 0 }).bind fun ns3 =>
  (if indexBracketNode ≠ 0 then
      (getNode ns3 (indexBracketNode - 1)).bind fun p => .ok (decide (p.Token = .TokenLambda))
    else .ok false).bind fun afterLambda =>
  (if afterLambda then
      (updNode ns3 (indexBracketNode - 1) fun n => { n with Depth := n.Depth + 1 }).bind fun ns4 =>
        injectNodes ns4 application (indexBracketNode - 1)
    else
      (updNode ns3 indexBracketNode fun n => { n with IsInApplication := true }).bind fun ns4 =>
      (updNode ns4 indexBracketNode fun n => { n with IsSecondInApplication := false }).bind fun ns5 =>
        injectNodes ns5 application indexBracketNode).bind fun ns6 =>
  .ok { t1 with currentDepth := depth, Nodes := ns6 ++ [newNode1] }

/-- The loop of `ApplyToClosestNotAppliedApplication`; without a free application nothing
is added. -/
def notAppliedLoop : Nat → ParseTree → Token → GoString → Int → Res ParseTree
  | 0, tree, _, _, _ => .ok tree
  | k + 1, tree, token, lexeme, bracketsCounter =>
    (getNode tree.Nodes k).bind fun n =>
    if n.Token = .Application ∧ n.IsInApplication = false then
      let oldDepthAtApplication := n.Depth
      (IncrementDepthFromIndex tree k).bind fun t1 =>
      (updNode t1.Nodes k fun m => { m with IsInApplication := true }).bind fun ns2 =>
      (updNode ns2 k fun m => { m with IsSecondInApplication := false }).bind fun ns3 =>
      (injectNodes ns3 ⟨.Application, "Apply".toList, oldDepthAtApplication, false, false, 0⟩ k).bind
        fun ns4 =>
      let depth := oldDepthAtApplication + 1
      .ok { t1 with currentDepth := depth,
                    Nodes := ns4 ++ [⟨token, lexeme, depth, true, true, bracketsCounter⟩] }
    else notAppliedLoop k tree token lexeme bracketsCounter

/-- The method `ApplyToClosestNotAppliedApplication`. -/
def ApplyToClosestNotAppliedApplication (tree : ParseTree) (token : Token) (lexeme : GoString)
    (bracketsCounter : Int) : Res ParseTree :=
  notAppliedLoop tree.Nodes.length tree token lexeme bracketsCounter

/-- The method `ApplyToPrevNode`. -/
def ApplyToPrevNode (tree : ParseTree) (token : Token) (lexeme : GoString)
    (bracketsCounter : Int) : Res ParseTree :=
  (injectNodes tree.Nodes ⟨.Application, "Apply".toList, tree.currentDepth, false, false, 0⟩
      ((tree.Nodes.length : Int) - 1)).bind fun ns1 =>
  let last : Int := (ns1.length : Int) - 1
  (updNode ns1 last fun n => { n with IsInApplication := true }).bind fun ns2 =>
  (updNode ns2 last fun n => { n with IsSecondInApplication := false }).bind fun ns3 =>
  (updNode ns3 last fun n => { n with Depth := n.Depth + 1 }).bind fun ns4 =>
  let depth := tree.currentDepth + 1
  .ok { tree with currentDepth := depth,
                  Nodes := ns4 ++ [⟨token, lexeme, depth, true, true, bracketsCounter⟩] }

/-- The bracket search of `AddToken` when the node before the arrow has closing brackets:
`for i := len-2; i >= 0; i--`, moving opening brackets found at `i` onto the node at
`target = len-2` until that node is balanced.  Yields the nodes and `indexBracketNode`. -/
def bracketLoop : Nat → List Node → Int → Res (List Node × Int)
  | 0, ns, _ => .ok (ns, -1)
  | k + 1, ns, target =>
    (getNode ns k).bind fun n =>
    if n.BracketCounter > 0 then
      (updNode ns target fun t => { t with BracketCounter := t.BracketCounter + n.BracketCounter }).bind
        fun ns1 =>
      (updNode ns1 k fun m => { m with BracketCounter := 0 }).bind fun ns2 =>
      (getNode ns2 target).bind fun t2 =>
      (if t2.BracketCounter > 0 then
          (updNode ns2 k fun m => { m with BracketCounter := m.BracketCounter + t2.BracketCounter }).bind
            fun ns3 => updNode ns3 target fun t => { t with BracketCounter := 0 }
        else .ok ns2).bind fun ns4 =>
      (getNode ns4 target).bind fun t4 =>
      if t4.BracketCounter = 0 then .ok (ns4, (k : Int))
      else bracketLoop k ns4 target
    else bracketLoop k ns target

/-- The search of `AddToken` for an already applied node: `for i := len-2; i >= lower; i--`
without a `break`, so the lowest index that qualifies is the one kept. -/
def appliedLoop : Nat → List Node → Int → Int → Res Int
  | 0, _, _, found => .ok found
  | k + 1, ns, lower, found =>
    if (k : Int) ≥ lower then
      (getNode ns k).bind fun n =>
      if n.IsSecondInApplication = true ∧ (n.Token = .TokenUVar ∨ n.Token = .TokenFunction) then
        appliedLoop k ns lower k
      else appliedLoop k ns lower found
    else .ok found

/-- The search of `AddToken` for the closest node with opening brackets:
`for i := len-1; i >= 0; i--` with a `break` at the first hit. -/
def openBracketLoop : Nat → List Node → Res Int
  | 0, _ => .ok (-1)
  | k + 1, ns =>
    (getNode ns k).bind fun n =>
    if n.BracketCounter > 0 then .ok (k : Int) else openBracketLoop k ns

/-- The method `AddToken`. -/
def AddToken (tree : ParseTree) (token : Token) (lexeme : GoString) (bracketsCounter : Int) :
    Res ParseTree :=
  if tree.Nodes.length > 0 then
    (getNode tree.Nodes ((tree.Nodes.length : Int) - 1)).bind fun prevNode =>
    if token = .TokenFunction then
      .ok (appendNode tree ⟨token, lexeme, tree.currentDepth, false, false, bracketsCounter⟩)
    else if token = .TokenDoubleDot then
      .ok (appendNode tree ⟨token, lexeme, tree.currentDepth, false, false, bracketsCounter⟩)
    else
      match prevNode.Token with
      | .TokenDoubleDot =>
        (popNode tree.Nodes).bind fun ns =>
        (updNode ns 0 fun n => { n with IsInApplication := true }).bind fun ns1 =>
        (updNode ns1 0 fun n => { n with IsSecondInApplication := false }).bind fun ns2 =>
        (IncrementDepthFromIndex { tree with Nodes := ns2 } 0).bind fun t3 =>
        (injectNodes t3.Nodes { prevNode with Depth := 0 } 0).bind fun ns4 =>
          .ok { t3 with currentDepth := 1,
                        Nodes := ns4 ++ [⟨token, lexeme, 1, false, false, bracketsCounter⟩] }
      | .TokenLambda =>
        .ok (appendNode tree ⟨token, lexeme, tree.currentDepth, false, false, bracketsCounter⟩)
      | .TokenFunction =>
        let len : Int := (tree.Nodes.length : Int)
        (getNode tree.Nodes (len - 2)).bind fun operand =>
        if operand.BracketCounter < 0 then
          (bracketLoop (tree.Nodes.length - 1) tree.Nodes (len - 2)).bind fun r =>
          if r.2 ≥ 0 then
            UVarFuncToBracketNode { tree with Nodes := r.1 } prevNode r.2 token lexeme bracketsCounter
          else .ok { tree with Nodes := r.1 }
        else
          (appliedLoop (tree.Nodes.length - 1) tree.Nodes
              (if tree.IndexDoubleDot ≥ 0 then tree.IndexDoubleDot else 0) (-1)).bind
            fun indexAppliedNode =>
          if indexAppliedNode ≥ 0 then
            UVarFunctToNestedFunc tree prevNode indexAppliedNode token lexeme bracketsCounter
          else
            UVarFuncToPrevUVar tree prevNode token lexeme bracketsCounter
      | .TokenUVar => ApplyToClosestLambda tree token lexeme bracketsCounter
      | .TokenVariable =>
        (IsPrevLambda tree token lexeme bracketsCounter).bind fun r =>
        if r.2 then .ok r.1
        else
          (openBracketLoop tree.Nodes.length tree.Nodes).bind fun indexBracketNode =>
          if indexBracketNode ≥ 0 then
            ApplyToBracketNode tree indexBracketNode token lexeme bracketsCounter
          else if prevNode.IsInApplication then
            ApplyToClosestNotAppliedApplication tree token lexeme bracketsCounter
          else
            ApplyToPrevNode tree token lexeme bracketsCounter
      | _ => .ok tree
  else
    .ok (appendNode tree ⟨token, lexeme, tree.currentDepth, false, false, bracketsCounter⟩)

/-! ## Parser/Parser.go -/

/-- First loop of `CalcBrack`: walk back from `index - 1`, counting `(` and passing over
spaces and lambda markers; the counter `k` stands for the index `i = k - 1`. -/
def calcLeft : Nat → GoString → Int → Res Int
  | 0, _, counter => .ok counter
  | k + 1, line, counter =>
    (charAtR line k).bind fun c =>
    if c = '(' then calcLeft k line (counter + 1)
    else if c = ' ' ∨ (c = '\\' ∨ c = 'λ') then calcLeft k line counter
    else .ok counter

/-- Second loop of `CalcBrack`: walk forward from `i`, counting `)` and passing over
spaces, with the number of remaining iterations as budget. -/
def calcRight : Nat → GoString → Int → Int → Res Int
  | 0, _, _, counter => .ok counter
  | k + 1, line, i, counter =>
    if i < (line.length : Int) then
      (charAtR line i).bind fun c =>
      if c = ')' then calcRight k line (i + 1) (counter - 1)
      else if c = ' ' then calcRight k line (i + 1) counter
      else .ok counter
    else .ok counter

/-- The function `CalcBrack`. -/
def CalcBrack (v : Vars) : Res Int :=
  (calcLeft v.Index.toNat v.CurrentLine 0).bind fun counter =>
    calcRight (v.CurrentLine.length + 1) v.CurrentLine (v.Index + (v.Lexeme.length : Int)) counter

/-- The function `TypeFunction`: the state after the call and the value returned. -/
def TypeFunction (v : Vars) : Res (Vars × Bool) :=
  if v.Token = .TokenFunction then
    (AddToken v.Tree .TokenFunction "->".toList 0).bind fun t =>
    (nextToken { v with Tree := t }).bind fun v1 => .ok (v1, true)
  else .ok (v, false)

/-- The function `TypeExpr`, with a recursion budget. -/
def TypeExpr : Nat → Vars → Res Vars
  | 0, _ => .outOfFuel
  | n + 1, v =>
    match v.Token with
    | .TokenUVar =>
      (CalcBrack v).bind fun b =>
      (AddToken v.Tree .TokenUVar v.Lexeme b).bind fun t =>
      (nextToken { v with Tree := t, Lexeme := [] }).bind fun v1 =>
      (TypeFunction v1).bind fun r =>
      if r.2 then TypeExpr n r.1 else .ok r.1
    | .TokenLeftBracket =>
      (nextToken { v with CountBrackets := v.CountBrackets + 1 }).bind fun v1 =>
      (TypeExpr n v1).bind fun v2 =>
      if v2.Token = .TokenRightBracket then
        (nextToken { v2 with CountBrackets := v2.CountBrackets - 1 }).bind fun v3 =>
        (TypeFunction v3).bind fun r =>
        if r.2 then TypeExpr n r.1 else .ok r.1
      else .ok v2
    | .TokenRightBracket => .exit "Syntax error: Expected UVar.".toList
    | .TokenVariable => .exit "Syntax error: LVar cannot be parsed in Type Expression.".toList
    | .TokenLambda => .exit "Syntax error: Lambda cannot be parsed in Type Expression.".toList
    | .LexicalEndOfLine => .exit "Syntax error: Type Expression cannot be empty.".toList
    | _ => .exit "Syntax error: Expected Type Expression".toList

/-- The function `VarExpr`. -/
def VarExpr (v : Vars) : Res Vars :=
  (CalcBrack v).bind fun b =>
  (AddToken v.Tree .TokenVariable v.Lexeme b).bind fun t =>
    nextToken { v with Tree := t, Lexeme := [], ExpectVariable := false }

/-- The function `LExpr`, with a recursion budget. -/
def LExpr : Nat → Vars → Res Vars
  | 0, _ => .outOfFuel
  | n + 1, v =>
    if v.ExpectVariable = true ∧ v.Token ≠ .TokenVariable then
      .exit "Syntax error: Expected variable".toList
    else if v.ExpectUp = true ∧ v.Token ≠ .TypeSymbol then
      (charAtR v.CurrentLine v.Index).bind fun c =>
        .exit ("Syntax error: Expected ^ but got: ".toList ++ [c])
    else
      match v.Token with
      | .TokenLambda =>
        (AddToken v.Tree .TokenLambda ['λ'] 0).bind fun t =>
        (nextToken { v with Tree := t }).bind fun v1 =>
        (LExpr n { v1 with ExpectVariable := true }).bind fun v2 =>
        (LExpr n { v2 with ExpectUp := true }).bind fun v3 =>
        (TypeExpr n v3).bind fun v4 =>
          LExpr n v4
      | .TokenVariable => VarExpr v
      | .TokenLeftBracket =>
        (nextToken { v with CountBrackets := v.CountBrackets + 1 }).bind fun v1 =>
        (LExpr n v1).bind fun v2 =>
          LExpr n v2
      | .TokenRightBracket =>
        let v1 := { v with CountBrackets := v.CountBrackets - 1 }
        if v1.CountBrackets < 0 then .exit "Syntax error: No brackets to close.".toList
        else nextToken v1
      | .TypeSymbol => nextToken { v with ExpectUp := false }
      | .TokenUVar =>
        if v.PrevToken = .TokenUVar then .exit "Syntax error: Expected TermFunction (->).".toList
        else .exit "Syntax error: Cannot Parse Uvar in Expression.".toList
      | .LexicalEndOfLine =>
        if v.CountBrackets > 0 then .exit "Syntax error: Expected Closing Bracket.".toList
        else .exit "Syntax error: Expected Non-empty Expression.".toList
      | .SyntaxError => .exit "Syntax error: unknown character.".toList
      | _ => .exit "Syntax error: unknown token.".toList

/-- The function `MsExpr`, with a recursion budget. -/
def MsExpr : Nat → Vars → Res Vars
  | 0, _ => .outOfFuel
  | n + 1, v =>
    if v.Token = .LexicalEndOfLine ∨ v.Token = .TokenDoubleDot then .ok v
    else (LExpr n v).bind fun v1 => MsExpr n v1

/-- The function `Expr`, with a recursion budget. -/
def Expr (n : Nat) (v : Vars) : Res Vars :=
  (LExpr n v).bind fun v1 => MsExpr n v1

/-- The function `JudgementFunction`; the Boolean it returns is not used by its caller. -/
def JudgementFunction (v : Vars) : Res Vars :=
  if v.Tree.IndexDoubleDot ≠ -1 then
    .exit "Syntax error: double Judgement Function (:).".toList
  else if v.Token = .TokenDoubleDot then
    (AddToken v.Tree .TokenDoubleDot "Judge".toList 0).bind fun t =>
      nextToken { v with Tree := { t with IndexDoubleDot := (t.Nodes.length : Int) } }
  else
    .exit "Syntax error: Expected Judgement Function (:).".toList

/-- The function `Judgement`, with a recursion budget for the descent. -/
def JudgementFuel (n : Nat) (v : Vars) : Res Vars :=
  (Expr n v).bind fun v1 =>
  (JudgementFunction v1).bind fun v2 =>
    TypeExpr n v2

/-- The function `Judgement`.  Every nested call of the descent comes after a token of
at least one character was read, so the nesting stays below the line length plus a
constant. -/
def Judgement (v : Vars) : Res Vars :=
  JudgementFuel (v.CurrentLine.length + 4) v

/-! ## Parsetree/ParseTree.go: the renderer -/

/-- The slice `s[:n]`; panics when `n` is negative or beyond the length. -/
def sliceTo (s : GoString) (n : Int) : Res GoString :=
  if n < 0 ∨ (s.length : Int) < n then .panic else .ok (s.take n.toNat)

/-- The slice `s[lo:hi]`; panics unless `0 ≤ lo ≤ hi ≤ len(s)`. -/
def sliceFromTo (s : GoString) (lo hi : Int) : Res GoString :=
  if lo < 0 ∨ hi < lo ∨ (s.length : Int) < hi then .panic
  else .ok ((s.take hi.toNat).drop lo.toNat)

/-- The local variables of `SubTreeToStandardOutput` that live across loop iterations
(`brackets` is empty at the start of every iteration). -/
structure RenderState where
  Output : GoString
  lastIsUvar : Bool
  lastIsVariable : Bool
  isInLambda : Bool
  ajdustOpenLambda : Bool
  previousDepth : Int
deriving DecidableEq, Repr

/-- The brackets that open an iteration: one `)` per level left, and, by the doubled
`j--` of the second loop, one `(` per two levels entered (rounded up). -/
def depthBrackets (deltaDepth : Int) : GoString :=
  if deltaDepth < 0 then List.replicate (-deltaDepth).toNat ')'
  else List.replicate ((deltaDepth.toNat + 1) / 2) '('

/-- The copy loop `for i := 1; i < len(brackets); i++ { adjustBrackets += brackets[i] }`. -/
def adjustBrackets (brackets : GoString) : GoString := brackets.drop 1

/-- The rewrite `Output = Output[:len(Output)-len(lex)]; Output += pre; Output += lex;
Output += post` shared by several cases. -/
def rewrap (Output lex pre post : GoString) : Res GoString :=
  (sliceTo Output ((Output.length : Int) - (lex.length : Int))).bind fun o =>
    .ok (o ++ pre ++ lex ++ post)

/-- Whether a node is a `TokenUVar` or a `TokenFunction`. -/
def isTypeNode (n : Node) : Bool :=
  decide (n.Token = .TokenUVar ∨ n.Token = .TokenFunction)

/-- One iteration of the loop of `SubTreeToStandardOutput` at index `i`: the new locals
and the value of `i` at the end of the body (the lambda case skips a node). -/
def renderStep (tree : ParseTree) (judgementDepth : Int) (i : Int) (st : RenderState) :
    Res (RenderState × Int) :=
  (getNode tree.Nodes i).bind fun n =>
  let deltaDepth := n.Depth - st.previousDepth
  let brackets0 := depthBrackets deltaDepth
  let brackets := if isTypeNode n && decide (n.Depth = judgementDepth + 1)
    then brackets0 ++ [':'] else brackets0
  match n.Token with
  | .TokenLambda =>
    let brackets1 := if st.isInLambda then adjustBrackets brackets else brackets
    (getNode tree.Nodes (i + 1)).bind fun n1 =>
    .ok ({ st with isInLambda := true, ajdustOpenLambda := true,
                   Output := st.Output ++ brackets1 ++ ['\\'] ++ n1.Lexeme ++ ['^'],
                   lastIsUvar := false, lastIsVariable := false }, i + 1)
  | .TokenVariable =>
    (if st.lastIsVariable then
        (getNode tree.Nodes (i - 1)).bind fun p => .ok (!p.IsSecondInApplication)
      else .ok false).bind fun space =>
    let out1 := if space then st.Output ++ [' '] else st.Output
    let lastVar := if space then false else true
    (if st.isInLambda then
        (getNode tree.Nodes (i - 2)).bind fun p2 =>
        if !isTypeNode p2 then
          (getNode tree.Nodes (i - 1)).bind fun p1 =>
          (rewrap out1 p1.Lexeme ['('] [')']).bind fun o => .ok (adjustBrackets brackets, o)
        else .ok (adjustBrackets brackets, out1)
      else .ok (brackets, out1)).bind fun r =>
    .ok ({ st with lastIsVariable := lastVar, previousDepth := n.Depth, lastIsUvar := false,
                   isInLambda := false, Output := r.2 ++ r.1 ++ n.Lexeme }, i)
  | .TokenUVar =>
    if st.lastIsUvar then
      let out1 := if deltaDepth < 0 then st.Output ++ brackets ++ "->".toList
        else st.Output ++ "->".toList ++ brackets
      .ok ({ st with Output := out1 ++ n.Lexeme, lastIsUvar := true, lastIsVariable := false,
                     previousDepth := n.Depth }, i)
    else
      let adj := st.isInLambda && st.ajdustOpenLambda
      let brackets1 := if adj then adjustBrackets brackets else brackets
      .ok ({ st with ajdustOpenLambda := if adj then false else st.ajdustOpenLambda,
                     Output := st.Output ++ brackets1 ++ n.Lexeme, lastIsUvar := true,
                     previousDepth := n.Depth }, i)
  | .TokenFunction =>
    (if decide (deltaDepth > 0) && st.lastIsUvar then
        (getNode tree.Nodes (i - 1)).bind fun p1 =>
        if p1.Token = .TokenUVar then rewrap st.Output p1.Lexeme brackets []
        else (getNode tree.Nodes (i - 2)).bind fun p2 => rewrap st.Output p2.Lexeme brackets []
      else .ok (st.Output ++ brackets)).bind fun o =>
    .ok ({ st with Output := o, previousDepth := n.Depth }, i)
  | .Application =>
    (if st.isInLambda then
        (getNode tree.Nodes (i - 2)).bind fun p2 =>
        if !isTypeNode p2 then
          (getNode tree.Nodes (i - 1)).bind fun p1 =>
          (rewrap st.Output p1.Lexeme ['('] [')']).bind fun o => .ok (adjustBrackets brackets, o)
        else .ok (adjustBrackets brackets, st.Output)
      else .ok (brackets, st.Output)).bind fun r =>
    .ok ({ st with isInLambda := false, Output := r.2 ++ r.1, previousDepth := n.Depth }, i)
  | _ =>
    .ok ({ st with Output := st.Output ++ brackets, previousDepth := n.Depth }, i)

/-- The loop `for i := index+1; i < len && Nodes[i].Depth > subtreeDepth; i++` of
`SubTreeToStandardOutput`, with the number of remaining iterations as budget. -/
def renderLoop : Nat → ParseTree → Int → Int → Int → RenderState → Res RenderState
  | 0, _, _, _, _, st => .ok st
  | k + 1, tree, judgementDepth, subtreeDepth, i, st =>
    if i < (tree.Nodes.length : Int) then
      (getNode tree.Nodes i).bind fun n =>
      if n.Depth > subtreeDepth then
        (renderStep tree judgementDepth i st).bind fun r =>
          renderLoop k tree judgementDepth subtreeDepth (r.2 + 1) r.1
      else .ok st
    else .ok st

/-- The method `SubTreeToStandardOutput`. -/
def SubTreeToStandardOutput (tree : ParseTree) (index : Int) : Res GoString :=
  (getNode tree.Nodes index).bind fun n0 =>
  let index1 := if n0.Token = .TokenLambda then index + 1 else index
  (getNode tree.Nodes index1).bind fun root =>
  let judgementDepth : Int := if root.Token = .TokenDoubleDot then root.Depth else -1
  let subtreeDepth := root.Depth
  (renderLoop (tree.Nodes.length + 1) tree judgementDepth subtreeDepth (index1 + 1)
      ⟨[], false, false, false, false, root.Depth⟩).bind fun st =>
  .ok (st.Output ++ List.replicate (st.previousDepth - subtreeDepth).toNat ')')

/-! ## Globals/Globals.go: the context -/

/-- Inner loop of `FindInList`: `for ind := 0; ind <= len(VarName); ind++`, returning
whether the end of `VarName` was reached (`return i`) or a character differed (`break`).
Reading `variableName[ind]` beyond its end panics. -/
def nameLoop : Nat → GoString → GoString → Int → Res Bool
  | 0, _, _, _ => .ok false
  | k + 1, varName, variableName, ind =>
    if ind ≤ (varName.length : Int) then
      if ind = (varName.length : Int) then .ok true
      else
        (charAtR varName ind).bind fun a =>
        (charAtR variableName ind).bind fun b =>
        if a ≠ b then .ok false
        else nameLoop k varName variableName (ind + 1)
    else .ok false

/-- Outer loop of `FindInList`: `for i := len-1; i >= 0; i--`; the counter `k` stands for
the index `i = k - 1`. -/
def findLoop : Nat → List VariableType → GoString → Res Int
  | 0, _, _ => .ok (-1)
  | k + 1, list, variableName =>
    match list[k]? with
    | none => .panic
    | some e =>
      (charAtR e.VarName 0).bind fun a =>
      (charAtR variableName 0).bind fun b =>
      if a = b then
        (nameLoop (e.VarName.length + 1) e.VarName variableName 0).bind fun hit =>
        if hit then .ok (k : Int) else findLoop k list variableName
      else findLoop k list variableName

/-- The method `FindInList`. -/
def FindInList (context : VarTypeList) (variableName : GoString) : Res Int :=
  if context.list.length = 0 ∨ variableName.length = 0 then .ok (-1)
  else findLoop context.list.length context.list variableName

/-- The method `AddVarType`. -/
def AddVarType (context : VarTypeList) (variableName typeName : GoString) : VarTypeList :=
  { list := context.list ++ [⟨variableName, typeName⟩] }

/-- The method `GetLast`. -/
def GetLast (context : VarTypeList) (variableName : GoString) : Res GoString :=
  (FindInList context variableName).bind fun foundindex =>
  if foundindex = -1 then .ok "err".toList
  else
    if foundindex < 0 then .panic
    else match context.list[foundindex.toNat]? with
      | some e => .ok e.TypeName
      | none => .panic

/-! ## TypeChecker/TypeChecker.go -/

/-- The function `calcParts`: the expression text and the type text. -/
def calcParts (v : Vars) : Res (GoString × GoString) :=
  (SubTreeToStandardOutput v.Tree 1).bind fun e =>
  (SubTreeToStandardOutput v.Tree v.Tree.IndexDoubleDot).bind fun t => .ok (e, t)

/-- The rule constants of the type checker. -/
inductive Rule where
  | VariableRule
  | ApplicationRule
  | LamdbaRule
deriving DecidableEq, Repr

/-- A Go string given by its bytes. -/
def ofBytes (bs : List Nat) : GoString := bs.map Char.ofNat

/-- The conversion `string(b)` of a byte `b`: the UTF-8 text of the code point `b`, which
is the byte itself below 0x80 and the two bytes `0xC0 | b>>6`, `0x80 | b&0x3F` from
there on. -/
def byteToString (b : Char) : GoString :=
  if b.toNat < 128 then [b]
  else [Char.ofNat (192 + b.toNat / 64 % 4), Char.ofNat (128 + b.toNat % 64)]

/-- The loop of `findE` over the bytes from `index` on: `currLetter` is the byte
`expressionSlice[i]`, and `word += string(currLetter)` appends the text of that byte. -/
def findELoop : GoString → Int → Bool → GoString → GoString
  | [], _, _, word => word
  | currLetter :: rest, countbrack, firstE, word =>
    let c1 := if currLetter = '(' then countbrack + 1
      else if currLetter = ')' ∨ (firstE = true ∧ currLetter = ' ') then countbrack - 1
      else countbrack
    if c1 = 0 then word else findELoop rest c1 firstE (word ++ byteToString currLetter)

/-- The function `findE`; with a negative `index` the first read `expressionSlice[i]`
panics. -/
def findE (expressionSlice : GoString) (index : Int) (firstE : Bool) : Res GoString :=
  if index < 0 then .panic
  else .ok (findELoop (expressionSlice.drop index.toNat) 1 firstE [])

/-- The loop of `findWord`: the letters up to the first character that is no letter. -/
def findWordLoop : GoString → GoString → GoString
  | [], word => word
  | r :: rest, word => if !IsLetter r then word else findWordLoop rest (word ++ [r])

/-- The function `findWord`; the slice `expressionSlice[index:]` panics out of range. -/
def findWord (expressionSlice : GoString) (index : Int) : Res GoString :=
  if index < 0 ∨ (expressionSlice.length : Int) < index then .panic
  else .ok (findWordLoop (expressionSlice.drop index.toNat) [])

/-- The function `findRule`. -/
def findRule (expressionSlice : GoString) : Rule :=
  if expressionSlice.length ≥ 1 ∧ expressionSlice[0]? = some '(' then
    if expressionSlice.length ≥ 2 ∧ expressionSlice[1]? = some '\\' then .LamdbaRule
    else .ApplicationRule
  else .VariableRule

/-- The statement `fmt.Fprintf(os.Stderr, ...)` without an exit. -/
def eprint (v : Vars) (msg : GoString) : Vars :=
  { v with Stderr := v.Stderr ++ [msg] }

/-- The function `findType`, with a recursion budget: the type text and the new state. -/
def findTypeFuel : Nat → Vars → GoString → Res (GoString × Vars)
  | 0, _, _ => .outOfFuel
  | n + 1, v, expressionSlice =>
    match findRule expressionSlice with
    | .VariableRule =>
      (GetLast v.Context expressionSlice).bind fun _ =>
      (FindInList v.Context expressionSlice).bind fun idx =>
      if idx = -1 then .exit "Typecheck error: Variable not in context".toList
      else (GetLast v.Context expressionSlice).bind fun word => .ok (word, v)
    | .ApplicationRule =>
      (findE expressionSlice 1 true).bind fun E1 =>
      (findE expressionSlice (2 + (E1.length : Int)) false).bind fun E2 =>
      (findTypeFuel n v E1).bind fun r1 =>
      (findTypeFuel n r1.2 E2).bind fun r2 =>
      let T1 := r1.1
      let T2 := r2.1
      (sliceTo T1 ((T2.length : Int) + 3)).bind fun p1 =>
      let v1 := if p1 ≠ T2 ++ "->".toList
        then eprint r2.2 "Typecheck error: E1 should find a function type".toList else r2.2
      (sliceTo T1 (T2.length : Int)).bind fun p2 =>
      let v2 := if T2 ≠ p2
        then eprint v1 "Typecheck error: codomain E1 not the same as type of E2".toList else v1
      (sliceFromTo T1 ((T2.length : Int) + 3) ((T1.length : Int) - 1)).bind fun word =>
        .ok (word, v2)
    | .LamdbaRule =>
      (findWord expressionSlice 2).bind fun foundVar =>
      (findE expressionSlice (4 + (foundVar.length : Int)) false).bind fun T1 =>
      let v1 := { v with Context := AddVarType v.Context foundVar T1 }
      (findE expressionSlice (5 + (foundVar.length : Int) + (T1.length : Int)) false).bind fun E1 =>
      (findTypeFuel n v1 E1).bind fun r =>
        .ok ("(".toList ++ T1 ++ "->".toList ++ r.1 ++ ")".toList, r.2)

/-- The function `findType`; the budget is the length of the text plus two. -/
def findType (v : Vars) (expressionSlice : GoString) : Res (GoString × Vars) :=
  findTypeFuel (expressionSlice.length + 2) v expressionSlice

/-- The statement `fmt.Println(...)`. -/
def println (v : Vars) (msg : GoString) : Vars :=
  { v with Stdout := v.Stdout ++ [msg] }

/-- The function `TypeChecker`. -/
def TypeChecker (v : Vars) : Res Vars :=
  (calcParts v).bind fun parts =>
  (findType v parts.1).bind fun r =>
  if parts.2 = r.1 then .ok (println r.2 "Type checks out".toList)
  else .ok (println r.2 "Does not type check".toList)

/-! ## main.go -/

/-- The start of the loop body of `main` for one line of input: reset the line-scoped
fields, read the first token, parse. -/
def parseLine (v : Vars) (line : GoString) : Res Vars :=
  let v1 := { v with CurrentLine := line, CountBrackets := 0, ExpectVariable := false,
                     DebugMode := false, Index := -1,
                     Tree := { v.Tree with IndexDoubleDot := -1 } }
  (nextToken v1).bind fun v2 => Judgement v2

/-- The loop body of `main` up to and including the type check. -/
def checkLine (v : Vars) (line : GoString) : Res Vars :=
  (parseLine v line).bind fun v3 => TypeChecker v3

/-- The body of the loop of `main` for one line of input. -/
def mainLine (v : Vars) (line : GoString) : Res Vars :=
  (checkLine v line).bind fun v4 =>
  (SubTreeToStandardOutput v4.Tree 0).bind fun out =>
  let v5 := println v4 out
  .ok { v5 with Tree := ClearTree v5.Tree }

/-! ## Reading off results -/

/-- Apply a function to the value of a normal outcome. -/
def Res.map {α β : Type} (f : α → β) (r : Res α) : Res β :=
  r.bind fun a => .ok (f a)

/-! ## Budgets: the notions used to show that no budget is used up -/

/-- The outcome `r` is below `r1`: it is out of budget, or it is `r1`. -/
def Res.le {α : Type} (r r1 : Res α) : Prop := r = .outOfFuel ∨ r = r1

/-- The outcome is not `outOfFuel`. -/
def Res.inBudget {α : Type} (r : Res α) : Prop := r ≠ .outOfFuel

/-- The number of characters of the line from the index on. -/
def charsLeft (v : Vars) : Nat := ((v.CurrentLine.length : Int) - v.Index).toNat

/-- The budget a descent function needs in a state: the characters not yet read, plus
one while the current token is not the end of the line. -/
def budgetNeed (v : Vars) : Nat :=
  charsLeft v + (if v.Token = .LexicalEndOfLine then 0 else 1)

/-- What a call of the lexer from the state `v` gives: an exit, or a token and a state of
the same line with a larger index; a token other than the end of the line was read from
inside the line. -/
def LexGood (v : Vars) (r : Res (Token × Vars)) : Prop :=
  (∃ m, r = .exit m) ∨
  (∃ t v1, r = .ok (t, v1) ∧ v.Index < v1.Index ∧ v1.CurrentLine = v.CurrentLine ∧
    (t ≠ .LexicalEndOfLine → v.Index + 1 < (v.CurrentLine.length : Int)))

/-- An outcome within budget whose final state, if any, still reads the same line, has a
valid index and needs less than `b`. -/
def Within (b : Nat) (line : GoString) (r : Res Vars) : Prop :=
  r.inBudget ∧ ∀ v1, r = .ok v1 → -1 ≤ v1.Index ∧ v1.CurrentLine = line ∧ budgetNeed v1 < b

/-! ## Notions of the specification -/

/-- The sum of `BracketCounter` over all nodes of a tree. -/
def bracketSum (tree : ParseTree) : Int :=
  (tree.Nodes.map fun n => n.BracketCounter).sum

/-- A line is bracket-balanced: scanning left to right, the number of `(` minus the number
of `)` never drops below zero and ends at zero.  `opened` is the count so far. -/
def bracketBalancedFrom : GoString → Nat → Bool
  | [], opened => decide (opened = 0)
  | c :: rest, opened =>
    if c = '(' then bracketBalancedFrom rest (opened + 1)
    else if c = ')' then
      (match opened with
        | 0 => false
        | k + 1 => bracketBalancedFrom rest k)
    else bracketBalancedFrom rest opened

/-- A line is bracket-balanced. -/
def bracketBalanced (line : GoString) : Bool := bracketBalancedFrom line 0

/-- A fresh state whose context holds the given bindings, oldest first. -/
def varsWithContext (bindings : List VariableType) : Vars :=
  { newVars with Context := ⟨bindings⟩ }

/-- Parse a line from a fresh state and render the finished tree from index 0. -/
def renderLine (line : GoString) : Res GoString :=
  (parseLine newVars line).bind fun v => SubTreeToStandardOutput v.Tree 0

/-! ## Notions for the builder claims -/

/-- A node one level deeper: `Depth++`. -/
def incDepth (n : Node) : Node := { n with Depth := n.Depth + 1 }

/-- The value a Go `int` of 64 bits holds for the integer `x`: results outside the range
from `-2^63` to `2^63 - 1` wrap around. -/
def wrapInt64 (x : Int) : Int :=
  (x + 9223372036854775808) % 18446744073709551616 - 9223372036854775808

/-- The synthetic application node at a depth, itself the function side of an
application. -/
def appNode (d : Int) : Node := ⟨.Application, "Apply".toList, d, true, false, 0⟩

/-- The list of `k` nested application nodes at the depths `d`, `d + 1`, ... -/
def appsUp : Nat → Int → List Node
  | 0, _ => []
  | k + 1, d => appNode d :: appsUp k (d + 1)

/-- The argument nodes for the lexemes at the depths `d`, `d - 1`, ... -/
def varsDown : List GoString → Int → List Node
  | [], _ => []
  | x :: xs, d => ⟨.TokenVariable, x, d, true, true, 0⟩ :: varsDown xs (d - 1)

/-- The pre-order flattening of `((x1 x2) x3) ... xn` as the specification describes it,
for `n = rest.length + 2`: the `n - 1` application nodes at the depths `0 .. n - 2`, then
`x1` and `x2` at depth `n - 1`, then `x3 .. xn` at the depths `n - 2` down to `1`. -/
def leftAssocNodes (x1 x2 : GoString) (rest : List GoString) : List Node :=
  ⟨.Application, "Apply".toList, 0, false, false, 0⟩ :: appsUp rest.length 1 ++
    [⟨.TokenVariable, x1, (rest.length : Int) + 1, true, false, 0⟩,
     ⟨.TokenVariable, x2, (rest.length : Int) + 1, true, true, 0⟩] ++
    varsDown rest (rest.length : Int)

/-- The calls `AddToken(TokenVariable, x, 0)` for the lexemes of the list, in order. -/
def addTermVars (tree : ParseTree) : List GoString → Res ParseTree
  | [] => .ok tree
  | x :: xs => (AddToken tree .TokenVariable x 0).bind fun t => addTermVars t xs

/-- The lines of one run of `main`, from a fresh state. -/
def runLines (lines : List GoString) : Res Vars :=
  lines.foldl (fun r line => r.bind fun v => mainLine v line) (.ok newVars)

/-- The state in which `main` reads the first token of a line in a fresh run: the
assignments of the loop body of `main` before its first call of `LexicalAnalyser`. -/
def lineStart (line : GoString) : Vars :=
  { newVars with CurrentLine := line, CountBrackets := 0, ExpectVariable := false,
                 DebugMode := false, Index := -1,
                 Tree := { newVars.Tree with IndexDoubleDot := -1 } }

/-- A normal outcome of a builder step leaves `IndexDoubleDot` at `i`. -/
def KeepsIndex (i : Int) (r : Res ParseTree) : Prop :=
  ∀ t, r = .ok t → t.IndexDoubleDot = i

/-- The builder calls the parser makes for a judgement `x : A` whose term is the single
variable `x` and whose type is the single type variable `A`: `VarExpr` adds the variable
to the cleared tree, `JudgementFunction` adds the separator and sets `IndexDoubleDot`,
`TypeExpr` adds the type variable.  `b1` and `b2` are the bracket counts of `CalcBrack`. -/
def singleVarJudgement (x A : GoString) (b1 b2 : Int) : Res ParseTree :=
  (AddToken (ClearTree newVars.Tree) .TokenVariable x b1).bind fun t1 =>
  (AddToken t1 .TokenDoubleDot "Judge".toList 0).bind fun t2 =>
  AddToken { t2 with IndexDoubleDot := (t2.Nodes.length : Int) } .TokenUVar A b2

/-! ## The recursion budget

A larger budget never changes an outcome other than `outOfFuel`: the descent functions are
monotone in their budget for the order `Res.le`. -/

theorem Res.le_refl {α : Type} (r : Res α) : Res.le r r := Or.inr rfl

theorem Res.le_trans {α : Type} {a b c : Res α} (h1 : Res.le a b) (h2 : Res.le b c) :
    Res.le a c := by
  rcases h1 with h | h
  · exact Or.inl h
  · subst h; exact h2

theorem Res.bind_le {α β : Type} {r r1 : Res α} {g g1 : α → Res β}
    (h : Res.le r r1) (hg : ∀ a, Res.le (g a) (g1 a)) : Res.le (r.bind g) (r1.bind g1) := by
  rcases h with h | h
  · left; rw [h]; rfl
  · subst h
    cases r with
    | ok a => exact hg a
    | exit m => right; rfl
    | panic => right; rfl
    | outOfFuel => left; rfl

theorem TypeExpr_le (n : Nat) : ∀ v, Res.le (TypeExpr n v) (TypeExpr (n + 1) v) := by
  induction n with
  | zero => intro v; left; rfl
  | succ n ih =>
    intro v
    rw [TypeExpr, TypeExpr]
    repeat (first
      | exact ih _
      | exact Res.le_refl _
      | (apply Res.bind_le (Res.le_refl _); intro _)
      | (apply Res.bind_le (ih _); intro _)
      | split)

theorem LExpr_le (n : Nat) : ∀ v, Res.le (LExpr n v) (LExpr (n + 1) v) := by
  induction n with
  | zero => intro v; left; rfl
  | succ n ih =>
    intro v
    rw [LExpr, LExpr]
    repeat (first
      | exact ih _
      | exact TypeExpr_le _ _
      | exact Res.le_refl _
      | (apply Res.bind_le (Res.le_refl _); intro _)
      | (apply Res.bind_le (ih _); intro _)
      | (apply Res.bind_le (TypeExpr_le _ _); intro _)
      | split)

theorem MsExpr_le (n : Nat) : ∀ v, Res.le (MsExpr n v) (MsExpr (n + 1) v) := by
  induction n with
  | zero => intro v; left; rfl
  | succ n ih =>
    intro v
    rw [MsExpr, MsExpr]
    split
    · exact Res.le_refl _
    · exact Res.bind_le (LExpr_le _ _) fun _ => ih _

theorem JudgementFuel_le (n : Nat) (v : Vars) :
    Res.le (JudgementFuel n v) (JudgementFuel (n + 1) v) := by
  unfold JudgementFuel Expr
  exact Res.bind_le (Res.bind_le (LExpr_le _ _) fun _ => MsExpr_le _ _) fun _ =>
    Res.bind_le (Res.le_refl _) fun _ => TypeExpr_le _ _

/-- Once `Judgement` has an outcome within a budget, every larger budget gives the same
outcome. -/
theorem JudgementFuel_mono (n m : Nat) (v : Vars) (r : Res Vars) (hnm : n ≤ m)
    (h : JudgementFuel n v = r) (hr : r ≠ .outOfFuel) : JudgementFuel m v = r := by
  induction m with
  | zero =>
    have : n = 0 := Nat.le_zero.mp hnm
    subst this; exact h
  | succ m ih =>
    rcases Nat.lt_or_ge n (m + 1) with hlt | hge
    · have hm := ih (Nat.lt_succ_iff.mp hlt)
      rcases JudgementFuel_le m v with h0 | h1
      · rw [hm] at h0; exact absurd h0 hr
      · rw [← h1]; exact hm
    · have : n = m + 1 := Nat.le_antisymm hnm hge
      subst this; exact h

theorem findTypeFuel_le (n : Nat) :
    ∀ v e, Res.le (findTypeFuel n v e) (findTypeFuel (n + 1) v e) := by
  induction n with
  | zero => intro v e; left; rfl
  | succ n ih =>
    intro v e
    rw [findTypeFuel, findTypeFuel]
    repeat (first
      | exact ih _ _
      | exact Res.le_refl _
      | (apply Res.bind_le (Res.le_refl _); intro _)
      | (apply Res.bind_le (ih _ _); intro _)
      | split)

/-! ## The recursion budget is never used up

No function of the builder has the outcome `outOfFuel`, the lexer ends within the budget
`LexicalAnalyser` gives it, and so does the descent within the budget of `Judgement`:
every nested call comes after a token was read, which lowers `budgetNeed`. -/

set_option linter.unusedTactic false
set_option linter.unreachableTactic false

theorem Res.inBudget_bind {α β : Type} {r : Res α} {g : α → Res β}
    (h : r.inBudget) (hg : ∀ a, r = .ok a → (g a).inBudget) : (r.bind g).inBudget := by
  cases r with
  | ok a => exact hg a rfl
  | exit m => intro h; cases h
  | panic => intro h; cases h
  | outOfFuel => exact absurd rfl h

theorem inBudget_ok {α : Type} (a : α) : (Res.ok a).inBudget := by
  intro h; cases h

theorem inBudget_exit {α : Type} (m : GoString) : (Res.exit m : Res α).inBudget := by
  intro h; cases h

theorem inBudget_panic {α : Type} : (Res.panic : Res α).inBudget := by
  intro h; cases h

theorem getNode_inBudget (ns : List Node) (i : Int) : (getNode ns i).inBudget := by
  unfold getNode; split
  · exact inBudget_panic
  · split
    · exact inBudget_ok _
    · exact inBudget_panic

theorem setNode_inBudget (ns : List Node) (i : Int) (n : Node) : (setNode ns i n).inBudget := by
  unfold setNode; split
  · exact inBudget_panic
  · exact inBudget_ok _

theorem updNode_inBudget (ns : List Node) (i : Int) (f : Node → Node) : (updNode ns i f).inBudget :=
  Res.inBudget_bind (getNode_inBudget _ _) fun _ _ => setNode_inBudget _ _ _

theorem popNode_inBudget (ns : List Node) : (popNode ns).inBudget := by
  unfold popNode; split
  · exact inBudget_panic
  · exact inBudget_ok _

theorem incrementLoop_inBudget (k : Nat) : ∀ ns i, (incrementLoop k ns i).inBudget := by
  induction k with
  | zero => intro ns i; exact inBudget_ok _
  | succ k ih =>
    intro ns i
    rw [incrementLoop]
    split
    · exact Res.inBudget_bind (updNode_inBudget _ _ _) fun _ _ => ih _ _
    · exact inBudget_ok _

theorem IncrementDepthFromIndex_inBudget (t : ParseTree) (i : Int) :
    (IncrementDepthFromIndex t i).inBudget :=
  Res.inBudget_bind (incrementLoop_inBudget _ _ _) fun _ _ => inBudget_ok _

theorem collectMoved_inBudget (k : Nat) : ∀ ns i moved, (collectMoved k ns i moved).inBudget := by
  induction k with
  | zero => intro ns i m; exact inBudget_ok _
  | succ k ih =>
    intro ns i m
    rw [collectMoved]
    split
    · exact Res.inBudget_bind (getNode_inBudget _ _) fun _ _ => ih _ _ _
    · exact inBudget_ok _

theorem writeMoved_inBudget (k : Nat) : ∀ ns moved index i, (writeMoved k ns moved index i).inBudget := by
  induction k with
  | zero => intro ns m x i; exact inBudget_ok _
  | succ k ih =>
    intro ns m x i
    rw [writeMoved]
    split
    · exact Res.inBudget_bind (getNode_inBudget _ _) fun _ _ =>
        Res.inBudget_bind (setNode_inBudget _ _ _) fun _ _ => ih _ _ _ _
    · exact inBudget_ok _

theorem injectNodes_inBudget (ns : List Node) (n : Node) (i : Int) : (injectNodes ns n i).inBudget :=
  Res.inBudget_bind (collectMoved_inBudget _ _ _ _) fun _ _ =>
  Res.inBudget_bind (setNode_inBudget _ _ _) fun _ _ =>
  Res.inBudget_bind (writeMoved_inBudget _ _ _ _ _) fun _ _ =>
  Res.inBudget_bind (getNode_inBudget _ _) fun _ _ => inBudget_ok _

theorem UVarFunctToNestedFunc_inBudget (t : ParseTree) (p : Node) (i : Int) (tok : Token)
    (lex : GoString) (b : Int) : (UVarFunctToNestedFunc t p i tok lex b).inBudget := by
  unfold UVarFunctToNestedFunc
  repeat (first
    | exact inBudget_ok _
    | (apply Res.inBudget_bind (popNode_inBudget _); intro _ _)
    | (apply Res.inBudget_bind (getNode_inBudget _ _); intro _ _)
    | (apply Res.inBudget_bind (updNode_inBudget _ _ _); intro _ _)
    | (apply Res.inBudget_bind (injectNodes_inBudget _ _ _); intro _ _))

theorem UVarFuncToPrevUVar_inBudget (t : ParseTree) (p : Node) (tok : Token)
    (lex : GoString) (b : Int) : (UVarFuncToPrevUVar t p tok lex b).inBudget := by
  unfold UVarFuncToPrevUVar
  repeat (first
    | exact inBudget_ok _
    | (apply Res.inBudget_bind (popNode_inBudget _); intro _ _)
    | (apply Res.inBudget_bind (getNode_inBudget _ _); intro _ _)
    | (apply Res.inBudget_bind (updNode_inBudget _ _ _); intro _ _)
    | (apply Res.inBudget_bind (injectNodes_inBudget _ _ _); intro _ _))

theorem UVarFuncToBracketNode_inBudget (t : ParseTree) (p : Node) (i : Int) (tok : Token)
    (lex : GoString) (b : Int) : (UVarFuncToBracketNode t p i tok lex b).inBudget := by
  unfold UVarFuncToBracketNode
  repeat (first
    | exact inBudget_ok _
    | (apply Res.inBudget_bind (popNode_inBudget _); intro _ _)
    | (apply Res.inBudget_bind (getNode_inBudget _ _); intro _ _)
    | (apply Res.inBudget_bind (updNode_inBudget _ _ _); intro _ _)
    | (apply Res.inBudget_bind (IncrementDepthFromIndex_inBudget _ _); intro _ _)
    | (apply Res.inBudget_bind (injectNodes_inBudget _ _ _); intro _ _))

theorem cancelLoop_inBudget (k : Nat) : ∀ ns n, (cancelLoop k ns n).inBudget := by
  induction k with
  | zero => intro ns n; exact inBudget_ok _
  | succ k ih =>
    intro ns n
    rw [cancelLoop]
    split
    · apply Res.inBudget_bind (getNode_inBudget _ _); intro _ _
      split
      · exact Res.inBudget_bind (setNode_inBudget _ _ _) fun _ _ => ih _ _
      · exact ih _ _
    · exact inBudget_ok _

theorem lambdaLoop_inBudget (k : Nat) : ∀ t tok lex b, (lambdaLoop k t tok lex b).inBudget := by
  induction k with
  | zero => intro t tok lex b; exact inBudget_ok _
  | succ k ih =>
    intro t tok lex b
    rw [lambdaLoop]
    apply Res.inBudget_bind (getNode_inBudget _ _); intro _ _
    split
    · repeat (first
        | exact inBudget_ok _
        | (apply Res.inBudget_bind (getNode_inBudget _ _); intro _ _)
        | (apply Res.inBudget_bind (updNode_inBudget _ _ _); intro _ _)
        | (apply Res.inBudget_bind (IncrementDepthFromIndex_inBudget _ _); intro _ _)
        | (apply Res.inBudget_bind (injectNodes_inBudget _ _ _); intro _ _))
    · exact ih _ _ _ _

theorem ApplyToClosestLambda_inBudget (t : ParseTree) (tok : Token) (lex : GoString) (b : Int) :
    (ApplyToClosestLambda t tok lex b).inBudget :=
  Res.inBudget_bind (cancelLoop_inBudget _ _ _) fun _ _ => lambdaLoop_inBudget _ _ _ _ _

theorem IsPrevLambda_inBudget (t : ParseTree) (tok : Token) (lex : GoString) (b : Int) :
    (IsPrevLambda t tok lex b).inBudget := by
  unfold IsPrevLambda
  split
  · apply Res.inBudget_bind (getNode_inBudget _ _); intro _ _
    split <;> exact inBudget_ok _
  · exact inBudget_ok _

theorem ApplyToBracketNode_inBudget (t : ParseTree) (i : Int) (tok : Token) (lex : GoString)
    (b : Int) : (ApplyToBracketNode t i tok lex b).inBudget := by
  unfold ApplyToBracketNode
  repeat (first
    | exact inBudget_ok _
    | (apply Res.inBudget_bind (getNode_inBudget _ _); intro _ _)
    | (apply Res.inBudget_bind (setNode_inBudget _ _ _); intro _ _)
    | (apply Res.inBudget_bind (updNode_inBudget _ _ _); intro _ _)
    | (apply Res.inBudget_bind (IncrementDepthFromIndex_inBudget _ _); intro _ _)
    | exact injectNodes_inBudget _ _ _
    | (apply Res.inBudget_bind (injectNodes_inBudget _ _ _); intro _ _)
    | (apply Res.inBudget_bind ?_ ?_)
    | intro _ _
    | split)

theorem notAppliedLoop_inBudget (k : Nat) : ∀ t tok lex b, (notAppliedLoop k t tok lex b).inBudget := by
  induction k with
  | zero => intro t tok lex b; exact inBudget_ok _
  | succ k ih =>
    intro t tok lex b
    rw [notAppliedLoop]
    apply Res.inBudget_bind (getNode_inBudget _ _); intro _ _
    split
    · repeat (first
        | exact inBudget_ok _
        | (apply Res.inBudget_bind (getNode_inBudget _ _); intro _ _)
        | (apply Res.inBudget_bind (updNode_inBudget _ _ _); intro _ _)
        | (apply Res.inBudget_bind (IncrementDepthFromIndex_inBudget _ _); intro _ _)
        | (apply Res.inBudget_bind (injectNodes_inBudget _ _ _); intro _ _))
    · exact ih _ _ _ _

theorem ApplyToPrevNode_inBudget (t : ParseTree) (tok : Token) (lex : GoString) (b : Int) :
    (ApplyToPrevNode t tok lex b).inBudget := by
  unfold ApplyToPrevNode
  repeat (first
    | exact inBudget_ok _
    | (apply Res.inBudget_bind (updNode_inBudget _ _ _); intro _ _)
    | (apply Res.inBudget_bind (injectNodes_inBudget _ _ _); intro _ _))

theorem bracketLoop_inBudget (k : Nat) : ∀ ns t, (bracketLoop k ns t).inBudget := by
  induction k with
  | zero => intro ns t; exact inBudget_ok _
  | succ k ih =>
    intro ns t
    rw [bracketLoop]
    repeat (first
      | exact inBudget_ok _
      | exact ih _ _
      | exact updNode_inBudget _ _ _
      | (apply Res.inBudget_bind (getNode_inBudget _ _); intro _ _)
      | (apply Res.inBudget_bind (updNode_inBudget _ _ _); intro _ _)
      | (apply Res.inBudget_bind ?_ ?_)
      | intro _ _
      | split)

theorem appliedLoop_inBudget (k : Nat) : ∀ ns lo f, (appliedLoop k ns lo f).inBudget := by
  induction k with
  | zero => intro ns lo f; exact inBudget_ok _
  | succ k ih =>
    intro ns lo f
    rw [appliedLoop]
    split
    · apply Res.inBudget_bind (getNode_inBudget _ _); intro _ _
      split <;> exact ih _ _ _
    · exact inBudget_ok _

theorem openBracketLoop_inBudget (k : Nat) : ∀ ns, (openBracketLoop k ns).inBudget := by
  induction k with
  | zero => intro ns; exact inBudget_ok _
  | succ k ih =>
    intro ns
    rw [openBracketLoop]
    apply Res.inBudget_bind (getNode_inBudget _ _); intro _ _
    split
    · exact inBudget_ok _
    · exact ih _

theorem AddToken_inBudget (t : ParseTree) (tok : Token) (lex : GoString) (b : Int) :
    (AddToken t tok lex b).inBudget := by
  unfold AddToken
  repeat (first
    | exact inBudget_ok _
    | exact UVarFuncToBracketNode_inBudget _ _ _ _ _ _
    | exact UVarFunctToNestedFunc_inBudget _ _ _ _ _ _
    | exact UVarFuncToPrevUVar_inBudget _ _ _ _ _
    | exact ApplyToClosestLambda_inBudget _ _ _ _
    | exact ApplyToBracketNode_inBudget _ _ _ _ _
    | exact ApplyToClosestNotAppliedApplication.eq_1 _ _ _ _ ▸ notAppliedLoop_inBudget _ _ _ _ _
    | exact ApplyToPrevNode_inBudget _ _ _ _
    | (apply Res.inBudget_bind (getNode_inBudget _ _); intro _ _)
    | (apply Res.inBudget_bind (popNode_inBudget _); intro _ _)
    | (apply Res.inBudget_bind (updNode_inBudget _ _ _); intro _ _)
    | (apply Res.inBudget_bind (IncrementDepthFromIndex_inBudget _ _); intro _ _)
    | (apply Res.inBudget_bind (injectNodes_inBudget _ _ _); intro _ _)
    | (apply Res.inBudget_bind (bracketLoop_inBudget _ _ _); intro _ _)
    | (apply Res.inBudget_bind (appliedLoop_inBudget _ _ _ _); intro _ _)
    | (apply Res.inBudget_bind (IsPrevLambda_inBudget _ _ _ _); intro _ _)
    | (apply Res.inBudget_bind (openBracketLoop_inBudget _ _); intro _ _)
    | split)

theorem charAtR_inBudget (s : GoString) (i : Int) : (charAtR s i).inBudget := by
  unfold charAtR; split
  · exact inBudget_ok _
  · exact inBudget_panic

theorem calcLeft_inBudget (k : Nat) : ∀ line c, (calcLeft k line c).inBudget := by
  induction k with
  | zero => intro l c; exact inBudget_ok _
  | succ k ih =>
    intro l c
    rw [calcLeft]
    apply Res.inBudget_bind (charAtR_inBudget _ _); intro _ _
    split
    · exact ih _ _
    · split
      · exact ih _ _
      · exact inBudget_ok _

theorem calcRight_inBudget (k : Nat) : ∀ line i c, (calcRight k line i c).inBudget := by
  induction k with
  | zero => intro l i c; exact inBudget_ok _
  | succ k ih =>
    intro l i c
    rw [calcRight]
    split
    · apply Res.inBudget_bind (charAtR_inBudget _ _); intro _ _
      split
      · exact ih _ _ _
      · split
        · exact ih _ _ _
        · exact inBudget_ok _
    · exact inBudget_ok _

theorem CalcBrack_inBudget (v : Vars) : (CalcBrack v).inBudget :=
  Res.inBudget_bind (calcLeft_inBudget _ _ _) fun _ _ => calcRight_inBudget _ _ _ _

theorem GetChar_spec (v : Vars) (h : -1 ≤ v.Index) :
    ∃ v1, GetChar v = .ok v1 ∧ v1.Index = v.Index + 1 ∧ v1.CurrentLine = v.CurrentLine ∧
      v1.Token = v.Token ∧
      ((v1.CurrentLine.length : Int) ≤ v1.Index → v1.CharClass = .ENDOFLINE) := by
  unfold GetChar
  by_cases hlen : v.Index + 1 ≥ (v.CurrentLine.length : Int)
  · simp [hlen]
  · simp only [hlen, if_false]
    have h0 : ¬ (v.Index + 1 < 0) := by omega
    have h1 : (v.Index + 1).toNat < v.CurrentLine.length := by omega
    simp only [charAt, h0, if_false]
    rw [List.getElem?_eq_getElem h1]
    refine ⟨_, rfl, rfl, rfl, rfl, ?_⟩
    intro hc
    simp at hc
    omega

theorem identLoop_spec (n : Nat) : ∀ v : Vars, 0 ≤ v.Index →
    ((v.CurrentLine.length : Int) ≤ v.Index → v.CharClass = .ENDOFLINE) →
    charsLeft v ≤ n →
    ∃ v1, identLoop (n + 1) v = .ok v1 ∧ v.Index ≤ v1.Index ∧
      v1.CurrentLine = v.CurrentLine ∧
      ((v.CharClass = .LOWLETTER ∨ v.CharClass = .UPLETTER ∨ v.CharClass = .DIGIT) →
        v.Index < v1.Index) := by
  induction n with
  | zero =>
    intro v h0 hE hr
    have hlen : (v.CurrentLine.length : Int) ≤ v.Index := by unfold charsLeft at hr; omega
    have hc := hE hlen
    have hn : ¬ (v.CharClass = .LOWLETTER ∨ v.CharClass = .UPLETTER ∨ v.CharClass = .DIGIT) := by
      rw [hc]; simp
    refine ⟨v, ?_, le_refl _, rfl, fun h => absurd h hn⟩
    rw [identLoop, if_neg hn]
  | succ n ih =>
    intro v h0 hE hr
    rw [identLoop]
    by_cases hc : v.CharClass = .LOWLETTER ∨ v.CharClass = .UPLETTER ∨ v.CharClass = .DIGIT
    · rw [if_pos hc]
      have hlt : v.Index < (v.CurrentLine.length : Int) := by
        by_contra hge
        have := hE (by omega)
        rw [this] at hc; simp at hc
      obtain ⟨v1, hg, hi, hl, _, hE1⟩ := GetChar_spec (AddChar v) (by simp [AddChar]; omega)
      simp only [AddChar] at hi hl
      rw [hg]
      have hr1 : charsLeft v1 ≤ n := by unfold charsLeft at hr ⊢; rw [hl, hi]; omega
      obtain ⟨v2, h2, hi2, hl2, _⟩ := ih v1 (by omega) hE1 hr1
      refine ⟨v2, h2, by omega, by rw [hl2, hl], fun _ => by omega⟩
    · rw [if_neg hc]
      exact ⟨v, rfl, le_refl _, rfl, fun h => absurd h hc⟩

/-- The identifier branches of the lexer: the loop ends within its budget, and the index
rests on the last character of the identifier. -/
theorem identToken_spec (v1 : Vars) (t : Token) (h0 : 0 ≤ v1.Index)
    (hE : (v1.CurrentLine.length : Int) ≤ v1.Index → v1.CharClass = .ENDOFLINE)
    (hc : v1.CharClass = .LOWLETTER ∨ v1.CharClass = .UPLETTER ∨ v1.CharClass = .DIGIT) :
    ∃ v3, (identLoop (v1.CurrentLine.length + 2) { v1 with PrevToken := v1.Token }).bind
        (fun v3 => Res.ok (t, { v3 with Index := v3.Index - 1 })) = .ok (t, v3) ∧
      v1.Index ≤ v3.Index ∧ v3.CurrentLine = v1.CurrentLine := by
  obtain ⟨v2, h2, _, hl2, hlt⟩ := identLoop_spec (v1.CurrentLine.length + 1)
    { v1 with PrevToken := v1.Token } h0 hE (by unfold charsLeft; simp only; omega)
  refine ⟨{ v2 with Index := v2.Index - 1 }, ?_, ?_, hl2⟩
  · rw [h2]; rfl
  · have := hlt hc
    simp only at this ⊢
    omega

theorem Res.ok_bind {α β : Type} (a : α) (f : α → Res β) : (Res.ok a).bind f = f a := rfl

theorem LexicalAnalyserFuel_spec (n : Nat) : ∀ v : Vars, -1 ≤ v.Index → charsLeft v ≤ n →
    LexGood v (LexicalAnalyserFuel (n + 1) v) := by
  induction n with
  | zero =>
    intro v h0 hr
    obtain ⟨v1, hg, hi, hl, _, hE⟩ := GetChar_spec v h0
    have hc : v1.CharClass = .ENDOFLINE := hE (by unfold charsLeft at hr; rw [hl, hi]; omega)
    right
    refine ⟨.LexicalEndOfLine, { v1 with PrevToken := v1.Token }, ?_, by simp; omega, by simp [hl], by simp⟩
    rw [LexicalAnalyserFuel, hg]
    simp [Res.bind, hc]
  | succ n ih =>
    intro v h0 hr
    obtain ⟨v1, hg, hi, hl, _, hE⟩ := GetChar_spec v h0
    rw [LexicalAnalyserFuel, hg, Res.ok_bind]
    have hlt : v1.CharClass ≠ .ENDOFLINE → v.Index + 1 < (v.CurrentLine.length : Int) := by
      intro hne
      by_contra hge
      exact hne (hE (by rw [hl, hi]; omega))
    have plain : ∀ t : Token, v1.CharClass ≠ .ENDOFLINE →
        LexGood v (Res.ok (t, { v1 with PrevToken := v1.Token })) := by
      intro t hne
      exact Or.inr ⟨t, _, rfl, by simp only; omega, hl, fun _ => hlt hne⟩
    dsimp only
    split
    · next heq =>
      have hcc : v1.CharClass = .LOWLETTER := heq
      obtain ⟨v3, h3, hi3, hl3⟩ := identToken_spec v1 .TokenVariable (by omega) hE (by simp [hcc])
      exact Or.inr ⟨_, v3, h3, by omega, by rw [hl3, hl], fun _ => hlt (by simp [hcc])⟩
    · next heq =>
      have hcc : v1.CharClass = .UPLETTER := heq
      obtain ⟨v3, h3, hi3, hl3⟩ := identToken_spec v1 .TokenUVar (by omega) hE (by simp [hcc])
      exact Or.inr ⟨_, v3, h3, by omega, by rw [hl3, hl], fun _ => hlt (by simp [hcc])⟩
    · next heq =>
      have hcc : v1.CharClass = .TYPESYMBOL := heq
      exact plain _ (by simp [hcc])
    · next heq =>
      have hcc : v1.CharClass = .FUNCTION1 := heq
      obtain ⟨v3, hg3, hi3, hl3, _⟩ :=
        GetChar_spec { v1 with PrevToken := v1.Token } (by simp only; omega)
      rw [hg3]
      exact Or.inr ⟨_, v3, rfl, by simp only at hi3; omega, by rw [hl3]; exact hl,
        fun _ => hlt (by simp [hcc])⟩
    · exact Or.inl ⟨_, rfl⟩
    · exact Or.inl ⟨_, rfl⟩
    · next heq =>
      have hcc : v1.CharClass = .LBRACKET := heq
      exact plain _ (by simp [hcc])
    · next heq =>
      have hcc : v1.CharClass = .RBRACKET := heq
      exact plain _ (by simp [hcc])
    · next heq =>
      have hcc : v1.CharClass = .LAMBDA := heq
      exact plain _ (by simp [hcc])
    · next heq =>
      have hcc : v1.CharClass = .SPACE := heq
      have hlt1 := hlt (by simp [hcc])
      rcases ih { v1 with PrevToken := v1.Token } (by simp only; omega)
        (by unfold charsLeft at hr ⊢; simp only; rw [hl, hi]; omega) with ⟨m, hm⟩ | ⟨t, v3, h3, hi3, hl3, ht⟩
      · exact Or.inl ⟨m, hm⟩
      · exact Or.inr ⟨t, v3, h3, by simp only at hi3; omega, by rw [hl3]; exact hl, fun _ => hlt1⟩
    · next heq =>
      have hcc : v1.CharClass = .DoubleDot := heq
      exact plain _ (by simp [hcc])
    · exact Or.inr ⟨_, _, rfl, by simp only; omega, hl, fun h => absurd rfl h⟩
    · next heq =>
      have hcc : v1.CharClass = .UNDEFINED := heq
      exact plain _ (by simp [hcc])

theorem nextToken_spec (v : Vars) (h0 : -1 ≤ v.Index) :
    (∃ m, nextToken v = .exit m) ∨
    (∃ v1, nextToken v = .ok v1 ∧ v.Index < v1.Index ∧ v1.CurrentLine = v.CurrentLine ∧
      budgetNeed v1 ≤ charsLeft v) := by
  unfold nextToken LexicalAnalyser
  rcases LexicalAnalyserFuel_spec (v.CurrentLine.length + 1) v h0
    (by unfold charsLeft; omega) with ⟨m, hm⟩ | ⟨t, v1, h1, hi, hl, ht⟩
  · left; exact ⟨m, by rw [hm]; rfl⟩
  · right
    refine ⟨{ v1 with Token := t }, by rw [h1]; rfl, hi, hl, ?_⟩
    unfold budgetNeed charsLeft
    simp only
    rw [hl]
    by_cases hte : t = .LexicalEndOfLine
    · simp [hte]; omega
    · have := ht hte
      simp [hte]; omega

theorem Within_exit (b : Nat) (line : GoString) (m : GoString) : Within b line (.exit m) :=
  ⟨inBudget_exit m, fun _ h => by cases h⟩

theorem Within_mono {b c : Nat} {line : GoString} {r : Res Vars} (h : Within b line r)
    (hbc : b ≤ c) : Within c line r :=
  ⟨h.1, fun v1 hv => let ⟨a, l, n⟩ := h.2 v1 hv; ⟨a, l, Nat.lt_of_lt_of_le n hbc⟩⟩

theorem Within_bind {b c : Nat} {line : GoString} {r : Res Vars} {g : Vars → Res Vars}
    (h : Within b line r)
    (hg : ∀ v1, -1 ≤ v1.Index → v1.CurrentLine = line → budgetNeed v1 < b → Within c line (g v1)) :
    Within c line (r.bind g) := by
  cases r with
  | ok a =>
    obtain ⟨h1, h2, h3⟩ := h.2 a rfl
    exact hg a h1 h2 h3
  | exit m => exact Within_exit _ _ _
  | panic => exact ⟨inBudget_panic, fun _ h => by cases h⟩
  | outOfFuel => exact absurd rfl h.1

theorem Within_bind_any {α : Type} {c : Nat} {line : GoString} {r : Res α} {g : α → Res Vars}
    (h : r.inBudget) (hg : ∀ a, Within c line (g a)) : Within c line (r.bind g) := by
  cases r with
  | ok a => exact hg a
  | exit m => exact Within_exit _ _ _
  | panic => exact ⟨inBudget_panic, fun _ h => by cases h⟩
  | outOfFuel => exact absurd rfl h

theorem nextToken_within (v : Vars) (line : GoString) (b : Nat) (h0 : -1 ≤ v.Index)
    (hl : v.CurrentLine = line) (hb : charsLeft v + 1 ≤ b) : Within b line (nextToken v) := by
  rcases nextToken_spec v h0 with ⟨m, hm⟩ | ⟨v1, h1, hi, hl1, hn⟩
  · rw [hm]; exact Within_exit _ _ _
  · rw [h1]
    refine ⟨inBudget_ok _, fun v2 hv => ?_⟩
    cases hv
    exact ⟨by omega, by rw [hl1, hl], by omega⟩

theorem budgetNeed_of_token (v : Vars) (h : v.Token ≠ .LexicalEndOfLine) : budgetNeed v = charsLeft v + 1 := by
  unfold budgetNeed; rw [if_neg h]

theorem charsLeft_le_budgetNeed (v : Vars) : charsLeft v ≤ budgetNeed v := by
  unfold budgetNeed; omega

theorem TypeFunction_spec (v : Vars) (h0 : -1 ≤ v.Index) :
    (TypeFunction v).inBudget ∧ ∀ p, TypeFunction v = .ok p →
      -1 ≤ p.1.Index ∧ p.1.CurrentLine = v.CurrentLine ∧ budgetNeed p.1 ≤ budgetNeed v := by
  unfold TypeFunction
  split
  · next ht =>
    have hw : ∀ t, Within (budgetNeed v + 1) v.CurrentLine (nextToken { v with Tree := t }) := fun t =>
      nextToken_within { v with Tree := t } v.CurrentLine (budgetNeed v + 1) h0 rfl
        (by show charsLeft v + 1 ≤ budgetNeed v + 1; have := charsLeft_le_budgetNeed v; omega)
    constructor
    · apply Res.inBudget_bind (AddToken_inBudget _ _ _ _); intro t _
      exact Res.inBudget_bind (hw t).1 fun _ _ => inBudget_ok _
    · intro p hp
      cases hA : AddToken v.Tree .TokenFunction "->".toList 0 with
      | ok t =>
        rw [hA, Res.ok_bind] at hp
        cases hN : nextToken { v with Tree := t } with
        | ok v1 =>
          rw [hN, Res.ok_bind] at hp
          cases hp
          obtain ⟨a, l, n⟩ := (hw t).2 v1 hN
          exact ⟨a, l, by show budgetNeed v1 ≤ budgetNeed v; omega⟩
        | exit m => rw [hN] at hp; cases hp
        | panic => rw [hN] at hp; cases hp
        | outOfFuel => rw [hN] at hp; cases hp
      | exit m => rw [hA] at hp; cases hp
      | panic => rw [hA] at hp; cases hp
      | outOfFuel => rw [hA] at hp; cases hp
  · exact ⟨inBudget_ok _, fun p hp => by cases hp; exact ⟨h0, rfl, le_refl _⟩⟩

/-- The tail `if TypeFunction(v) { TypeExpr(v) }` shared by two branches of `TypeExpr`. -/
theorem typeTail_within (n b : Nat) (line : GoString)
    (ih : ∀ v : Vars, -1 ≤ v.Index → budgetNeed v < n → Within (budgetNeed v) v.CurrentLine (TypeExpr n v))
    (v1 : Vars) (h0 : -1 ≤ v1.Index) (hl : v1.CurrentLine = line) (hn : budgetNeed v1 < b) (hb : b ≤ n) :
    Within b line ((TypeFunction v1).bind fun r => if r.2 = true then TypeExpr n r.1 else .ok r.1) := by
  obtain ⟨hB, hS⟩ := TypeFunction_spec v1 h0
  cases hT : TypeFunction v1 with
  | ok p =>
    obtain ⟨a, l, c⟩ := hS p hT
    rw [Res.ok_bind]
    split
    · have := ih p.1 a (by omega)
      rw [l, hl] at this
      exact Within_mono this (by omega)
    · exact ⟨inBudget_ok _, fun v2 hv => by cases hv; exact ⟨a, by rw [l, hl], by omega⟩⟩
  | exit m => exact Within_exit _ _ _
  | panic => exact ⟨inBudget_panic, fun _ h => by cases h⟩
  | outOfFuel => rw [hT] at hB; exact absurd rfl hB

/-- A budget statement used at a later state of the same line. -/
theorem Within_at {n : Nat} {f : Vars → Res Vars}
    (hf : ∀ v : Vars, -1 ≤ v.Index → budgetNeed v < n → Within (budgetNeed v) v.CurrentLine (f v))
    (w : Vars) (line : GoString) (b : Nat) (a : -1 ≤ w.Index) (l : w.CurrentLine = line)
    (c : budgetNeed w < b) (hb : b ≤ n) : Within b line (f w) := by
  have := hf w a (by omega)
  rw [l] at this
  exact Within_mono this (Nat.le_of_lt c)

theorem TypeExpr_within (n : Nat) : ∀ v : Vars, -1 ≤ v.Index → budgetNeed v < n →
    Within (budgetNeed v) v.CurrentLine (TypeExpr n v) := by
  induction n with
  | zero => intro v _ h; omega
  | succ n ih =>
    intro v h0 hn
    rw [TypeExpr]
    split
    · next ht =>
      have hnd := budgetNeed_of_token v (by rw [ht]; simp)
      apply Within_bind_any (CalcBrack_inBudget _); intro b
      apply Within_bind_any (AddToken_inBudget _ _ _ _); intro t
      refine Within_bind (nextToken_within _ v.CurrentLine (budgetNeed v) h0 rfl ?_) ?_
      · show charsLeft v + 1 ≤ budgetNeed v; omega
      · intro v1 a l c
        exact typeTail_within n (budgetNeed v) v.CurrentLine ih v1 a l c (by omega)
    · next ht =>
      have hnd := budgetNeed_of_token v (by rw [ht]; simp)
      refine Within_bind (nextToken_within _ v.CurrentLine (budgetNeed v) h0 rfl ?_) ?_
      · show charsLeft v + 1 ≤ budgetNeed v; omega
      · intro v1 a l c
        refine Within_bind (Within_at ih v1 v.CurrentLine (budgetNeed v) a l c (by omega)) ?_
        intro v2 a2 l2 c2
        split
        · next ht2 =>
          have hnd2 := budgetNeed_of_token v2 (by rw [ht2]; simp)
          refine Within_bind (nextToken_within _ v.CurrentLine (budgetNeed v) a2 l2 ?_) ?_
          · show charsLeft v2 + 1 ≤ budgetNeed v; omega
          · intro v3 a3 l3 c3
            exact typeTail_within n (budgetNeed v) v.CurrentLine ih v3 a3 l3 c3 (by omega)
        · exact ⟨inBudget_ok _, fun v3 hv => by cases hv; exact ⟨a2, l2, c2⟩⟩
    all_goals exact Within_exit _ _ _

theorem VarExpr_within (v : Vars) (h0 : -1 ≤ v.Index) (ht : v.Token ≠ .LexicalEndOfLine) :
    Within (budgetNeed v) v.CurrentLine (VarExpr v) := by
  have hnd := budgetNeed_of_token v ht
  unfold VarExpr
  apply Within_bind_any (CalcBrack_inBudget _); intro b
  apply Within_bind_any (AddToken_inBudget _ _ _ _); intro t
  refine nextToken_within _ v.CurrentLine (budgetNeed v) h0 rfl ?_
  show charsLeft v + 1 ≤ budgetNeed v; omega

theorem LExpr_within (n : Nat) : ∀ v : Vars, -1 ≤ v.Index → budgetNeed v < n →
    Within (budgetNeed v) v.CurrentLine (LExpr n v) := by
  induction n with
  | zero => intro v _ h; omega
  | succ n ih =>
    intro v h0 hn
    rw [LExpr]
    split
    · exact Within_exit _ _ _
    · split
      · exact Within_bind_any (charAtR_inBudget _ _) fun _ => Within_exit _ _ _
      · split
        · next ht =>
          have hnd := budgetNeed_of_token v (by rw [ht]; simp)
          apply Within_bind_any (AddToken_inBudget _ _ _ _); intro t
          refine Within_bind (nextToken_within _ v.CurrentLine (budgetNeed v) h0 rfl ?_) ?_
          · show charsLeft v + 1 ≤ budgetNeed v; omega
          · intro v1 a1 l1 c1
            refine Within_bind (Within_at ih _ v.CurrentLine (budgetNeed v) a1 l1 c1 (by omega)) ?_
            intro v2 a2 l2 c2
            refine Within_bind (Within_at ih _ v.CurrentLine (budgetNeed v) a2 l2 c2 (by omega)) ?_
            intro v3 a3 l3 c3
            refine Within_bind
              (Within_at (TypeExpr_within n) v3 v.CurrentLine (budgetNeed v) a3 l3 c3 (by omega)) ?_
            intro v4 a4 l4 c4
            exact Within_at ih v4 v.CurrentLine (budgetNeed v) a4 l4 c4 (by omega)
        · next ht => exact VarExpr_within v h0 (by rw [ht]; simp)
        · next ht =>
          have hnd := budgetNeed_of_token v (by rw [ht]; simp)
          refine Within_bind (nextToken_within _ v.CurrentLine (budgetNeed v) h0 rfl ?_) ?_
          · show charsLeft v + 1 ≤ budgetNeed v; omega
          · intro v1 a1 l1 c1
            refine Within_bind (Within_at ih v1 v.CurrentLine (budgetNeed v) a1 l1 c1 (by omega)) ?_
            intro v2 a2 l2 c2
            exact Within_at ih v2 v.CurrentLine (budgetNeed v) a2 l2 c2 (by omega)
        · next ht =>
          have hnd := budgetNeed_of_token v (by rw [ht]; simp)
          dsimp only
          split
          · exact Within_exit _ _ _
          · refine nextToken_within _ v.CurrentLine (budgetNeed v) h0 rfl ?_
            show charsLeft v + 1 ≤ budgetNeed v; omega
        · next ht =>
          have hnd := budgetNeed_of_token v (by rw [ht]; simp)
          refine nextToken_within _ v.CurrentLine (budgetNeed v) h0 rfl ?_
          show charsLeft v + 1 ≤ budgetNeed v; omega
        · split <;> exact Within_exit _ _ _
        · split <;> exact Within_exit _ _ _
        · exact Within_exit _ _ _
        · exact Within_exit _ _ _

theorem MsExpr_within (n : Nat) : ∀ v : Vars, -1 ≤ v.Index → budgetNeed v + 1 < n →
    Within (budgetNeed v + 1) v.CurrentLine (MsExpr n v) := by
  induction n with
  | zero => intro v _ h; omega
  | succ n ih =>
    intro v h0 hn
    rw [MsExpr]
    split
    · exact ⟨inBudget_ok _, fun v1 hv => by cases hv; exact ⟨h0, rfl, by omega⟩⟩
    · apply Within_bind (LExpr_within n v h0 (by omega))
      intro v1 a1 l1 c1
      have h1 := ih v1 a1 (by omega)
      rw [l1] at h1
      exact Within_mono h1 (by omega)

theorem JudgementFunction_within (v : Vars) (h0 : -1 ≤ v.Index) :
    Within (budgetNeed v + 1) v.CurrentLine (JudgementFunction v) := by
  unfold JudgementFunction
  split
  · exact Within_exit _ _ _
  · split
    · apply Within_bind_any (AddToken_inBudget _ _ _ _); intro t
      refine nextToken_within _ v.CurrentLine (budgetNeed v + 1) h0 rfl ?_
      show charsLeft v + 1 ≤ budgetNeed v + 1
      have := charsLeft_le_budgetNeed v; omega
    · exact Within_exit _ _ _

/-- `Judgement`, entered after the first token of a line was read, never runs out of its
budget. -/
theorem parseLine_inBudget (v : Vars) (line : GoString) : (parseLine v line).inBudget := by
  unfold parseLine
  have hw := nextToken_within
    { v with CurrentLine := line, CountBrackets := 0, ExpectVariable := false,
             DebugMode := false, Index := -1, Tree := { v.Tree with IndexDoubleDot := -1 } }
    line (line.length + 2) (le_refl _) rfl (by unfold charsLeft; simp only; omega)
  apply Res.inBudget_bind hw.1
  intro v2 hv2
  obtain ⟨a2, l2, c2⟩ := hw.2 v2 hv2
  unfold Judgement JudgementFuel Expr
  rw [l2]
  have hL := LExpr_within (line.length + 4) v2 a2 (by omega)
  have hE : Within (budgetNeed v2 + 1) v2.CurrentLine
      ((LExpr (line.length + 4) v2).bind fun v1 => MsExpr (line.length + 4) v1) := by
    apply Within_bind hL
    intro v3 a3 l3 c3
    have := MsExpr_within (line.length + 4) v3 a3 (by omega)
    rw [l3] at this
    exact Within_mono this (by omega)
  apply Res.inBudget_bind hE.1
  intro v4 hv4
  obtain ⟨a4, l4, c4⟩ := hE.2 v4 hv4
  have hJ := JudgementFunction_within v4 a4
  apply Res.inBudget_bind hJ.1
  intro v5 hv5
  obtain ⟨a5, l5, c5⟩ := hJ.2 v5 hv5
  exact (TypeExpr_within (line.length + 4) v5 a5 (by omega)).1

/-! The renderer and the type checker stay within budget as well: `findType` recurses on
texts that `findE` cut out of the current text, which hold fewer opening brackets (and,
when the text is ASCII, are strictly shorter). -/

theorem sliceTo_inBudget (s : GoString) (n : Int) : (sliceTo s n).inBudget := by
  unfold sliceTo; split
  · exact inBudget_panic
  · exact inBudget_ok _

theorem sliceFromTo_inBudget (s : GoString) (lo hi : Int) : (sliceFromTo s lo hi).inBudget := by
  unfold sliceFromTo; split
  · exact inBudget_panic
  · exact inBudget_ok _

theorem rewrap_inBudget (o l a b : GoString) : (rewrap o l a b).inBudget :=
  Res.inBudget_bind (sliceTo_inBudget _ _) fun _ _ => inBudget_ok _

theorem renderStep_inBudget (t : ParseTree) (j i : Int) (st : RenderState) :
    (renderStep t j i st).inBudget := by
  unfold renderStep
  apply Res.inBudget_bind (getNode_inBudget _ _); intro n _
  dsimp only
  split <;>
  repeat (first
    | exact inBudget_ok _
    | exact inBudget_panic
    | exact rewrap_inBudget _ _ _ _
    | (apply Res.inBudget_bind (getNode_inBudget _ _); intro _ _)
    | (apply Res.inBudget_bind (rewrap_inBudget _ _ _ _); intro _ _)
    | (apply Res.inBudget_bind ?_ ?_)
    | intro _ _
    | split)

theorem renderLoop_inBudget (k : Nat) : ∀ t j s i st, (renderLoop k t j s i st).inBudget := by
  induction k with
  | zero => intro t j s i st; exact inBudget_ok _
  | succ k ih =>
    intro t j s i st
    rw [renderLoop]
    split
    · apply Res.inBudget_bind (getNode_inBudget _ _); intro _ _
      split
      · exact Res.inBudget_bind (renderStep_inBudget _ _ _ _) fun _ _ => ih _ _ _ _ _
      · exact inBudget_ok _
    · exact inBudget_ok _

theorem SubTreeToStandardOutput_inBudget (t : ParseTree) (i : Int) :
    (SubTreeToStandardOutput t i).inBudget := by
  unfold SubTreeToStandardOutput
  apply Res.inBudget_bind (getNode_inBudget _ _); intro _ _
  apply Res.inBudget_bind (getNode_inBudget _ _); intro _ _
  exact Res.inBudget_bind (renderLoop_inBudget _ _ _ _ _ _) fun _ _ => inBudget_ok _

theorem calcParts_inBudget (v : Vars) : (calcParts v).inBudget :=
  Res.inBudget_bind (SubTreeToStandardOutput_inBudget _ _) fun _ _ =>
  Res.inBudget_bind (SubTreeToStandardOutput_inBudget _ _) fun _ _ => inBudget_ok _

theorem nameLoop_inBudget (k : Nat) : ∀ a b i, (nameLoop k a b i).inBudget := by
  induction k with
  | zero => intro a b i; exact inBudget_ok _
  | succ k ih =>
    intro a b i
    rw [nameLoop]
    split
    · split
      · exact inBudget_ok _
      · apply Res.inBudget_bind (charAtR_inBudget _ _); intro _ _
        apply Res.inBudget_bind (charAtR_inBudget _ _); intro _ _
        split
        · exact inBudget_ok _
        · exact ih _ _ _
    · exact inBudget_ok _

theorem findLoop_inBudget (k : Nat) : ∀ l n, (findLoop k l n).inBudget := by
  induction k with
  | zero => intro l n; exact inBudget_ok _
  | succ k ih =>
    intro l n
    rw [findLoop]
    split
    · exact inBudget_panic
    · apply Res.inBudget_bind (charAtR_inBudget _ _); intro _ _
      apply Res.inBudget_bind (charAtR_inBudget _ _); intro _ _
      split
      · apply Res.inBudget_bind (nameLoop_inBudget _ _ _ _); intro _ _
        split
        · exact inBudget_ok _
        · exact ih _ _
      · exact ih _ _

theorem FindInList_inBudget (c : VarTypeList) (n : GoString) : (FindInList c n).inBudget := by
  unfold FindInList; split
  · exact inBudget_ok _
  · exact findLoop_inBudget _ _ _

theorem GetLast_inBudget (c : VarTypeList) (n : GoString) : (GetLast c n).inBudget := by
  unfold GetLast
  apply Res.inBudget_bind (FindInList_inBudget _ _); intro _ _
  split
  · exact inBudget_ok _
  · split
    · exact inBudget_panic
    · split
      · exact inBudget_ok _
      · exact inBudget_panic

/-- The character that `Char.ofNat` makes of a number below the surrogates has that
number as its code. -/
theorem toNat_ofNat_small (k : Nat) (h : k < 55296) : (Char.ofNat k).toNat = k := by
  unfold Char.ofNat
  have hv : k.isValidChar := Or.inl h
  simp only [hv, dite_true, Char.ofNatAux, Char.toNat]
  rfl

/-- The text of an ASCII byte is the byte. -/
theorem byteToString_ascii (b : Char) (h : b.toNat < 128) : byteToString b = [b] := by
  unfold byteToString
  rw [if_pos h]

/-- The text of a byte holds an opening bracket only if the byte is one. -/
theorem byteToString_count (b : Char) :
    (byteToString b).count '(' = if b = '(' then 1 else 0 := by
  unfold byteToString
  by_cases h : b.toNat < 128
  · rw [if_pos h]
    by_cases hb : b = '('
    · subst hb; rfl
    · rw [if_neg hb]
      simp [List.count_cons, hb]
  · rw [if_neg h]
    have hb : b ≠ '(' := by
      intro hb; subst hb; exact h (by decide)
    rw [if_neg hb]
    have h1 : Char.ofNat (192 + b.toNat / 64 % 4) ≠ '(' := by
      intro hc
      have := congrArg Char.toNat hc
      rw [toNat_ofNat_small _ (by omega)] at this
      have h40 : ('('.toNat) = 40 := by decide
      omega
    have h2 : Char.ofNat (128 + b.toNat % 64) ≠ '(' := by
      intro hc
      have := congrArg Char.toNat hc
      rw [toNat_ofNat_small _ (by omega)] at this
      have h40 : ('('.toNat) = 40 := by decide
      omega
    simp [List.count_cons, h1, h2]

/-- The loop of `findE` does not add opening brackets. -/
theorem findELoop_count (s : GoString) : ∀ (c : Int) (f : Bool) (w : GoString),
    (findELoop s c f w).count '(' ≤ w.count '(' + s.count '(' := by
  induction s with
  | nil => intro c f w; simp [findELoop]
  | cons x rest ih =>
    intro c f w
    rw [findELoop]
    generalize (if x = '(' then c + 1 else if x = ')' ∨ f = true ∧ x = ' ' then c - 1 else c) = c1
    by_cases h0 : c1 = 0
    · simp [h0]
    · have := ih c1 f (w ++ byteToString x)
      simp only [h0, if_false, List.count_append, byteToString_count, List.count_cons] at this ⊢
      by_cases hx : x = '('
      · subst hx; simp at this ⊢; omega
      · have hx2 : ¬ (x == '(') = true := by simpa using hx
        simp only [hx, if_false, hx2] at this ⊢
        omega

theorem findE_inBudget (e : GoString) (i : Int) (f : Bool) : (findE e i f).inBudget := by
  unfold findE; split
  · exact inBudget_panic
  · exact inBudget_ok _

theorem findWord_inBudget (e : GoString) (i : Int) : (findWord e i).inBudget := by
  unfold findWord; split
  · exact inBudget_panic
  · exact inBudget_ok _

/-- A text on which the application or the lambda rule applies starts with `(`. -/
theorem findRule_open (e : GoString) (h : findRule e ≠ .VariableRule) :
    ∃ rest, e = '(' :: rest := by
  unfold findRule at h
  split at h
  · next hc =>
    cases e with
    | nil => simp at hc
    | cons a l =>
      have : a = '(' := by simpa using hc.2
      exact ⟨l, by rw [this]⟩
  · exact absurd rfl h

/-- What `findE` returns at a positive index of a text that starts with `(` has fewer
opening brackets than the text. -/
theorem findE_count (e : GoString) (i : Int) (f : Bool) (w rest : GoString)
    (h : findE e i f = .ok w) (hi : 0 < i) (he : e = '(' :: rest) :
    w.count '(' < e.count '(' := by
  unfold findE at h
  rw [if_neg (by omega)] at h
  cases h
  have h1 := findELoop_count (e.drop i.toNat) 1 f []
  obtain ⟨k, hk⟩ : ∃ k, i.toNat = k + 1 := ⟨i.toNat - 1, by omega⟩
  rw [hk, he, List.drop_succ_cons] at h1 ⊢
  have h2 : (rest.drop k).count '(' ≤ rest.count '(' :=
    (List.drop_sublist k rest).count_le _
  simp only [List.count_nil, zero_add, List.count_cons_self] at h1 ⊢
  omega

/-- The budget of `findType` is never used up when it exceeds the number of opening
brackets of the text: every recursive call is on a text with fewer of them. -/
theorem findTypeFuel_count_inBudget (n : Nat) : ∀ (v : Vars) (e : GoString),
    e.count '(' < n → (findTypeFuel n v e).inBudget := by
  induction n with
  | zero => intro v e h; omega
  | succ n ih =>
    intro v e hn
    rw [findTypeFuel]
    split
    · next hr =>
      apply Res.inBudget_bind (GetLast_inBudget _ _); intro _ _
      apply Res.inBudget_bind (FindInList_inBudget _ _); intro _ _
      split
      · exact inBudget_exit _
      · exact Res.inBudget_bind (GetLast_inBudget _ _) fun _ _ => inBudget_ok _
    · next hr =>
      obtain ⟨rest, he⟩ := findRule_open e (by rw [hr]; simp)
      apply Res.inBudget_bind (findE_inBudget _ _ _); intro E1 h1
      apply Res.inBudget_bind (findE_inBudget _ _ _); intro E2 h2
      have l1 := findE_count _ _ _ _ rest h1 (by omega) he
      have l2 := findE_count _ _ _ _ rest h2 (by omega) he
      apply Res.inBudget_bind (ih _ _ (by omega)); intro _ _
      apply Res.inBudget_bind (ih _ _ (by omega)); intro _ _
      dsimp only
      apply Res.inBudget_bind (sliceTo_inBudget _ _); intro _ _
      apply Res.inBudget_bind (sliceTo_inBudget _ _); intro _ _
      exact Res.inBudget_bind (sliceFromTo_inBudget _ _ _) fun _ _ => inBudget_ok _
    · next hr =>
      obtain ⟨rest, he⟩ := findRule_open e (by rw [hr]; simp)
      apply Res.inBudget_bind (findWord_inBudget _ _); intro w _
      apply Res.inBudget_bind (findE_inBudget _ _ _); intro T1 _
      dsimp only
      apply Res.inBudget_bind (findE_inBudget _ _ _); intro E1 h1
      have l1 := findE_count _ _ _ _ rest h1 (by omega) he
      exact Res.inBudget_bind (ih _ _ (by omega)) fun _ _ => inBudget_ok _

theorem findTypeFuel_inBudget (n : Nat) : ∀ (v : Vars) (e : GoString), e.length < n →
    (findTypeFuel n v e).inBudget := fun v e h =>
  findTypeFuel_count_inBudget n v e (lt_of_le_of_lt (List.count_le_length _ _) h)

theorem findType_inBudget (v : Vars) (e : GoString) : (findType v e).inBudget :=
  findTypeFuel_inBudget _ v e (by omega)

theorem TypeChecker_inBudget (v : Vars) : (TypeChecker v).inBudget := by
  unfold TypeChecker
  apply Res.inBudget_bind (calcParts_inBudget _); intro _ _
  apply Res.inBudget_bind (findType_inBudget _ _); intro _ _
  split <;> exact inBudget_ok _

theorem checkLine_inBudget (v : Vars) (line : GoString) : (checkLine v line).inBudget :=
  Res.inBudget_bind (parseLine_inBudget v line) fun _ _ => TypeChecker_inBudget _

/-- The loop body of `main` never has the outcome `outOfFuel`: on every state and every
line the embedding gives what the Go code gives, a normal return, an exit or a panic. -/
theorem mainLine_inBudget (v : Vars) (line : GoString) : (mainLine v line).inBudget := by
  unfold mainLine
  apply Res.inBudget_bind (checkLine_inBudget v line); intro _ _
  exact Res.inBudget_bind (SubTreeToStandardOutput_inBudget _ _) fun _ _ => inBudget_ok _

/-! ## The scenarios of the specification -/

/-- C1: from an empty context the line `\x^A x : A -> A` is lexed, parsed and type checked
without a fatal error.  The term renders as `(\x^(A)x)` and the declared type as `(A->A)`,
`findType` infers `(A->A)` for the rendered term, and the only output is the verdict
"Type checks out". -/
theorem C1_identity_type_checks :
    (parseLine newVars "\\x^A x : A -> A".toList).bind calcParts
        = .ok ("(\\x^(A)x)".toList, "(A->A)".toList) ∧
    ((parseLine newVars "\\x^A x : A -> A".toList).bind fun v =>
        (findType v "(\\x^(A)x)".toList).map Prod.fst) = .ok "(A->A)".toList ∧
    (checkLine newVars "\\x^A x : A -> A".toList).map (fun v => (v.Stdout, v.Stderr))
        = .ok (["Type checks out".toList], []) := by
  decide

/-- C2: from an empty context the line `\x^A \y^B x : A -> B -> A` is processed without a
fatal error and the only output is the verdict "Type checks out"; the inferred and the
declared type text are both `(A->(B->A))`. -/
theorem C2_constant_function_type_checks :
    (parseLine newVars "\\x^A \\y^B x : A -> B -> A".toList).bind calcParts
        = .ok ("(\\x^(A)(\\y^(B)x))".toList, "(A->(B->A))".toList) ∧
    (checkLine newVars "\\x^A \\y^B x : A -> B -> A".toList).map (fun v => (v.Stdout, v.Stderr))
        = .ok (["Type checks out".toList], []) := by
  decide

/-- C3, evaluated: in one run, after `\y^A y : A -> A` (which leaves `y` bound to `A`) and
`\x^A x : A -> A` (which leaves `x` bound to `A`), the line `(\x^A x) y : A` does not reach
a verdict: it ends the run with "Variable not in context".  The same happens from the
contexts `y : A` (then line 1) and `x : A, y : A`.  The term renders as `((\x^(A)x)y)`,
the declared type `A` renders as the empty text, and `findE` splits the term text into
`(\x^(A)x)y` and the empty text, whose type check is the failed lookup. -/
theorem C3_application_line_is_fatal :
    ((mainLine newVars "\\y^A y : A -> A".toList).bind fun v0 =>
      (mainLine v0 "\\x^A x : A -> A".toList).bind fun v1 =>
        (checkLine v1 "(\\x^A x) y : A".toList).map fun v => v.Stdout)
      = .exit "Typecheck error: Variable not in context".toList ∧
    ((mainLine (varsWithContext [⟨"y".toList, "A".toList⟩]) "\\x^A x : A -> A".toList).bind fun v =>
        checkLine v "(\\x^A x) y : A".toList)
      = .exit "Typecheck error: Variable not in context".toList ∧
    checkLine (varsWithContext [⟨"x".toList, "A".toList⟩, ⟨"y".toList, "A".toList⟩])
        "(\\x^A x) y : A".toList
      = .exit "Typecheck error: Variable not in context".toList ∧
    (parseLine newVars "(\\x^A x) y : A".toList).bind calcParts
      = .ok ("((\\x^(A)x)y)".toList, []) ∧
    findE "((\\x^(A)x)y)".toList 1 true = .ok "(\\x^(A)x)y".toList ∧
    findE "((\\x^(A)x)y)".toList 12 false = .ok [] := by
  decide

/-- C4: from an empty context the line `x : A` parses, prints nothing, and its type check
ends the run with the fatal "Variable not in context"; no verdict is reached, neither in
the type check nor in the whole loop body. -/
theorem C4_unbound_variable_is_fatal :
    (parseLine newVars "x : A".toList).map (fun v => (v.Stdout, v.Stderr)) = .ok ([], []) ∧
    checkLine newVars "x : A".toList = .exit "Typecheck error: Variable not in context".toList ∧
    mainLine newVars "x : A".toList = .exit "Typecheck error: Variable not in context".toList := by
  decide

/-- C5, as the claim states it, fails: the parse of `(\x^A x : A->A` does not end with the
"Expected Closing Bracket" diagnostic. -/
theorem C5_not_expected_closing_bracket :
    parseLine newVars "(\\x^A x : A->A".toList
      ≠ .exit "Syntax error: Expected Closing Bracket.".toList := by
  decide

/-- C5, amended: the parse of `(\x^A x : A->A` aborts with the fatal syntax error
"unknown token": the `:` is met where the open bracket still expects an expression. -/
theorem C5_unclosed_bracket_unknown_token :
    parseLine newVars "(\\x^A x : A->A".toList = .exit "Syntax error: unknown token.".toList := by
  decide

/-- C6, evaluated: the parse of `x : A : B` returns normally.  It stops in front of the
second `:`, which is left as the pending token, and the tree is the tree of `x : A`. -/
theorem C6_double_separator_is_accepted :
    (parseLine newVars "x : A : B".toList).map (fun v => (v.Token, v.Index))
      = .ok (.TokenDoubleDot, 6) ∧
    (parseLine newVars "x : A : B".toList).map (fun v => v.Tree)
      = (parseLine newVars "x : A".toList).map (fun v => v.Tree) ∧
    (parseLine newVars "x : A : B".toList).isOk = true := by
  decide

/-- C7, evaluated: the parse of `\x^A x : A : B`, a line with two `:` outside any bracket,
returns normally with the finished tree of `\x^A x : A`; the loop body then even prints a
verdict and the rendering of that tree. -/
theorem C7_two_separators_are_accepted :
    (parseLine newVars "\\x^A x : A : B".toList).isOk = true ∧
    (parseLine newVars "\\x^A x : A : B".toList).map (fun v => v.Tree)
      = (parseLine newVars "\\x^A x : A".toList).map (fun v => v.Tree) ∧
    (mainLine newVars "\\x^A x : A : B".toList).map (fun v => v.Stdout)
      = .ok ["Does not type check".toList, "((\\x^(A)x):A)".toList] := by
  decide

/-- C8, evaluated: the line `(\x^A x) : A->A` is bracket-balanced and accepted, and the
sum of `BracketCounter` over its finished tree is `-1`.  The loss happens in
`ApplyToClosestLambda`: on the nodes `λ`, `x` (counter 1), `A` it cancels the opening
bracket of `x` and then appends the new node with its closing bracket uncancelled. -/
theorem C8_bracket_sum_is_not_zero :
    bracketBalanced "(\\x^A x) : A->A".toList = true ∧
    (parseLine newVars "(\\x^A x) : A->A".toList).map (fun v => bracketSum v.Tree) = .ok (-1) ∧
    (ApplyToClosestLambda
        ⟨-1, [⟨.TokenLambda, ['λ'], 0, false, false, 0⟩, ⟨.TokenVariable, ['x'], 0, false, false, 1⟩,
              ⟨.TokenUVar, ['A'], 1, false, false, 0⟩], 1⟩
        .TokenVariable ['x'] (-1)).map bracketSum = .ok (-1) := by
  decide

/-- C9, evaluated: the parse of `x : (A` returns normally at the end of the line with the
counter `CountBrackets` at 1; the parse of `x : A)` returns normally in front of the `)`;
and the parse of `(x y : A` returns normally with the counter at 1. -/
theorem C9_unbalanced_lines_are_accepted :
    (parseLine newVars "x : (A".toList).map (fun v => (v.Token, v.CountBrackets))
      = .ok (.LexicalEndOfLine, 1) ∧
    (parseLine newVars "x : A)".toList).map (fun v => (v.Token, v.CountBrackets))
      = .ok (.TokenRightBracket, 0) ∧
    (parseLine newVars "(x y : A".toList).map (fun v => (v.Token, v.CountBrackets))
      = .ok (.LexicalEndOfLine, 1) := by
  decide

theorem getNode_append (pre : List Node) (a : Node) (rest : List Node) :
    getNode (pre ++ a :: rest) (pre.length : Int) = .ok a := by
  unfold getNode
  have h : ¬ ((pre.length : Int) < 0) := by omega
  rw [if_neg h, Int.toNat_ofNat, List.getElem?_append_right (Nat.le_refl _)]
  simp

theorem setNode_append (pre : List Node) (a b : Node) (rest : List Node) :
    setNode (pre ++ a :: rest) (pre.length : Int) b = .ok (pre ++ b :: rest) := by
  unfold setNode
  have h : ¬ ((pre.length : Int) < 0 ∨ ((pre ++ a :: rest).length : Int) ≤ (pre.length : Int)) := by
    simp only [List.length_append, List.length_cons]; omega
  rw [if_neg h]
  simp

theorem updNode_append (pre : List Node) (a : Node) (rest : List Node) (f : Node → Node) :
    updNode (pre ++ a :: rest) (pre.length : Int) f = .ok (pre ++ f a :: rest) := by
  unfold updNode
  rw [getNode_append, Res.ok_bind, setNode_append]

theorem incrementLoop_append (suf : List Node) : ∀ (k : Nat) (pre : List Node),
    suf.length ≤ k →
    incrementLoop k (pre ++ suf) (pre.length : Int) = .ok (pre ++ suf.map incDepth) := by
  induction suf with
  | nil =>
    intro k pre _
    cases k with
    | zero => simp [incrementLoop]
    | succ k => rw [incrementLoop]; simp
  | cons a rest ih =>
    intro k pre hk
    cases k with
    | zero => simp at hk
    | succ k =>
      rw [incrementLoop]
      have hlt : (pre.length : Int) < ((pre ++ a :: rest).length : Int) := by
        simp only [List.length_append, List.length_cons]; omega
      rw [if_pos hlt, updNode_append, Res.ok_bind]
      have := ih k (pre ++ [{ a with Depth := a.Depth + 1 }]) (by simpa using hk)
      simp only [List.append_assoc, List.singleton_append, List.length_append, List.length_singleton,
        Nat.cast_add, Nat.cast_one] at this
      rw [this]
      simp [incDepth]

theorem IncrementDepthFromIndex_append (tree : ParseTree) (pre suf : List Node)
    (h : tree.Nodes = pre ++ suf) :
    IncrementDepthFromIndex tree (pre.length : Int)
      = .ok { tree with Nodes := pre ++ suf.map incDepth } := by
  unfold IncrementDepthFromIndex
  rw [h, incrementLoop_append suf _ pre (by simp only [List.length_append]; omega), Res.ok_bind]

theorem collectMoved_append (suf : List Node) : ∀ (k : Nat) (pre acc : List Node),
    suf.length ≤ k →
    collectMoved k (pre ++ suf) (pre.length : Int) acc = .ok (acc ++ suf) := by
  induction suf with
  | nil =>
    intro k pre acc _
    cases k with
    | zero => simp [collectMoved]
    | succ k => rw [collectMoved]; simp
  | cons a rest ih =>
    intro k pre acc hk
    cases k with
    | zero => simp at hk
    | succ k =>
      rw [collectMoved]
      have hlt : (pre.length : Int) < ((pre ++ a :: rest).length : Int) := by
        simp only [List.length_append, List.length_cons]; omega
      rw [if_pos hlt, getNode_append, Res.ok_bind]
      have := ih k (pre ++ [a]) (acc ++ [a]) (by simpa using hk)
      simp only [List.append_assoc, List.singleton_append, List.length_append, List.length_singleton,
        Nat.cast_add, Nat.cast_one] at this
      exact this

theorem writeMoved_append (r : List Node) : ∀ (k : Nat) (q m1 m2 : List Node) (index : Int),
    r.length ≤ k → m2.length = r.length + 1 → index + 1 + (m1.length : Int) = (q.length : Int) →
    writeMoved k (q ++ r) (m1 ++ m2) index (m1.length : Int) = .ok (q ++ m2.dropLast) := by
  induction r with
  | nil =>
    intro k q m1 m2 index _ hm _
    have hnot : ¬ ((m1.length : Int) < ((m1 ++ m2).length : Int) - 1) := by
      simp only [List.length_append, hm, List.length_nil]; omega
    obtain ⟨z, rfl⟩ : ∃ z, m2 = [z] := by
      match m2, hm with
      | [z], _ => exact ⟨z, rfl⟩
    cases k with
    | zero => simp [writeMoved]
    | succ k => rw [writeMoved, if_neg hnot]; simp
  | cons b r ih =>
    intro k q m1 m2 index hk hm hidx
    cases k with
    | zero => simp at hk
    | succ k =>
      match m2, hm with
      | z :: m2, hm =>
        have hm2 : m2.length = r.length + 1 := by simpa using hm
        rw [writeMoved]
        have hlt : (m1.length : Int) < ((m1 ++ z :: m2).length : Int) - 1 := by
          simp only [List.length_append, List.length_cons, hm2]; omega
        rw [if_pos hlt, getNode_append, Res.ok_bind]
        have hpos : index + 1 + (m1.length : Int) = (q.length : Int) := hidx
        rw [hpos, setNode_append, Res.ok_bind]
        have := ih k (q ++ [z]) (m1 ++ [z]) m2 index (by simpa using hk) hm2
          (by simp only [List.length_append, List.length_singleton]; omega)
        simp only [List.append_assoc, List.singleton_append, List.length_append,
          List.length_singleton, Nat.cast_add, Nat.cast_one] at this
        rw [this]
        have hne : m2 ≠ [] := by intro h; rw [h] at hm2; simp at hm2
        rw [List.dropLast_cons_of_ne_nil hne]

theorem injectNodes_append (pre : List Node) (a : Node) (rest : List Node) (x : Node) :
    injectNodes (pre ++ a :: rest) x (pre.length : Int) = .ok (pre ++ x :: a :: rest) := by
  unfold injectNodes
  rw [collectMoved_append (a :: rest) _ pre []
    (by simp only [List.length_append, List.length_cons]; omega), Res.ok_bind, setNode_append,
    Res.ok_bind]
  have hw := writeMoved_append rest ((a :: rest).length + 1) (pre ++ [x]) [] (a :: rest)
    (pre.length : Int) (by simp; omega) (by simp) (by simp)
  simp only [List.nil_append, List.append_assoc, List.singleton_append, List.length_nil,
    Nat.cast_zero] at hw
  rw [List.nil_append, hw, Res.ok_bind]
  have hlast : getNode (a :: rest) (((a :: rest).length : Int) - 1)
      = .ok ((a :: rest).getLast (by simp)) := by
    have := getNode_append (a :: rest).dropLast ((a :: rest).getLast (by simp)) []
    rw [List.dropLast_append_getLast] at this
    simp only [List.length_dropLast, List.length_cons] at this
    simpa using this
  rw [hlast, Res.ok_bind]
  have : (a :: rest).dropLast ++ [(a :: rest).getLast (by simp)] = a :: rest :=
    List.dropLast_append_getLast _
  simp only [List.append_assoc, List.cons_append]
  rw [show pre ++ x :: ((a :: rest).dropLast ++ [(a :: rest).getLast (by simp)])
      = pre ++ x :: (a :: rest) by rw [this]]

theorem getNode_last (ns : List Node) (a : Node) :
    getNode (ns ++ [a]) (((ns ++ [a]).length : Int) - 1) = .ok a := by
  have := getNode_append ns a []
  simpa using this

theorem getNode_nat (ns : List Node) (k : Nat) (h : k < ns.length) :
    getNode ns (k : Int) = .ok ns[k] := by
  unfold getNode
  have h0 : ¬ ((k : Int) < 0) := by omega
  rw [if_neg h0, Int.toNat_ofNat, List.getElem?_eq_getElem h]

theorem openBracketLoop_none (ns : List Node) (h : ∀ n ∈ ns, n.BracketCounter = 0) :
    ∀ k, k ≤ ns.length → openBracketLoop k ns = .ok (-1) := by
  intro k
  induction k with
  | zero => intro _; rfl
  | succ k ih =>
    intro hk
    rw [openBracketLoop, getNode_nat ns k (by omega), Res.ok_bind]
    have := h ns[k] (List.getElem_mem _)
    rw [if_neg (by omega)]
    exact ih (by omega)

theorem notAppliedLoop_first (tree : ParseTree) (a0 : Node) (tl : List Node)
    (tok : Token) (lex : GoString) (b : Int)
    (hn : tree.Nodes = a0 :: tl) (ha : a0.Token = .Application) (hi : a0.IsInApplication = false)
    (ht : ∀ n ∈ tl, ¬ (n.Token = .Application ∧ n.IsInApplication = false)) :
    ∀ k, k ≤ tl.length → notAppliedLoop (k + 1) tree tok lex b = .ok
      { tree with
        currentDepth := a0.Depth + 1
        Nodes := ⟨.Application, "Apply".toList, a0.Depth, false, false, 0⟩ ::
          { a0 with Depth := a0.Depth + 1, IsInApplication := true, IsSecondInApplication := false } ::
          (tl.map incDepth ++ [⟨tok, lex, a0.Depth + 1, true, true, b⟩]) } := by
  intro k
  induction k with
  | zero =>
    intro _
    rw [notAppliedLoop, hn]
    simp only [Nat.cast_zero]
    have g0 := getNode_append [] a0 tl
    simp only [List.nil_append, List.length_nil, Nat.cast_zero] at g0
    rw [g0, Res.ok_bind, if_pos ⟨ha, hi⟩]
    have hinc := IncrementDepthFromIndex_append tree [] (a0 :: tl) hn
    simp only [List.nil_append, List.length_nil, Nat.cast_zero] at hinc
    rw [hinc, Res.ok_bind]
    simp only [List.map_cons]
    have u1 := updNode_append [] (incDepth a0) (tl.map incDepth)
      (fun m => { m with IsInApplication := true })
    simp only [List.nil_append, List.length_nil, Nat.cast_zero] at u1
    rw [u1, Res.ok_bind]
    have u2 := updNode_append [] { incDepth a0 with IsInApplication := true } (tl.map incDepth)
      (fun m => { m with IsSecondInApplication := false })
    simp only [List.nil_append, List.length_nil, Nat.cast_zero] at u2
    rw [u2, Res.ok_bind]
    have hj := injectNodes_append []
      { incDepth a0 with IsInApplication := true, IsSecondInApplication := false }
      (tl.map incDepth) ⟨.Application, "Apply".toList, a0.Depth, false, false, 0⟩
    simp only [List.nil_append, List.length_nil, Nat.cast_zero] at hj
    rw [hj, Res.ok_bind]
    simp [incDepth]
  | succ k ih =>
    intro hk
    rw [notAppliedLoop]
    have hlt : k + 1 < tree.Nodes.length := by rw [hn]; simp; omega
    rw [getNode_nat _ _ hlt, Res.ok_bind]
    have hmem : tree.Nodes[k + 1] ∈ tl := by
      have : tree.Nodes[k + 1] = tl[k] := by simp [hn]
      rw [this]; exact List.getElem_mem _
    rw [if_neg (ht _ hmem)]
    exact ih (by omega)

theorem getNode_mem (ns : List Node) (i : Int) (n : Node) (h : getNode ns i = .ok n) : n ∈ ns := by
  unfold getNode at h
  split at h
  · cases h
  · split at h
    · next hs => cases h; exact List.getElem?_mem hs
    · cases h

/-- `AddToken` of a further argument onto a tree whose root is a free application. -/
theorem AddToken_apply_root (tree : ParseTree) (a0 : Node) (body : List Node) (q : Node)
    (tok : Token) (lex : GoString) (b : Int)
    (hn : tree.Nodes = a0 :: (body ++ [q]))
    (hq : q.Token = .TokenVariable) (hqi : q.IsInApplication = true)
    (hl : ∀ n ∈ tree.Nodes, n.Token ≠ .TokenLambda)
    (hb : ∀ n ∈ tree.Nodes, n.BracketCounter = 0)
    (ha : a0.Token = .Application) (hi : a0.IsInApplication = false)
    (ht : ∀ n ∈ body ++ [q], ¬ (n.Token = .Application ∧ n.IsInApplication = false))
    (h1 : tok ≠ .TokenFunction) (h2 : tok ≠ .TokenDoubleDot) :
    AddToken tree tok lex b = .ok
      { tree with
        currentDepth := a0.Depth + 1
        Nodes := ⟨.Application, "Apply".toList, a0.Depth, false, false, 0⟩ ::
          { a0 with Depth := a0.Depth + 1, IsInApplication := true, IsSecondInApplication := false } ::
          ((body ++ [q]).map incDepth ++ [⟨tok, lex, a0.Depth + 1, true, true, b⟩]) } := by
  have hlen : tree.Nodes.length = body.length + 2 := by rw [hn]; simp
  have hlast : getNode tree.Nodes ((tree.Nodes.length : Int) - 1) = .ok q := by
    have := getNode_last (a0 :: body) q
    rw [hn]; simpa using this
  unfold AddToken
  rw [if_pos (by omega), hlast, Res.ok_bind, if_neg h1, if_neg h2]
  simp only [hq]
  -- IsPrevLambda
  have hprev : IsPrevLambda tree tok lex b = .ok (tree, false) := by
    unfold IsPrevLambda
    rw [if_pos (by omega)]
    have hidx : (tree.Nodes.length : Int) - 2 = ((body.length : Nat) : Int) := by omega
    rw [hidx, getNode_nat _ _ (by omega), Res.ok_bind]
    rw [if_neg (hl _ (List.getElem_mem _))]
  rw [hprev, Res.ok_bind]
  simp only [Bool.false_eq_true, if_false]
  rw [openBracketLoop_none _ hb _ (le_refl _), Res.ok_bind]
  simp only [hqi, if_true]
  rw [if_neg (by omega)]
  unfold ApplyToClosestNotAppliedApplication
  have := notAppliedLoop_first tree a0 (body ++ [q]) tok lex b hn ha hi ht (body.length + 1)
    (by simp)
  rw [hlen]
  exact this

/-! ## The context and the texts of the type checker -/

theorem charAtR_nat (s : GoString) (k : Nat) (h : k < s.length) : charAtR s (k : Int) = .ok s[k] := by
  unfold charAtR charAt
  have h0 : ¬ ((k : Int) < 0) := by omega
  rw [if_neg h0, Int.toNat_ofNat, List.getElem?_eq_getElem h]

theorem nameLoop_self (x : GoString) : ∀ (k ind : Nat), ind ≤ x.length → x.length - ind < k →
    nameLoop k x x (ind : Int) = .ok true := by
  intro k
  induction k with
  | zero => intro ind _ h; omega
  | succ k ih =>
    intro ind hle hk
    rw [nameLoop, if_pos (by omega)]
    by_cases he : ind = x.length
    · rw [if_pos (by omega)]
    · rw [if_neg (by omega), charAtR_nat x ind (by omega), Res.ok_bind, Res.ok_bind]
      simp only [ne_eq, not_true_eq_false, if_false]
      have := ih (ind + 1) (by omega) (by omega)
      simpa using this

theorem FindInList_last (l : List VariableType) (e : VariableType) (h : e.VarName ≠ []) :
    FindInList ⟨l ++ [e]⟩ e.VarName = .ok (l.length : Int) := by
  unfold FindInList
  have hpos : 0 < e.VarName.length := List.length_pos.mpr h
  rw [if_neg (by simp only [List.length_append, List.length_singleton]; omega)]
  simp only [List.length_append, List.length_singleton]
  rw [findLoop]
  simp only [List.getElem?_concat_length]
  have h0 := charAtR_nat e.VarName 0 hpos
  simp only [Nat.cast_zero] at h0
  rw [h0, Res.ok_bind, Res.ok_bind, if_pos rfl]
  have := nameLoop_self e.VarName (e.VarName.length + 1) 0 (by omega) (by omega)
  simp only [Nat.cast_zero] at this
  rw [this, Res.ok_bind]
  simp

theorem GetLast_last (l : List VariableType) (e : VariableType) (h : e.VarName ≠ []) :
    GetLast ⟨l ++ [e]⟩ e.VarName = .ok e.TypeName := by
  unfold GetLast
  rw [FindInList_last l e h, Res.ok_bind]
  rw [if_neg (by omega), if_neg (by omega)]
  simp

theorem Res.bind_eq_ok {α β : Type} {r : Res α} {f : α → Res β} {b : β}
    (h : r.bind f = .ok b) : ∃ a, r = .ok a ∧ f a = .ok b := by
  cases r with
  | ok a => exact ⟨a, rfl, h⟩
  | exit m => cases h
  | panic => cases h
  | outOfFuel => cases h

theorem sliceTo_le (s : GoString) (k : Nat) (h : k ≤ s.length) :
    sliceTo s (k : Int) = .ok (s.take k) := by
  unfold sliceTo
  rw [if_neg (by omega), Int.toNat_ofNat]

theorem sliceFromTo_middle (a X c : GoString) (lo hi : Int)
    (hlo : lo = (a.length : Int)) (hhi : hi = (a.length : Int) + (X.length : Int)) :
    sliceFromTo (a ++ X ++ c) lo hi = .ok X := by
  unfold sliceFromTo
  subst hlo hhi
  rw [if_neg (by simp only [List.length_append]; omega)]
  have h1 : ((a.length : Int) + (X.length : Int)).toNat = a.length + X.length := by omega
  rw [h1, Int.toNat_ofNat]
  congr 1
  rw [List.append_assoc, List.take_append]
  simp

theorem findWordLoop_letters (x : GoString) : ∀ (c : Char) (rest acc : GoString),
    (∀ a ∈ x, IsLetter a = true) → IsLetter c = false →
    findWordLoop (x ++ c :: rest) acc = acc ++ x := by
  induction x with
  | nil =>
    intro c rest acc _ hc
    simp [findWordLoop, hc]
  | cons a x ih =>
    intro c rest acc hx hc
    have ha : IsLetter a = true := hx a (List.mem_cons_self _ _)
    have hc2 : (a :: x) ++ c :: rest = a :: (x ++ c :: rest) := rfl
    rw [hc2, findWordLoop]
    simp only [ha, Bool.not_true, Bool.false_eq_true, if_false]
    rw [ih c rest (acc ++ [a]) (fun b hb => hx b (List.mem_cons_of_mem _ hb)) hc]
    simp

theorem findELoop_balanced (w : GoString) : ∀ (k : Nat) (rest acc : GoString),
    (∀ x ∈ w, x.toNat < 128) → bracketBalancedFrom w k = true →
    findELoop (w ++ ')' :: rest) ((k : Int) + 1) false acc = acc ++ w := by
  induction w with
  | nil =>
    intro k rest acc _ h
    simp only [bracketBalancedFrom, decide_eq_true_eq] at h
    subst h
    simp [findELoop]
  | cons c w ih =>
    intro k rest acc ha h
    have hca := ha c (List.mem_cons_self _ _)
    have hwa : ∀ x ∈ w, x.toNat < 128 := fun x hx => ha x (List.mem_cons_of_mem _ hx)
    have hc2 : (c :: w) ++ ')' :: rest = c :: (w ++ ')' :: rest) := rfl
    rw [hc2, findELoop, byteToString_ascii c hca]
    unfold bracketBalancedFrom at h
    by_cases h1 : c = '('
    · subst h1
      simp only [if_true] at h ⊢
      rw [if_neg (by omega)]
      have := ih (k + 1) rest (acc ++ ['(']) hwa h
      simp only [Nat.cast_add, Nat.cast_one, List.append_assoc, List.singleton_append] at this
      exact this
    · rw [if_neg h1] at h
      simp only [h1, if_false]
      by_cases h2 : c = ')'
      · subst h2
        simp only [if_true, true_or] at h ⊢
        cases k with
        | zero => simp at h
        | succ k =>
          simp only at h
          rw [if_neg (by omega)]
          have := ih k rest (acc ++ [')']) hwa h
          simp only [List.append_assoc, List.singleton_append] at this
          rw [← this]
          congr 1
          omega
      · rw [if_neg h2] at h
        have hno : ¬ (c = ')' ∨ (false = true ∧ c = ' ')) := by simp [h2]
        rw [if_neg hno, if_neg (by omega)]
        have := ih k rest (acc ++ [c]) hwa h
        simp only [List.append_assoc, List.singleton_append] at this
        exact this

theorem findRule_lambda (rest : GoString) : findRule ('(' :: '\\' :: rest) = .LamdbaRule := by
  simp [findRule]

/-! ## The shape of left-nested applications -/

theorem addTermVars_append (xs : List GoString) : ∀ (tree : ParseTree) (y : GoString),
    addTermVars tree (xs ++ [y])
      = (addTermVars tree xs).bind fun t => AddToken t .TokenVariable y 0 := by
  induction xs with
  | nil =>
    intro tree y
    simp only [List.nil_append, addTermVars, Res.ok_bind]
    cases AddToken tree .TokenVariable y 0 <;> rfl
  | cons x xs ih =>
    intro tree y
    simp only [List.cons_append, addTermVars]
    cases AddToken tree .TokenVariable x 0 with
    | ok t => simp only [Res.ok_bind]; exact ih t y
    | exit m => rfl
    | panic => rfl
    | outOfFuel => rfl

theorem appsUp_props (k : Nat) : ∀ (d : Int), ∀ n ∈ appsUp k d,
    n.Token = .Application ∧ n.IsInApplication = true ∧ n.BracketCounter = 0 := by
  induction k with
  | zero => intro d n h; simp [appsUp] at h
  | succ k ih =>
    intro d n h
    simp only [appsUp, List.mem_cons] at h
    rcases h with h | h
    · subst h; simp [appNode]
    · exact ih _ n h

theorem varsDown_props (xs : List GoString) : ∀ (d : Int), ∀ n ∈ varsDown xs d,
    n.Token = .TokenVariable ∧ n.IsInApplication = true ∧ n.BracketCounter = 0 := by
  induction xs with
  | nil => intro d n h; simp [varsDown] at h
  | cons x xs ih =>
    intro d n h
    simp only [varsDown, List.mem_cons] at h
    rcases h with h | h
    · subst h; simp
    · exact ih _ n h

theorem appsUp_incDepth (k : Nat) : ∀ d : Int, (appsUp k d).map incDepth = appsUp k (d + 1) := by
  induction k with
  | zero => intro d; rfl
  | succ k ih => intro d; simp only [appsUp, List.map_cons, ih]; rfl

theorem varsDown_append (xs : List GoString) : ∀ (d : Int) (y : GoString),
    varsDown (xs ++ [y]) (d + 1)
      = (varsDown xs d).map incDepth ++ [⟨.TokenVariable, y, d + 1 - (xs.length : Int), true, true, 0⟩] := by
  induction xs with
  | nil => intro d y; simp [varsDown]
  | cons x xs ih =>
    intro d y
    have hc : (x :: xs) ++ [y] = x :: (xs ++ [y]) := rfl
    rw [hc, varsDown, varsDown, List.map_cons]
    have := ih (d - 1) y
    rw [show d - 1 + 1 = d + 1 - 1 by omega] at this
    rw [this]
    simp only [incDepth, List.cons_append, List.length_cons, Nat.cast_add, Nat.cast_one]
    rw [show d + 1 - 1 - (xs.length : Int) = d + 1 - ((xs.length : Int) + 1) by omega]

/-! ## The context: shadowing and lookup -/

/-- C11: for every context, every non-empty name `x` and all type texts `A` and `B`,
after `AddVarType(x, A)` followed by `AddVarType(x, B)` the lookup `GetLast(x)` returns
`B`. -/
theorem C11_shadowing_returns_latest (context : VarTypeList) (x A B : GoString) (hx : x ≠ []) :
    GetLast (AddVarType (AddVarType context x A) x B) x = .ok B := by
  have := GetLast_last (context.list ++ [⟨x, A⟩]) ⟨x, B⟩ hx
  exact this

/-- C11 at the context `y : C` and the name `x`. -/
theorem C11_shadowing_returns_latest_witness :
    "x".toList ≠ [] ∧
    GetLast (AddVarType (AddVarType ⟨[⟨"y".toList, "C".toList⟩]⟩ "x".toList "A".toList)
      "x".toList "B".toList) "x".toList = .ok "B".toList :=
  ⟨by decide, C11_shadowing_returns_latest _ _ _ _ (by decide)⟩

/-- C12, evaluated: with the distinct non-empty names `x` and `xy`, after adding `(x, A)`,
`(xy, C)`, `(x, B)` to the empty context the lookup `GetLast(xy)` returns `B`, the type of
`x`; and after adding `(xy, A)`, `(x, C)`, `(xy, B)` the lookup `GetLast(x)` panics with an
index out of range.  With names that share no first character the lookup is as claimed:
after `(x, A)`, `(y, C)`, `(x, B)` the lookup of `y` returns `C`. -/
theorem C12_prefix_name_breaks_lookup :
    GetLast (AddVarType (AddVarType (AddVarType ⟨[]⟩ "x".toList "A".toList)
      "xy".toList "C".toList) "x".toList "B".toList) "xy".toList = .ok "B".toList ∧
    GetLast (AddVarType (AddVarType (AddVarType ⟨[]⟩ "xy".toList "A".toList)
      "x".toList "C".toList) "xy".toList "B".toList) "x".toList = .panic ∧
    GetLast (AddVarType (AddVarType (AddVarType ⟨[]⟩ "x".toList "A".toList)
      "y".toList "C".toList) "x".toList "B".toList) "y".toList = .ok "C".toList := by
  decide

/-- C13, evaluated: in the context `x : A` the call `FindInList(xy)` returns the index 0
although no entry has the name `xy`; in the context `xy : A, x : B` it returns 1, the
index of `x`, not 0; and in the context `xy : A` the call `FindInList(x)` panics with an
index out of range. -/
theorem C13_FindInList_matches_prefixes :
    FindInList ⟨[⟨"x".toList, "A".toList⟩]⟩ "xy".toList = .ok 0 ∧
    FindInList ⟨[⟨"xy".toList, "A".toList⟩, ⟨"x".toList, "B".toList⟩]⟩ "xy".toList = .ok 1 ∧
    FindInList ⟨[⟨"xy".toList, "A".toList⟩]⟩ "x".toList = .panic := by
  decide

/-- C14, evaluated: with only `x : A` in the context, `findType` of the bare identifier
`xy` returns `A` instead of ending with "Variable not in context", and the whole line
`\x^A xy : A -> A` gets the verdict "Type checks out"; with only `xy : A` in the context,
`findType` of `x` panics, as does the line `\xy^A x : A -> A`. -/
theorem C14_variable_rule_accepts_prefix :
    findType (varsWithContext [⟨"x".toList, "A".toList⟩]) "xy".toList
      = .ok ("A".toList, varsWithContext [⟨"x".toList, "A".toList⟩]) ∧
    (mainLine newVars "\\x^A xy : A -> A".toList).map (fun v => v.Stdout)
      = .ok ["Type checks out".toList, "((\\x^(A)xy):(A->A))".toList] ∧
    findType (varsWithContext [⟨"xy".toList, "A".toList⟩]) "x".toList = .panic ∧
    mainLine newVars "\\xy^A x : A -> A".toList = .panic := by
  decide

/-! ## The rules of the type checker -/

/-- The budget does not matter once it exceeds the number of opening brackets of the
text: every such budget gives the same outcome. -/
theorem findTypeFuel_stable (v : Vars) (e : GoString) :
    ∀ k, findTypeFuel (e.count '(' + 1 + k) v e = findTypeFuel (e.count '(' + 1) v e := by
  intro k
  induction k with
  | zero => rfl
  | succ k ih =>
    rcases findTypeFuel_le (e.count '(' + 1 + k) v e with h0 | h0
    · exact absurd h0 (findTypeFuel_count_inBudget _ v e (by omega))
    · rw [← ih]; exact h0.symm

/-- A budget above the number of opening brackets of the text gives the outcome of
`findType`. -/
theorem findTypeFuel_eq_findType_of_count (n : Nat) (v : Vars) (e : GoString)
    (h : e.count '(' < n) : findTypeFuel n v e = findType v e := by
  have hle : e.count '(' ≤ e.length := List.count_le_length _ _
  have hn : n = e.count '(' + 1 + (n - e.count '(' - 1) := by omega
  have hl : e.length + 2 = e.count '(' + 1 + (e.length + 1 - e.count '(') := by omega
  rw [findType, hl, findTypeFuel_stable, hn, findTypeFuel_stable]

/-- The budget does not matter once it exceeds the length of the text: the budgeted
function agrees with `findType`. -/
theorem findTypeFuel_eq_findType (n : Nat) (v : Vars) (e : GoString) (h : e.length < n) :
    findTypeFuel n v e = findType v e :=
  findTypeFuel_eq_findType_of_count n v e (lt_of_le_of_lt (List.count_le_length _ _) h)

/-- The application rule at a given budget: from the results of the two recursive calls
to the returned text and context. -/
theorem findTypeFuel_application (n : Nat) (v v1 v2 : Vars)
    (e E1 E2 T2 X : GoString)
    (hr : findRule e = .ApplicationRule)
    (h1 : findE e 1 true = .ok E1)
    (h2 : findE e (2 + (E1.length : Int)) false = .ok E2)
    (t1 : findTypeFuel n v E1 = .ok ("(".toList ++ T2 ++ "->".toList ++ X ++ ")".toList, v1))
    (t2 : findTypeFuel n v1 E2 = .ok (T2, v2)) :
    (findTypeFuel (n + 1) v e).map (fun r => (r.1, r.2.Context)) = .ok (X, v2.Context) := by
  rw [findTypeFuel]
  simp only [hr]
  rw [h1, Res.ok_bind, h2, Res.ok_bind, t1, Res.ok_bind, t2, Res.ok_bind]
  dsimp only
  have hk : sliceTo ("(".toList ++ T2 ++ "->".toList ++ X ++ ")".toList) ((T2.length : Int) + 3)
      = .ok (("(".toList ++ T2 ++ "->".toList ++ X ++ ")".toList).take (T2.length + 3)) := by
    have := sliceTo_le ("(".toList ++ T2 ++ "->".toList ++ X ++ ")".toList) (T2.length + 3)
      (by simp)
    simpa using this
  have hk2 : sliceTo ("(".toList ++ T2 ++ "->".toList ++ X ++ ")".toList) (T2.length : Int)
      = .ok (("(".toList ++ T2 ++ "->".toList ++ X ++ ")".toList).take T2.length) :=
    sliceTo_le _ _ (by simp; omega)
  have hw : sliceFromTo ("(".toList ++ T2 ++ "->".toList ++ X ++ ")".toList)
      ((T2.length : Int) + 3)
      ((("(".toList ++ T2 ++ "->".toList ++ X ++ ")".toList).length : Int) - 1) = .ok X :=
    sliceFromTo_middle ("(".toList ++ T2 ++ "->".toList) X ")".toList
      ((T2.length : Int) + 3)
      ((("(".toList ++ T2 ++ "->".toList ++ X ++ ")".toList).length : Int) - 1)
      (by simp; omega) (by simp; omega)
  rw [hk, Res.ok_bind, hk2, Res.ok_bind, hw, Res.ok_bind]
  simp only [Res.map, Res.ok_bind]
  congr 2
  split <;> split <;> simp [eprint]

/-- C15: in the application rule of `findType` (the text `e` is split by `findE` into
`E1` and `E2`), when the type inferred for `E1` is the text `(T2->X)` and the type
inferred for `E2` is `T2`, the rule returns exactly `X`, and the context is the one the
check of `E2` left.  The diagnostic stream is not part of the statement. -/
theorem C15_application_rule_returns_codomain (v v1 v2 : Vars) (e E1 E2 T2 X : GoString)
    (hr : findRule e = .ApplicationRule)
    (h1 : findE e 1 true = .ok E1)
    (h2 : findE e (2 + (E1.length : Int)) false = .ok E2)
    (t1 : findType v E1 = .ok ("(".toList ++ T2 ++ "->".toList ++ X ++ ")".toList, v1))
    (t2 : findType v1 E2 = .ok (T2, v2)) :
    (findType v e).map (fun r => (r.1, r.2.Context)) = .ok (X, v2.Context) := by
  obtain ⟨rest, he⟩ := findRule_open e (by rw [hr]; simp)
  have hle : e.count '(' ≤ e.length := List.count_le_length _ _
  have l1 := findE_count e 1 true E1 rest h1 (by decide) he
  have l2 := findE_count e _ false E2 rest h2 (by omega) he
  rw [← findTypeFuel_eq_findType_of_count (e.length + 1) v E1 (by omega)] at t1
  rw [← findTypeFuel_eq_findType_of_count (e.length + 1) v1 E2 (by omega)] at t2
  exact findTypeFuel_application (e.length + 1) v v1 v2 e E1 E2 T2 X hr h1 h2 t1 t2

/-- C15 at the text `(x y)` in the context `x : (A->B), y : A`: the rule returns `B`. -/
theorem C15_application_rule_returns_codomain_witness :
    findRule "(x y)".toList = .ApplicationRule ∧
    findE "(x y)".toList 1 true = .ok "x".toList ∧
    findE "(x y)".toList (2 + ("x".toList.length : Int)) false = .ok "y".toList ∧
    (findType (varsWithContext [⟨"x".toList, "(A->B)".toList⟩, ⟨"y".toList, "A".toList⟩])
        "(x y)".toList).map (fun r => (r.1, r.2.Context))
      = .ok ("B".toList, ⟨[⟨"x".toList, "(A->B)".toList⟩, ⟨"y".toList, "A".toList⟩]⟩) :=
  ⟨by decide, by decide, by decide,
    C15_application_rule_returns_codomain
      (varsWithContext [⟨"x".toList, "(A->B)".toList⟩, ⟨"y".toList, "A".toList⟩])
      (varsWithContext [⟨"x".toList, "(A->B)".toList⟩, ⟨"y".toList, "A".toList⟩])
      (varsWithContext [⟨"x".toList, "(A->B)".toList⟩, ⟨"y".toList, "A".toList⟩])
      "(x y)".toList "x".toList "y".toList "A".toList "B".toList
      (by decide) (by decide) (by decide) (by decide) (by decide)⟩

/-- C16, evaluated: in one run with the lines `\f^ABCDEF f : A`, `\y^D y : D->D` and
`f y : A->B`, the third line applies `f`, whose type `ABCDEF` is no function type, to `y`
of type `D`.  The application rule writes its two diagnostics and goes on: `findType`
returns the text `E` for the application and the verdict "Does not type check" is
printed; the run does not end. -/
theorem C16_mismatch_is_not_fatal :
    findType (varsWithContext [⟨"f".toList, "ABCDEF".toList⟩, ⟨"y".toList, "D".toList⟩])
        "(f y)".toList
      = .ok ("E".toList,
          { varsWithContext [⟨"f".toList, "ABCDEF".toList⟩, ⟨"y".toList, "D".toList⟩] with
            Stderr := ["Typecheck error: E1 should find a function type".toList,
                       "Typecheck error: codomain E1 not the same as type of E2".toList] }) ∧
    (runLines ["\\f^ABCDEF f : A".toList, "\\y^D y : D->D".toList, "f y : A->B".toList]).map
        (fun v => (v.Context, v.Stdout, v.Stderr))
      = .ok (⟨[⟨"f".toList, "ABCDEF".toList⟩, ⟨"y".toList, "D".toList⟩]⟩,
          ["Does not type check".toList, "((\\f^(ABCDEF)f):A)".toList,
           "Type checks out".toList, "((\\y^(D)y):(D->D))".toList,
           "Does not type check".toList, "((f y):(A->B))".toList],
          ["Typecheck error: E1 should find a function type".toList,
           "Typecheck error: codomain E1 not the same as type of E2".toList]) := by
  decide

/-- The lambda rule at a given budget, for a type text and a body text of ASCII bytes. -/
theorem findTypeFuel_lambda (n : Nat) (v v1 : Vars) (x D B T : GoString)
    (hx : ∀ a ∈ x, IsLetter a = true)
    (hD : bracketBalanced D = true) (hB : bracketBalanced B = true)
    (hDa : ∀ a ∈ D, a.toNat < 128) (hBa : ∀ a ∈ B, a.toNat < 128)
    (hT : findTypeFuel n { v with Context := AddVarType v.Context x D } B = .ok (T, v1)) :
    findTypeFuel (n + 1) v ("(\\".toList ++ x ++ "^(".toList ++ D ++ ")".toList ++ B ++ ")".toList)
      = .ok ("(".toList ++ D ++ "->".toList ++ T ++ ")".toList, v1) := by
  have he : "(\\".toList ++ x ++ "^(".toList ++ D ++ ")".toList ++ B ++ ")".toList
      = '(' :: '\\' :: (x ++ '^' :: '(' :: (D ++ ')' :: (B ++ [')']))) := by simp
  rw [he, findTypeFuel, findRule_lambda]
  simp only
  have hw : findWord ('(' :: '\\' :: (x ++ '^' :: '(' :: (D ++ ')' :: (B ++ [')'])))) 2 = .ok x := by
    unfold findWord
    rw [if_neg (by simp only [List.length_cons]; omega)]
    have : List.drop (2 : Int).toNat ('(' :: '\\' :: (x ++ '^' :: '(' :: (D ++ ')' :: (B ++ [')']))))
        = x ++ '^' :: '(' :: (D ++ ')' :: (B ++ [')'])) := rfl
    rw [this, findWordLoop_letters x '^' _ [] hx (by decide)]
    rfl
  rw [hw, Res.ok_bind]
  have hd : findE ('(' :: '\\' :: (x ++ '^' :: '(' :: (D ++ ')' :: (B ++ [')']))))
      (4 + (x.length : Int)) false = .ok D := by
    unfold findE
    rw [if_neg (by omega)]
    have h4 : (4 + (x.length : Int)).toNat = (['(', '\\'] ++ x ++ ['^', '(']).length := by
      simp only [List.length_append, List.length_cons, List.length_nil]; omega
    have hsplit : '(' :: '\\' :: (x ++ '^' :: '(' :: (D ++ ')' :: (B ++ [')'])))
        = (['(', '\\'] ++ x ++ ['^', '(']) ++ (D ++ ')' :: (B ++ [')'])) := by simp
    rw [h4, hsplit, List.drop_left]
    have := findELoop_balanced D 0 (B ++ [')']) [] hDa hD
    simp only [Nat.cast_zero, zero_add, List.nil_append] at this
    rw [this]
  rw [hd, Res.ok_bind]
  have hb : findE ('(' :: '\\' :: (x ++ '^' :: '(' :: (D ++ ')' :: (B ++ [')']))))
      (5 + (x.length : Int) + (D.length : Int)) false = .ok B := by
    unfold findE
    rw [if_neg (by omega)]
    have h5 : (5 + (x.length : Int) + (D.length : Int)).toNat
        = (['(', '\\'] ++ x ++ ['^', '('] ++ D ++ [')']).length := by
      simp only [List.length_append, List.length_cons, List.length_nil]; omega
    have hsplit : '(' :: '\\' :: (x ++ '^' :: '(' :: (D ++ ')' :: (B ++ [')'])))
        = (['(', '\\'] ++ x ++ ['^', '('] ++ D ++ [')']) ++ (B ++ [')']) := by simp
    rw [h5, hsplit, List.drop_left]
    have := findELoop_balanced B 0 [] [] hBa hB
    simp only [Nat.cast_zero, zero_add, List.nil_append] at this
    rw [this]
  rw [hb, Res.ok_bind, hT, Res.ok_bind]

/-- The lambda rule on ASCII text: for a lambda text `(\x^(D)B)` with `x` a letters-only
name, `D` a bracket-balanced type text and `B` a bracket-balanced body text, both of ASCII
bytes, `findType` appends the binding `(x, D)` to the context before inferring the body
and returns the text `(D->T)`, where `T` is the type inferred for `B` in that extended
context. -/
theorem findType_lambda_ascii (v v1 : Vars) (x D B T : GoString)
    (hx : ∀ a ∈ x, IsLetter a = true)
    (hD : bracketBalanced D = true) (hB : bracketBalanced B = true)
    (hDa : ∀ a ∈ D, a.toNat < 128) (hBa : ∀ a ∈ B, a.toNat < 128)
    (hT : findType { v with Context := AddVarType v.Context x D } B = .ok (T, v1)) :
    findType v ("(\\".toList ++ x ++ "^(".toList ++ D ++ ")".toList ++ B ++ ")".toList)
      = .ok ("(".toList ++ D ++ "->".toList ++ T ++ ")".toList, v1) := by
  rw [← findTypeFuel_eq_findType
    (("(\\".toList ++ x ++ "^(".toList ++ D ++ ")".toList ++ B ++ ")".toList).length + 1) _ B
    (by simp only [List.length_append]; omega)] at hT
  exact findTypeFuel_lambda _ v v1 x D B T hx hD hB hDa hBa hT

/-- C17, evaluated: the lambda rule misreads a type text that holds a byte above 0x7f.
The text `(\x^(É)x)` is the bytes of `(\x^(`, the two bytes c3 89 of `É`, and the bytes of
`)x)`.  On it `findWord` returns the name `x`, `findE` returns for the type the four bytes
c3 83 c2 89 instead of the two of `É`, the index of the body moves to the end of the
text, the body is read as the empty text, and `findType` aborts with "Variable not in
context"; the claim gives the binding `(x, É)` and the text `(É->É)`.  On the ASCII text
`(\x^(A)x)` the rule returns `(A->A)` with the binding `(x, A)`. -/
theorem C17_lambda_rule_misreads_bytes_above_0x7f :
    findRule ("(\\x^(".toList ++ ofBytes [0xC3, 0x89] ++ ")x)".toList) = .LamdbaRule ∧
    findWord ("(\\x^(".toList ++ ofBytes [0xC3, 0x89] ++ ")x)".toList) 2 = .ok "x".toList ∧
    findE ("(\\x^(".toList ++ ofBytes [0xC3, 0x89] ++ ")x)".toList)
        (4 + ("x".toList.length : Int)) false
      = .ok (ofBytes [0xC3, 0x83, 0xC2, 0x89]) ∧
    findE ("(\\x^(".toList ++ ofBytes [0xC3, 0x89] ++ ")x)".toList)
        (5 + ("x".toList.length : Int) + ((ofBytes [0xC3, 0x83, 0xC2, 0x89]).length : Int)) false
      = .ok [] ∧
    findType newVars ("(\\x^(".toList ++ ofBytes [0xC3, 0x89] ++ ")x)".toList)
      = .exit "Typecheck error: Variable not in context".toList ∧
    findType newVars "(\\x^(A)x)".toList
      = .ok ("(A->A)".toList, varsWithContext [⟨"x".toList, "A".toList⟩]) := by
  decide

/-- The context before a call of `findType` that returns is a prefix of the context after
it, for every budget. -/
theorem findTypeFuel_context_prefix (n : Nat) : ∀ (v : Vars) (e T : GoString) (v1 : Vars),
    findTypeFuel n v e = .ok (T, v1) → v.Context.list <+: v1.Context.list := by
  induction n with
  | zero => intro v e T v1 h; cases h
  | succ n ih =>
    intro v e T v1 h
    rw [findTypeFuel] at h
    split at h
    · obtain ⟨_, _, h⟩ := Res.bind_eq_ok h
      obtain ⟨_, _, h⟩ := Res.bind_eq_ok h
      split at h
      · cases h
      · obtain ⟨_, _, h⟩ := Res.bind_eq_ok h
        cases h
        exact List.prefix_refl _
    · obtain ⟨E1, _, h⟩ := Res.bind_eq_ok h
      obtain ⟨E2, _, h⟩ := Res.bind_eq_ok h
      obtain ⟨r1, h1, h⟩ := Res.bind_eq_ok h
      obtain ⟨r2, h2, h⟩ := Res.bind_eq_ok h
      obtain ⟨_, _, h⟩ := Res.bind_eq_ok h
      obtain ⟨_, _, h⟩ := Res.bind_eq_ok h
      obtain ⟨_, _, h⟩ := Res.bind_eq_ok h
      have p1 := ih v E1 r1.1 r1.2 h1
      have p2 := ih r1.2 E2 r2.1 r2.2 h2
      cases h
      refine List.IsPrefix.trans p1 (List.IsPrefix.trans p2 ?_)
      dsimp only
      split <;> split <;> simp [eprint]
    · obtain ⟨w, _, h⟩ := Res.bind_eq_ok h
      obtain ⟨T1, _, h⟩ := Res.bind_eq_ok h
      obtain ⟨E1, _, h⟩ := Res.bind_eq_ok h
      obtain ⟨r, hr, h⟩ := Res.bind_eq_ok h
      have p := ih _ E1 r.1 r.2 hr
      cases h
      refine List.IsPrefix.trans ?_ p
      simp [AddVarType]

/-- C18: for every expression text on which `findType` returns, the context before the
call is a prefix of the context after the call: no binding is removed, reordered or
rewritten, and a binding pushed by a lambda is still there after its body was checked. -/
theorem C18_findType_keeps_bindings (v : Vars) (e T : GoString) (v1 : Vars)
    (h : findType v e = .ok (T, v1)) : v.Context.list <+: v1.Context.list :=
  findTypeFuel_context_prefix _ v e T v1 h

/-- C18 at the text `(\x^(A)x)` in the context `y : C`: the context after the call is
`y : C, x : A`. -/
theorem C18_findType_keeps_bindings_witness :
    findType (varsWithContext [⟨"y".toList, "C".toList⟩]) "(\\x^(A)x)".toList
      = .ok ("(A->A)".toList,
          varsWithContext [⟨"y".toList, "C".toList⟩, ⟨"x".toList, "A".toList⟩]) ∧
    [(⟨"y".toList, "C".toList⟩ : VariableType)]
      <+: [⟨"y".toList, "C".toList⟩, ⟨"x".toList, "A".toList⟩] :=
  ⟨by decide,
    C18_findType_keeps_bindings (varsWithContext [⟨"y".toList, "C".toList⟩])
      "(\\x^(A)x)".toList "(A->A)".toList
      (varsWithContext [⟨"y".toList, "C".toList⟩, ⟨"x".toList, "A".toList⟩]) (by decide)⟩

/-! ## The builder: the first type token and left-nested applications -/

/-- C20: application is built left-associatively.  For every `n ≥ 2` (the names
`x1`, `x2` and the `n - 2` names of `rest`), calling `AddToken` on a cleared tree with the
`n` TermVar tokens, all with bracket count 0, yields the pre-order flattening of
`((x1 x2) x3) ... xn`: `n - 1` synthetic Application nodes at depths `0 .. n - 2`, then
`x1` and `x2` at depth `n - 1`, then `x3 .. xn` at depths `n - 2` down to 1. -/
theorem C20_application_left_associative (x1 x2 : GoString) (rest : List GoString) (tree : ParseTree) :
    addTermVars (ClearTree tree) (x1 :: x2 :: rest)
      = .ok ⟨-1, leftAssocNodes x1 x2 rest, 1⟩ := by
  induction rest using List.reverseRecOn with
  | nil => rfl
  | append_singleton rest y ih =>
    have happ : x1 :: x2 :: (rest ++ [y]) = (x1 :: x2 :: rest) ++ [y] := by simp
    rw [happ, addTermVars_append, ih, Res.ok_bind]
    obtain ⟨body, q, hbq, hq, hqi⟩ : ∃ body q,
        appsUp rest.length 1 ++
          [⟨.TokenVariable, x1, (rest.length : Int) + 1, true, false, 0⟩,
           ⟨.TokenVariable, x2, (rest.length : Int) + 1, true, true, 0⟩] ++
          varsDown rest (rest.length : Int) = body ++ [q] ∧
        q.Token = .TokenVariable ∧ q.IsInApplication = true := by
      rcases List.eq_nil_or_concat (varsDown rest (rest.length : Int)) with h | ⟨l, z, h⟩
      · refine ⟨appsUp rest.length 1 ++
          [⟨.TokenVariable, x1, (rest.length : Int) + 1, true, false, 0⟩],
          ⟨.TokenVariable, x2, (rest.length : Int) + 1, true, true, 0⟩, ?_, rfl, rfl⟩
        rw [h]; simp
      · have hz := varsDown_props rest _ z (by rw [h]; simp)
        refine ⟨appsUp rest.length 1 ++
          [⟨.TokenVariable, x1, (rest.length : Int) + 1, true, false, 0⟩,
           ⟨.TokenVariable, x2, (rest.length : Int) + 1, true, true, 0⟩] ++ l, z, ?_, hz.1, hz.2.1⟩
        rw [h]; simp
    have hmem : ∀ n ∈ body ++ [q],
        (n.Token = .Application ∨ n.Token = .TokenVariable) ∧ n.IsInApplication = true ∧
          n.BracketCounter = 0 := by
      intro n hn
      rw [← hbq] at hn
      simp only [List.mem_append, List.mem_cons, List.mem_singleton, List.not_mem_nil, or_false] at hn
      rcases hn with (h | h | h) | h
      · have := appsUp_props _ _ n h; exact ⟨Or.inl this.1, this.2⟩
      · subst h; simp
      · subst h; simp
      · have := varsDown_props _ _ n h; exact ⟨Or.inr this.1, this.2⟩
    have hnodes : (⟨-1, leftAssocNodes x1 x2 rest, 1⟩ : ParseTree).Nodes
        = ⟨.Application, "Apply".toList, 0, false, false, 0⟩ :: (body ++ [q]) := by
      simp only [leftAssocNodes]
      rw [← hbq]; simp
    have hstep := AddToken_apply_root ⟨-1, leftAssocNodes x1 x2 rest, 1⟩ _ body q
      .TokenVariable y 0 hnodes hq hqi
      (by
        intro n hn
        rw [hnodes] at hn
        rcases List.mem_cons.mp hn with h | h
        · subst h; simp
        · rcases (hmem n h).1 with h | h <;> rw [h] <;> simp)
      (by
        intro n hn
        rw [hnodes] at hn
        rcases List.mem_cons.mp hn with h | h
        · subst h; rfl
        · exact (hmem n h).2.2)
      rfl rfl
      (by
        intro n hn hc
        have := (hmem n hn).2.1
        rw [hc.2] at this
        cases this)
      (by simp) (by simp)
    rw [hstep]
    simp only [leftAssocNodes, ← hbq, List.map_append, List.map_cons, List.map_nil,
      appsUp_incDepth, List.length_append, List.length_singleton, Nat.cast_add, Nat.cast_one]
    rw [varsDown_append]
    simp [appsUp, appNode, incDepth]

/-! ## The arrows of a declared type, the renderer and the lexer: evaluations -/

/-- C21, evaluated: the declared type of the line `x : A -> B -> C -> D` is not built as
the pre-order flattening of `A->(B->(C->D))` (an Arrow at depth 1, `A` and an Arrow at
depth 2, `B` and an Arrow at depth 3, `C` and `D` at depth 4).  The third Arrow is put
before `B`, at the index of the second Arrow, and the nodes after the separator and the
term are Arrow 1, `A` 2, Arrow 2, Arrow 3, `B` 3, `C` 3, `D` 4; the judgement renders as
`(x:((A->B->C->(D))))`.  With three type variables the tree is the right-nested one. -/
theorem C21_four_arrows_not_right_nested :
    (parseLine newVars "x : A -> B -> C -> D".toList).map (fun v => v.Tree.Nodes)
      = .ok [⟨.TokenDoubleDot, "Judge".toList, 0, false, false, 0⟩,
             ⟨.TokenVariable, "x".toList, 1, true, false, 0⟩,
             ⟨.TokenFunction, "->".toList, 1, false, false, 0⟩,
             ⟨.TokenUVar, "A".toList, 2, true, false, 0⟩,
             ⟨.TokenFunction, "->".toList, 2, true, true, 0⟩,
             ⟨.TokenFunction, "->".toList, 3, true, false, 0⟩,
             ⟨.TokenUVar, "B".toList, 3, true, false, 0⟩,
             ⟨.TokenUVar, "C".toList, 3, true, true, 0⟩,
             ⟨.TokenUVar, "D".toList, 4, true, true, 0⟩] ∧
    renderLine "x : A -> B -> C -> D".toList = .ok "(x:((A->B->C->(D))))".toList ∧
    (parseLine newVars "x : A -> B -> C".toList).map (fun v => v.Tree.Nodes)
      = .ok [⟨.TokenDoubleDot, "Judge".toList, 0, false, false, 0⟩,
             ⟨.TokenVariable, "x".toList, 1, true, false, 0⟩,
             ⟨.TokenFunction, "->".toList, 1, false, false, 0⟩,
             ⟨.TokenUVar, "A".toList, 2, true, false, 0⟩,
             ⟨.TokenFunction, "->".toList, 2, true, true, 0⟩,
             ⟨.TokenUVar, "B".toList, 3, true, false, 0⟩,
             ⟨.TokenUVar, "C".toList, 3, true, true, 0⟩] := by
  decide

/-- C23, evaluated: `IndexDoubleDot` is not the index of the separator.  After the
successful parse of `x : A` the separator is node 0 and `IndexDoubleDot` is 2, the index of
the type variable `A`; after `x y : A -> B` the separator is node 0 and `IndexDoubleDot`
is 4, the index of the Arrow.  After `(a (b c)) : ((Ab)) -> C` the separator is node 0
and `IndexDoubleDot` is 6, the index of the variable `c` of the term: `calcParts`, which
renders the declared type from `IndexDoubleDot`, hands the type checker the empty text as
the type and a term text that holds the type variable `Ab`.  For `x : A` the declared
type that `calcParts` hands over is the empty text as well. -/
theorem C23_IndexDoubleDot_is_not_the_separator :
    (parseLine newVars "x : A".toList).map
        (fun v => (v.Tree.IndexDoubleDot, v.Tree.Nodes.map fun n => n.Token))
      = .ok (2, [.TokenDoubleDot, .TokenVariable, .TokenUVar]) ∧
    (parseLine newVars "x y : A -> B".toList).map
        (fun v => (v.Tree.IndexDoubleDot, v.Tree.Nodes.map fun n => n.Token))
      = .ok (4, [.TokenDoubleDot, .Application, .TokenVariable, .TokenVariable,
                 .TokenFunction, .TokenUVar, .TokenUVar]) ∧
    (parseLine newVars "(a (b c)) : ((Ab)) -> C".toList).map
        (fun v => (v.Tree.IndexDoubleDot, v.Tree.Nodes.map fun n => (n.Token, n.Lexeme)))
      = .ok (6, [(.TokenDoubleDot, "Judge".toList), (.TokenFunction, "->".toList),
                 (.Application, "Apply".toList), (.TokenVariable, "a".toList),
                 (.Application, "Apply".toList), (.TokenVariable, "b".toList),
                 (.TokenVariable, "c".toList), (.TokenUVar, "Ab".toList),
                 (.TokenUVar, "C".toList)]) ∧
    (parseLine newVars "(a (b c)) : ((Ab)) -> C".toList).bind calcParts
      = .ok ("((a (bc))Ab)".toList, []) ∧
    (parseLine newVars "x : A".toList).bind calcParts = .ok ([], []) := by
  decide

/-- C24, evaluated: the tree built from the term `x y z` renders as `((x y)z)`, with no
space between `(x y)` and the bare variable `z`; so does the term of the line
`x y z : A`, in the judgement and in the expression text handed to the type checker.  The
term of `x (y z) : A` renders as `(x (yz))`, with no space between `y` and `z`. -/
theorem C24_no_space_after_bracketed_function :
    ((addTermVars (ClearTree newVars.Tree) ["x".toList, "y".toList, "z".toList]).bind
        fun t => SubTreeToStandardOutput t 0) = .ok "((x y)z)".toList ∧
    renderLine "x y z : A".toList = .ok "(((x y)z):A)".toList ∧
    ((parseLine newVars "x y z : A".toList).bind calcParts).map (fun r => r.1)
      = .ok "((x y)z)".toList ∧
    ((parseLine newVars "x (y z) : A".toList).bind calcParts).map (fun r => r.1)
      = .ok "(x (yz))".toList := by
  decide

/-- C25, evaluated: on the line `\x`, which ends after the bound variable, the parse does
not end with the "Expected ^" syntax error: building the message reads
`CurrentLine[Index]` past the end of the line and the run panics (also with a trailing
space).  When a token follows, as in `\x y`, the error is reported, and a Lambda not
followed by a variable gives "Expected variable". -/
theorem C25_line_ending_after_bound_variable_panics :
    parseLine newVars "\\x".toList = .panic ∧
    parseLine newVars "\\x ".toList = .panic ∧
    parseLine newVars "\\x y".toList = .exit "Syntax error: Expected ^ but got: y".toList ∧
    parseLine newVars "\\(x)".toList = .exit "Syntax error: Expected variable".toList ∧
    parseLine newVars "\\".toList = .exit "Syntax error: Expected variable".toList := by
  decide

/-- C26, evaluated: on the text `-x` the tokenizer returns the Arrow token for `-` and has
consumed the `x` (the index is 1 and the next token is the end of the line); on the text
`-` alone it returns the Arrow token as well.  The line `\x^A x : A -B A` is therefore
read as `\x^A x : A -> A` and gets the verdict "Type checks out". -/
theorem C26_minus_alone_is_an_arrow :
    (LexicalAnalyser (lineStart "-x".toList)).map (fun r => (r.1, r.2.Index))
      = .ok (.TokenFunction, 1) ∧
    ((LexicalAnalyser (lineStart "-x".toList)).bind fun r => LexicalAnalyser r.2).map
        (fun r => (r.1, r.2.Index)) = .ok (.LexicalEndOfLine, 2) ∧
    (LexicalAnalyser (lineStart "-".toList)).map (fun r => (r.1, r.2.Index))
      = .ok (.TokenFunction, 1) ∧
    (mainLine newVars "\\x^A x : A -B A".toList).map (fun v => v.Stdout)
      = .ok ["Type checks out".toList, "((\\x^(A)x):(A->A))".toList] := by
  decide

/-- C28, evaluated: on the line `(ab cd)`, when `ab` has been read (the index is 2, on
its last character) `CalcBrack` returns 0, not 1, and when `cd` has been read (index 5)
it returns 0, not -1: the walk to the left starts inside the name and the walk to the
right starts one character too far for each character of the name but the first.  With the one-character names of `(a c)` the
values are 1 and -1.  The term of `ab (cd ef) : A` is built and rendered as
`((ab cd)ef)`. -/
theorem C28_CalcBrack_misses_brackets_of_long_names :
    ((nextToken (lineStart "(ab cd)".toList)).bind nextToken).map
        (fun v => (v.Token, v.Lexeme, v.Index)) = .ok (.TokenVariable, "ab".toList, 2) ∧
    ((nextToken (lineStart "(ab cd)".toList)).bind nextToken).bind CalcBrack = .ok 0 ∧
    (((nextToken (lineStart "(ab cd)".toList)).bind nextToken).bind VarExpr).map
        (fun v => (v.Token, v.Lexeme, v.Index)) = .ok (.TokenVariable, "cd".toList, 5) ∧
    (((nextToken (lineStart "(ab cd)".toList)).bind nextToken).bind VarExpr).bind CalcBrack
      = .ok 0 ∧
    ((nextToken (lineStart "(a c)".toList)).bind nextToken).bind CalcBrack = .ok 1 ∧
    (((nextToken (lineStart "(a c)".toList)).bind nextToken).bind VarExpr).bind CalcBrack
      = .ok (-1) ∧
    ((parseLine newVars "ab (cd ef) : A".toList).bind calcParts).map (fun r => r.1)
      = .ok "((ab cd)ef)".toList := by
  decide

/-! ## The primitives of the builder, for every tree -/

/-- C22: `RemoveRedundantBrackets` conserves brackets.  For all nodes `L` and `R` the sum
of the two bracket counters is the same before and after the call; when the counter of
`L` is positive and the counter of `R` is negative, afterwards one of the two counters is
0 and the other is the signed remainder, the sum; in every other case both nodes are
unchanged; no other field of a node changes; and the value returned is the counter of
`L` after the call. -/
theorem C22_brackets_conserved (L R : Node) :
    (RemoveRedundantBrackets L R).1.BracketCounter
        + (RemoveRedundantBrackets L R).2.1.BracketCounter
      = L.BracketCounter + R.BracketCounter ∧
    (0 < L.BracketCounter ∧ R.BracketCounter < 0 →
      ((RemoveRedundantBrackets L R).1.BracketCounter = 0 ∧
        (RemoveRedundantBrackets L R).2.1.BracketCounter = L.BracketCounter + R.BracketCounter) ∨
      ((RemoveRedundantBrackets L R).2.1.BracketCounter = 0 ∧
        (RemoveRedundantBrackets L R).1.BracketCounter = L.BracketCounter + R.BracketCounter)) ∧
    (¬ (0 < L.BracketCounter ∧ R.BracketCounter < 0) →
      (RemoveRedundantBrackets L R).1 = L ∧ (RemoveRedundantBrackets L R).2.1 = R) ∧
    (RemoveRedundantBrackets L R).1
      = { L with BracketCounter := (RemoveRedundantBrackets L R).1.BracketCounter } ∧
    (RemoveRedundantBrackets L R).2.1
      = { R with BracketCounter := (RemoveRedundantBrackets L R).2.1.BracketCounter } ∧
    (RemoveRedundantBrackets L R).2.2 = (RemoveRedundantBrackets L R).1.BracketCounter := by
  unfold RemoveRedundantBrackets
  dsimp only
  by_cases h : L.BracketCounter > 0 ∧ R.BracketCounter < 0
  · rw [if_pos h]
    by_cases h1 : L.BracketCounter > -R.BracketCounter
    · rw [if_pos h1]
      refine ⟨by simp, fun _ => Or.inr ⟨rfl, rfl⟩, fun hn => absurd h hn, rfl, rfl, rfl⟩
    · rw [if_neg h1]
      by_cases h2 : L.BracketCounter = -R.BracketCounter
      · rw [if_pos h2]
        refine ⟨by simp; omega, fun _ => Or.inl ⟨rfl, by simp; omega⟩, fun hn => absurd h hn, rfl, rfl, rfl⟩
      · rw [if_neg h2]
        refine ⟨by simp; omega, fun _ => Or.inl ⟨rfl, by simp; omega⟩, fun hn => absurd h hn, rfl, rfl, rfl⟩
  · rw [if_neg h]
    refine ⟨rfl, fun hp => absurd hp h, fun _ => ⟨rfl, rfl⟩, rfl, rfl, rfl⟩

/-- C27: for every tree, after `ClearTree` the node sequence is empty, `currentDepth` is
0 and `IndexDoubleDot` is -1, and the next `AddToken`, for every token, lexeme and
bracket count, appends its node as the only node, at depth 0. -/
theorem C27_ClearTree_resets (tree : ParseTree) (tok : Token) (lex : GoString) (b : Int) :
    ClearTree tree = ⟨-1, [], 0⟩ ∧
    AddToken (ClearTree tree) tok lex b = .ok ⟨-1, [⟨tok, lex, 0, false, false, b⟩], 0⟩ := by
  constructor
  · rfl
  · rfl

/-- C29: for every tree with node sequence `ns`, every node `x` and every index
`0 ≤ i < len(ns)`, `InjectNodeAtIndex(x, i)` leaves the sequence
`ns[0..i) ++ [x] ++ ns[i..]` and changes nothing else of the tree: the length grows by
one and the order and contents of the nodes that were there are unchanged. -/
theorem C29_InjectNodeAtIndex_splices (tree : ParseTree) (x : Node) (i : Int)
    (h0 : 0 ≤ i) (h1 : i < (tree.Nodes.length : Int)) :
    InjectNodeAtIndex tree x i
      = .ok { tree with Nodes := tree.Nodes.take i.toNat ++ x :: tree.Nodes.drop i.toNat } := by
  have hi : i.toNat < tree.Nodes.length := by omega
  have hlen : ((tree.Nodes.take i.toNat).length : Int) = i := by
    rw [List.length_take, Nat.min_eq_left (Nat.le_of_lt hi)]; omega
  obtain ⟨a, rest, hd⟩ : ∃ a rest, tree.Nodes.drop i.toNat = a :: rest := by
    cases hdr : tree.Nodes.drop i.toNat with
    | nil =>
      have := congrArg List.length hdr
      simp at this
      omega
    | cons a rest => exact ⟨a, rest, rfl⟩
  have hsplit : tree.Nodes = tree.Nodes.take i.toNat ++ a :: rest := by
    rw [← hd, List.take_append_drop]
  unfold InjectNodeAtIndex
  have := injectNodes_append (tree.Nodes.take i.toNat) a rest x
  rw [← hsplit, hlen] at this
  rw [this, Res.ok_bind, hd]

/-- C29 at a sequence of three nodes and the index 1. -/
theorem C29_InjectNodeAtIndex_splices_witness :
    (0 : Int) ≤ 1 ∧ (1 : Int) < (([⟨.TokenVariable, "x".toList, 0, false, false, 0⟩,
              ⟨.TokenVariable, "y".toList, 1, true, false, 0⟩,
              ⟨.TokenVariable, "z".toList, 2, true, true, 0⟩] : List Node).length : Int) ∧
    InjectNodeAtIndex
        ⟨-1, [⟨.TokenVariable, "x".toList, 0, false, false, 0⟩,
              ⟨.TokenVariable, "y".toList, 1, true, false, 0⟩,
              ⟨.TokenVariable, "z".toList, 2, true, true, 0⟩], 1⟩
        ⟨.Application, "Apply".toList, 5, false, false, 3⟩ 1
      = .ok ⟨-1, [⟨.TokenVariable, "x".toList, 0, false, false, 0⟩,
              ⟨.Application, "Apply".toList, 5, false, false, 3⟩,
              ⟨.TokenVariable, "y".toList, 1, true, false, 0⟩,
              ⟨.TokenVariable, "z".toList, 2, true, true, 0⟩], 1⟩ :=
  ⟨by decide, by decide, C29_InjectNodeAtIndex_splices _ _ 1 (by decide) (by decide)⟩

/-- From an index at or beyond the end, the loop of `IncrementDepthFromIndex` does
nothing. -/
theorem incrementLoop_beyond (k : Nat) (ns : List Node) (i : Int) (h : (ns.length : Int) ≤ i) :
    incrementLoop k ns i = .ok ns := by
  cases k with
  | zero => rfl
  | succ k => rw [incrementLoop, if_neg (by omega)]

/-- C30: for every tree and index `i ≥ 0`, `IncrementDepthFromIndex(i)` adds exactly 1
to the `Depth` of every node at a position `≥ i` and changes nothing else: the nodes
before `i`, the other fields of every node, the node count, `currentDepth` and
`IndexDoubleDot` are unchanged.  The depths from `i` on are taken within the range of a
64-bit `int` and below its largest value, so that `Depth++` does not wrap: the wrapped
sum is the sum. -/
theorem C30_IncrementDepthFromIndex_frame (tree : ParseTree) (i : Int) (h0 : 0 ≤ i)
    (hb : ∀ n ∈ tree.Nodes.drop i.toNat,
      -9223372036854775808 ≤ n.Depth ∧ n.Depth < 9223372036854775807) :
    IncrementDepthFromIndex tree i
      = .ok { tree with
              Nodes := tree.Nodes.take i.toNat ++ (tree.Nodes.drop i.toNat).map incDepth } ∧
    ∀ n ∈ tree.Nodes.drop i.toNat, (incDepth n).Depth = wrapInt64 (n.Depth + 1) := by
  constructor
  · by_cases hi : i.toNat ≤ tree.Nodes.length
    · have hlen : ((tree.Nodes.take i.toNat).length : Int) = i := by
        rw [List.length_take, Nat.min_eq_left hi]; omega
      have := IncrementDepthFromIndex_append tree (tree.Nodes.take i.toNat)
        (tree.Nodes.drop i.toNat) (List.take_append_drop _ _).symm
      rw [hlen] at this
      exact this
    · have hge : (tree.Nodes.length : Int) ≤ i := by omega
      unfold IncrementDepthFromIndex
      rw [incrementLoop_beyond _ _ _ hge, Res.ok_bind]
      rw [List.take_of_length_le (by omega), List.drop_of_length_le (by omega)]
      simp
  · intro n hn
    have := hb n hn
    unfold wrapInt64 incDepth
    simp only
    omega

/-- C30 at a sequence of three nodes and the index 1. -/
theorem C30_IncrementDepthFromIndex_frame_witness :
    (0 : Int) ≤ 1 ∧
    (∀ n ∈ ([⟨.Application, "Apply".toList, 0, false, false, 0⟩,
              ⟨.TokenVariable, "x".toList, 1, true, false, 2⟩,
              ⟨.TokenVariable, "y".toList, 1, true, true, -1⟩] : List Node).drop (1 : Int).toNat,
      -9223372036854775808 ≤ n.Depth ∧ n.Depth < 9223372036854775807) ∧
    IncrementDepthFromIndex
        ⟨-1, [⟨.Application, "Apply".toList, 0, false, false, 0⟩,
              ⟨.TokenVariable, "x".toList, 1, true, false, 2⟩,
              ⟨.TokenVariable, "y".toList, 1, true, true, -1⟩], 1⟩ 1
      = .ok ⟨-1, [⟨.Application, "Apply".toList, 0, false, false, 0⟩,
              ⟨.TokenVariable, "x".toList, 2, true, false, 2⟩,
              ⟨.TokenVariable, "y".toList, 2, true, true, -1⟩], 1⟩ :=
  ⟨by decide, by decide,
    (C30_IncrementDepthFromIndex_frame
      ⟨-1, [⟨.Application, "Apply".toList, 0, false, false, 0⟩,
            ⟨.TokenVariable, "x".toList, 1, true, false, 2⟩,
            ⟨.TokenVariable, "y".toList, 1, true, true, -1⟩], 1⟩ 1 (by decide) (by decide)).1⟩

/-! ## What the parser does to `IndexDoubleDot`

The builder never writes `IndexDoubleDot`, the lexer never touches the tree, and
`JudgementFunction` sets the field once, after it has appended the separator. -/

theorem KeepsIndex_ok (i : Int) (t : ParseTree) (h : t.IndexDoubleDot = i) :
    KeepsIndex i (.ok t) := by
  intro t1 h1; cases h1; exact h

theorem KeepsIndex_bind {α : Type} (i : Int) (r : Res α) (f : α → Res ParseTree)
    (h : ∀ a, r = .ok a → KeepsIndex i (f a)) : KeepsIndex i (r.bind f) := by
  intro t ht
  obtain ⟨a, ha, hf⟩ := Res.bind_eq_ok ht
  exact h a ha t hf

theorem IncrementDepthFromIndex_keeps (tree : ParseTree) (k : Int) (t : ParseTree)
    (h : IncrementDepthFromIndex tree k = .ok t) : t.IndexDoubleDot = tree.IndexDoubleDot := by
  unfold IncrementDepthFromIndex at h
  obtain ⟨ns, _, h⟩ := Res.bind_eq_ok h
  cases h
  rfl

theorem UVarFunctToNestedFunc_keeps (t : ParseTree) (p : Node) (i : Int) (tok : Token)
    (lex : GoString) (b : Int) :
    KeepsIndex t.IndexDoubleDot (UVarFunctToNestedFunc t p i tok lex b) := by
  unfold UVarFunctToNestedFunc
  repeat (first
    | exact KeepsIndex_ok _ _ rfl
    | (apply KeepsIndex_bind; intro _ _))

theorem UVarFuncToPrevUVar_keeps (t : ParseTree) (p : Node) (tok : Token)
    (lex : GoString) (b : Int) :
    KeepsIndex t.IndexDoubleDot (UVarFuncToPrevUVar t p tok lex b) := by
  unfold UVarFuncToPrevUVar
  repeat (first
    | exact KeepsIndex_ok _ _ rfl
    | (apply KeepsIndex_bind; intro _ _))

theorem UVarFuncToBracketNode_keeps (t : ParseTree) (p : Node) (i : Int) (tok : Token)
    (lex : GoString) (b : Int) :
    KeepsIndex t.IndexDoubleDot (UVarFuncToBracketNode t p i tok lex b) := by
  unfold UVarFuncToBracketNode
  apply KeepsIndex_bind; intro _ _
  apply KeepsIndex_bind; intro _ _
  apply KeepsIndex_bind; intro _ _
  apply KeepsIndex_bind; intro _ _
  apply KeepsIndex_bind; intro _ _
  apply KeepsIndex_bind; intro t3 h3
  have := IncrementDepthFromIndex_keeps _ _ _ h3
  repeat (first
    | exact KeepsIndex_ok _ _ this
    | (apply KeepsIndex_bind; intro _ _))

theorem lambdaLoop_keeps (k : Nat) : ∀ (t : ParseTree) (tok : Token) (lex : GoString) (b : Int),
    KeepsIndex t.IndexDoubleDot (lambdaLoop k t tok lex b) := by
  induction k with
  | zero => intro t tok lex b; exact KeepsIndex_ok _ _ rfl
  | succ k ih =>
    intro t tok lex b
    rw [lambdaLoop]
    apply KeepsIndex_bind; intro _ _
    split
    · apply KeepsIndex_bind; intro _ _
      apply KeepsIndex_bind; intro _ _
      apply KeepsIndex_bind; intro t2 h2
      have := IncrementDepthFromIndex_keeps _ _ _ h2
      repeat (first
        | exact KeepsIndex_ok _ _ this
        | (apply KeepsIndex_bind; intro _ _))
    · exact ih _ _ _ _

theorem ApplyToClosestLambda_keeps (t : ParseTree) (tok : Token) (lex : GoString) (b : Int) :
    KeepsIndex t.IndexDoubleDot (ApplyToClosestLambda t tok lex b) := by
  unfold ApplyToClosestLambda
  apply KeepsIndex_bind; intro r _
  exact lambdaLoop_keeps _ { t with Nodes := r.1 } _ _ _

theorem ApplyToBracketNode_keeps (t : ParseTree) (i : Int) (tok : Token) (lex : GoString)
    (b : Int) : KeepsIndex t.IndexDoubleDot (ApplyToBracketNode t i tok lex b) := by
  unfold ApplyToBracketNode
  apply KeepsIndex_bind; intro _ _
  apply KeepsIndex_bind; intro t1 h1
  have := IncrementDepthFromIndex_keeps _ _ _ h1
  repeat (first
    | exact KeepsIndex_ok _ _ this
    | (apply KeepsIndex_bind; intro _ _))

theorem notAppliedLoop_keeps (k : Nat) : ∀ (t : ParseTree) (tok : Token) (lex : GoString)
    (b : Int), KeepsIndex t.IndexDoubleDot (notAppliedLoop k t tok lex b) := by
  induction k with
  | zero => intro t tok lex b; exact KeepsIndex_ok _ _ rfl
  | succ k ih =>
    intro t tok lex b
    rw [notAppliedLoop]
    apply KeepsIndex_bind; intro _ _
    split
    · apply KeepsIndex_bind; intro t1 h1
      have := IncrementDepthFromIndex_keeps _ _ _ h1
      repeat (first
        | exact KeepsIndex_ok _ _ this
        | (apply KeepsIndex_bind; intro _ _))
    · exact ih _ _ _ _

theorem ApplyToPrevNode_keeps (t : ParseTree) (tok : Token) (lex : GoString) (b : Int) :
    KeepsIndex t.IndexDoubleDot (ApplyToPrevNode t tok lex b) := by
  unfold ApplyToPrevNode
  repeat (first
    | exact KeepsIndex_ok _ _ rfl
    | (apply KeepsIndex_bind; intro _ _))

theorem IsPrevLambda_keeps (t : ParseTree) (tok : Token) (lex : GoString) (b : Int)
    (r : ParseTree × Bool) (h : IsPrevLambda t tok lex b = .ok r) :
    r.1.IndexDoubleDot = t.IndexDoubleDot := by
  unfold IsPrevLambda at h
  split at h
  · obtain ⟨n, _, h⟩ := Res.bind_eq_ok h
    split at h <;> cases h <;> rfl
  · cases h; rfl

theorem AddToken_keeps (t : ParseTree) (tok : Token) (lex : GoString) (b : Int) :
    KeepsIndex t.IndexDoubleDot (AddToken t tok lex b) := by
  unfold AddToken
  split
  · apply KeepsIndex_bind; intro prevNode _
    split
    · exact KeepsIndex_ok _ _ rfl
    · split
      · exact KeepsIndex_ok _ _ rfl
      · split
        · apply KeepsIndex_bind; intro _ _
          apply KeepsIndex_bind; intro _ _
          apply KeepsIndex_bind; intro _ _
          apply KeepsIndex_bind; intro t3 h3
          have := IncrementDepthFromIndex_keeps _ _ _ h3
          apply KeepsIndex_bind; intro _ _
          exact KeepsIndex_ok _ _ this
        · exact KeepsIndex_ok _ _ rfl
        · dsimp only
          apply KeepsIndex_bind; intro _ _
          split
          · apply KeepsIndex_bind; intro r _
            split
            · exact UVarFuncToBracketNode_keeps { t with Nodes := r.1 } _ _ _ _ _
            · exact KeepsIndex_ok _ _ rfl
          · apply KeepsIndex_bind; intro _ _
            split
            · exact UVarFunctToNestedFunc_keeps _ _ _ _ _ _
            · exact UVarFuncToPrevUVar_keeps _ _ _ _ _
        · exact ApplyToClosestLambda_keeps _ _ _ _
        · apply KeepsIndex_bind; intro r hr
          have := IsPrevLambda_keeps _ _ _ _ _ hr
          split
          · exact KeepsIndex_ok _ _ this
          · apply KeepsIndex_bind; intro _ _
            split
            · exact ApplyToBracketNode_keeps _ _ _ _ _
            · split
              · exact notAppliedLoop_keeps _ _ _ _ _
              · exact ApplyToPrevNode_keeps _ _ _ _
        · exact KeepsIndex_ok _ _ rfl
  · exact KeepsIndex_ok _ _ rfl

theorem GetChar_Tree (v v1 : Vars) (h : GetChar v = .ok v1) : v1.Tree = v.Tree := by
  unfold GetChar at h
  dsimp only at h
  split at h
  · cases h; rfl
  · split at h
    · cases h
    · cases h; rfl

theorem identLoop_Tree (n : Nat) : ∀ (v v1 : Vars), identLoop n v = .ok v1 → v1.Tree = v.Tree := by
  induction n with
  | zero => intro v v1 h; cases h
  | succ n ih =>
    intro v v1 h
    rw [identLoop] at h
    split at h
    · obtain ⟨v2, h2, h⟩ := Res.bind_eq_ok h
      rw [ih _ _ h, GetChar_Tree _ _ h2]
      rfl
    · cases h; rfl

theorem LexicalAnalyserFuel_Tree (n : Nat) : ∀ (v : Vars) (r : Token × Vars),
    LexicalAnalyserFuel n v = .ok r → r.2.Tree = v.Tree := by
  induction n with
  | zero => intro v r h; cases h
  | succ n ih =>
    intro v r h
    rw [LexicalAnalyserFuel] at h
    obtain ⟨v1, h1, h⟩ := Res.bind_eq_ok h
    have e1 := GetChar_Tree _ _ h1
    dsimp only at h
    split at h
    · obtain ⟨v3, h3, h⟩ := Res.bind_eq_ok h
      cases h
      have := identLoop_Tree _ _ _ h3
      simp only at this ⊢
      rw [this, e1]
    · obtain ⟨v3, h3, h⟩ := Res.bind_eq_ok h
      cases h
      have := identLoop_Tree _ _ _ h3
      simp only at this ⊢
      rw [this, e1]
    · cases h; exact e1
    · obtain ⟨v3, h3, h⟩ := Res.bind_eq_ok h
      cases h
      have := GetChar_Tree _ _ h3
      simp only at this ⊢
      rw [this, e1]
    · cases h
    · cases h
    · cases h; exact e1
    · cases h; exact e1
    · cases h; exact e1
    · have := ih _ _ h
      simp only at this
      rw [this, e1]
    · cases h; exact e1
    · cases h; exact e1
    · cases h; exact e1

theorem nextToken_Tree (v v1 : Vars) (h : nextToken v = .ok v1) : v1.Tree = v.Tree := by
  unfold nextToken LexicalAnalyser at h
  obtain ⟨r, hr, h⟩ := Res.bind_eq_ok h
  cases h
  exact LexicalAnalyserFuel_Tree _ _ _ hr

theorem TypeFunction_keeps (v : Vars) (p : Vars × Bool) (h : TypeFunction v = .ok p) :
    p.1.Tree.IndexDoubleDot = v.Tree.IndexDoubleDot := by
  unfold TypeFunction at h
  split at h
  · obtain ⟨t, ht, h⟩ := Res.bind_eq_ok h
    obtain ⟨v1, h1, h⟩ := Res.bind_eq_ok h
    cases h
    rw [nextToken_Tree _ _ h1]
    exact AddToken_keeps _ _ _ _ t ht
  · cases h; rfl

theorem TypeExpr_keeps (n : Nat) : ∀ (v v1 : Vars), TypeExpr n v = .ok v1 →
    v1.Tree.IndexDoubleDot = v.Tree.IndexDoubleDot := by
  induction n with
  | zero => intro v v1 h; cases h
  | succ n ih =>
    intro v v1 h
    rw [TypeExpr] at h
    have tail : ∀ (w w1 : Vars),
        ((TypeFunction w).bind fun r => if r.2 = true then TypeExpr n r.1 else .ok r.1) = .ok w1 →
        w1.Tree.IndexDoubleDot = w.Tree.IndexDoubleDot := by
      intro w w1 hw
      obtain ⟨r, hr, hw⟩ := Res.bind_eq_ok hw
      have e := TypeFunction_keeps _ _ hr
      split at hw
      · rw [ih _ _ hw, e]
      · cases hw; exact e
    split at h
    · obtain ⟨b, _, h⟩ := Res.bind_eq_ok h
      obtain ⟨t, ht, h⟩ := Res.bind_eq_ok h
      obtain ⟨w, hw, h⟩ := Res.bind_eq_ok h
      rw [tail _ _ h, nextToken_Tree _ _ hw]
      exact AddToken_keeps _ _ _ _ t ht
    · obtain ⟨w, hw, h⟩ := Res.bind_eq_ok h
      obtain ⟨w2, hw2, h⟩ := Res.bind_eq_ok h
      have e2 : w2.Tree.IndexDoubleDot = v.Tree.IndexDoubleDot := by
        rw [ih _ _ hw2, nextToken_Tree _ _ hw]
      split at h
      · obtain ⟨w3, hw3, h⟩ := Res.bind_eq_ok h
        rw [tail _ _ h, nextToken_Tree _ _ hw3]
        exact e2
      · cases h; exact e2
    all_goals cases h

theorem JudgementFunction_sets (v v2 : Vars) (h : JudgementFunction v = .ok v2) :
    v2.Tree.Nodes = v.Tree.Nodes ++
      [⟨.TokenDoubleDot, "Judge".toList, v.Tree.currentDepth, false, false, 0⟩] ∧
    v2.Tree.IndexDoubleDot = (v.Tree.Nodes.length : Int) + 1 := by
  unfold JudgementFunction at h
  split at h
  · cases h
  · split at h
    · obtain ⟨t, ht, h⟩ := Res.bind_eq_ok h
      have hT := nextToken_Tree _ _ h
      have hN : t.Nodes = v.Tree.Nodes ++
          [⟨.TokenDoubleDot, "Judge".toList, v.Tree.currentDepth, false, false, 0⟩] := by
        unfold AddToken at ht
        split at ht
        · obtain ⟨p, _, ht⟩ := Res.bind_eq_ok ht
          simp only [reduceCtorEq, if_false, if_true] at ht
          cases ht
          rfl
        · cases ht
          rfl
      rw [hT]
      simp only
      rw [hN]
      exact ⟨rfl, by simp⟩
    · cases h

/-- What `Judgement` does to `IndexDoubleDot`: when it returns, `Expr` has returned a state
`v1`, `JudgementFunction` has appended the separator as the last node, at index
`len(v1.Tree.Nodes)`, and set `IndexDoubleDot` to the number of nodes including the
separator, one more than that index; the type expression has left the field alone. -/
theorem Judgement_sets_IndexDoubleDot (v v3 : Vars) (h : Judgement v = .ok v3) :
    ∃ v1 v2, Expr (v.CurrentLine.length + 4) v = .ok v1 ∧ JudgementFunction v1 = .ok v2 ∧
      v2.Tree.Nodes = v1.Tree.Nodes ++
        [⟨.TokenDoubleDot, "Judge".toList, v1.Tree.currentDepth, false, false, 0⟩] ∧
      v2.Tree.IndexDoubleDot = (v1.Tree.Nodes.length : Int) + 1 ∧
      v3.Tree.IndexDoubleDot = v2.Tree.IndexDoubleDot := by
  unfold Judgement JudgementFuel at h
  obtain ⟨v1, h1, h⟩ := Res.bind_eq_ok h
  obtain ⟨v2, h2, h⟩ := Res.bind_eq_ok h
  obtain ⟨hn, hi⟩ := JudgementFunction_sets _ _ h2
  exact ⟨v1, v2, h1, h2, hn, hi, TypeExpr_keeps _ _ _ h⟩

/-! ## The type checker: termination, the empty term text, the function-type test -/

/-- The type checker on the empty text: the lookup fails whatever the context holds. -/
theorem findType_empty (v : Vars) :
    findType v [] = .exit "Typecheck error: Variable not in context".toList := by
  simp [findType, findTypeFuel, findRule, GetLast, FindInList, Res.bind]

/-- A node that is no Lambda and is not followed by a deeper node renders as the empty
text. -/
theorem SubTreeToStandardOutput_leaf (tree : ParseTree) (i : Int) (n : Node)
    (hn : getNode tree.Nodes i = .ok n) (hl : n.Token ≠ .TokenLambda)
    (hnext : ∀ m, getNode tree.Nodes (i + 1) = .ok m → m.Depth ≤ n.Depth) :
    SubTreeToStandardOutput tree i = .ok [] := by
  unfold SubTreeToStandardOutput
  rw [hn, Res.ok_bind]
  simp only [hl, if_false]
  rw [hn, Res.ok_bind]
  have hloop : ∀ (jd : Int) (st : RenderState),
      renderLoop (tree.Nodes.length + 1) tree jd n.Depth (i + 1) st = .ok st := by
    intro jd st
    rw [renderLoop]
    split
    · cases hm : getNode tree.Nodes (i + 1) with
      | ok m =>
        rw [Res.ok_bind, if_neg (by have := hnext m hm; omega)]
      | exit msg =>
        exfalso
        unfold getNode at hm
        split at hm
        · cases hm
        · split at hm <;> cases hm
      | panic =>
        exfalso
        unfold getNode at hm
        have h0 : 0 ≤ i := by
          unfold getNode at hn
          split at hn
          · cases hn
          · omega
        rw [if_neg (by omega)] at hm
        have hlt : (i + 1).toNat < tree.Nodes.length := by omega
        rw [List.getElem?_eq_getElem hlt] at hm
        cases hm
      | outOfFuel =>
        exfalso
        unfold getNode at hm
        split at hm
        · cases hm
        · split at hm <;> cases hm
    · rfl
  rw [hloop, Res.ok_bind]
  simp

/-- C32: `SubTreeToStandardOutput(i)` returns the empty text whenever node `i` is no
Lambda and is the last node or is followed by a node whose depth is not greater than its
own.  Consequently, for every state whose node 1 is such a node and whose declared type
renders, `calcParts` hands the empty text to `findType` and the type check ends in
"Variable not in context", whatever the context holds; and the tree that the builder
makes for a judgement `x : A`, for all names and bracket counts, is such a tree. -/
theorem C32_leaf_renders_empty (v : Vars) (i : Int) (n : Node)
    (hn : getNode v.Tree.Nodes i = .ok n) (hl : n.Token ≠ .TokenLambda)
    (hnext : ∀ m, getNode v.Tree.Nodes (i + 1) = .ok m → m.Depth ≤ n.Depth) :
    SubTreeToStandardOutput v.Tree i = .ok [] ∧
    (i = 1 → ∀ ty, SubTreeToStandardOutput v.Tree v.Tree.IndexDoubleDot = .ok ty →
      calcParts v = .ok ([], ty) ∧
      TypeChecker v = .exit "Typecheck error: Variable not in context".toList) ∧
    (∀ (x A : GoString) (b1 b2 : Int), ∃ t, singleVarJudgement x A b1 b2 = .ok t ∧
      calcParts { v with Tree := t } = .ok ([], []) ∧
      TypeChecker { v with Tree := t }
        = .exit "Typecheck error: Variable not in context".toList) := by
  have h1 := SubTreeToStandardOutput_leaf v.Tree i n hn hl hnext
  have check : ∀ (w : Vars) (ty : GoString), SubTreeToStandardOutput w.Tree 1 = .ok [] →
      SubTreeToStandardOutput w.Tree w.Tree.IndexDoubleDot = .ok ty →
      calcParts w = .ok ([], ty) ∧
      TypeChecker w = .exit "Typecheck error: Variable not in context".toList := by
    intro w ty he hty
    have hc : calcParts w = .ok ([], ty) := by
      unfold calcParts
      rw [he, Res.ok_bind, hty, Res.ok_bind]
    refine ⟨hc, ?_⟩
    unfold TypeChecker
    rw [hc, Res.ok_bind, findType_empty]
    rfl
  refine ⟨h1, ?_, ?_⟩
  · intro hi ty hty
    subst hi
    exact check v ty h1 hty
  · intro x A b1 b2
    refine ⟨⟨2, [⟨.TokenDoubleDot, "Judge".toList, 0, false, false, 0⟩,
                 ⟨.TokenVariable, x, 1, true, false, b1⟩,
                 ⟨.TokenUVar, A, 1, false, false, b2⟩], 1⟩, rfl, ?_⟩
    apply check
    · exact SubTreeToStandardOutput_leaf _ 1 ⟨.TokenVariable, x, 1, true, false, b1⟩ rfl
        (by simp) (by intro m hm; cases hm; exact le_refl _)
    · exact SubTreeToStandardOutput_leaf _ 2 ⟨.TokenUVar, A, 1, false, false, b2⟩ rfl
        (by simp) (by intro m hm; cases hm)

/-- C32 at the tree of the line `x : A -> B`, with `x : A` in the context; the lines
`x : A` and `x : A -> B` end in "Variable not in context". -/
theorem C32_leaf_renders_empty_witness :
    (parseLine (varsWithContext [⟨"x".toList, "A".toList⟩]) "x : A -> B".toList).map
        (fun v => v.Tree)
      = .ok ⟨2, [⟨.TokenDoubleDot, "Judge".toList, 0, false, false, 0⟩,
                 ⟨.TokenVariable, "x".toList, 1, true, false, 0⟩,
                 ⟨.TokenFunction, "->".toList, 1, false, false, 0⟩,
                 ⟨.TokenUVar, "A".toList, 2, true, false, 0⟩,
                 ⟨.TokenUVar, "B".toList, 2, true, true, 0⟩], 2⟩ ∧
    mainLine (varsWithContext [⟨"x".toList, "A".toList⟩]) "x : A".toList
      = .exit "Typecheck error: Variable not in context".toList ∧
    mainLine (varsWithContext [⟨"x".toList, "A".toList⟩]) "x : A -> B".toList
      = .exit "Typecheck error: Variable not in context".toList ∧
    calcParts { varsWithContext [⟨"x".toList, "A".toList⟩] with
        Tree := ⟨2, [⟨.TokenDoubleDot, "Judge".toList, 0, false, false, 0⟩,
                 ⟨.TokenVariable, "x".toList, 1, true, false, 0⟩,
                 ⟨.TokenFunction, "->".toList, 1, false, false, 0⟩,
                 ⟨.TokenUVar, "A".toList, 2, true, false, 0⟩,
                 ⟨.TokenUVar, "B".toList, 2, true, true, 0⟩], 2⟩ }
      = .ok ([], "(A->B)".toList) ∧
    TypeChecker { varsWithContext [⟨"x".toList, "A".toList⟩] with
        Tree := ⟨2, [⟨.TokenDoubleDot, "Judge".toList, 0, false, false, 0⟩,
                 ⟨.TokenVariable, "x".toList, 1, true, false, 0⟩,
                 ⟨.TokenFunction, "->".toList, 1, false, false, 0⟩,
                 ⟨.TokenUVar, "A".toList, 2, true, false, 0⟩,
                 ⟨.TokenUVar, "B".toList, 2, true, true, 0⟩], 2⟩ }
      = .exit "Typecheck error: Variable not in context".toList :=
  ⟨by decide, by decide, by decide,
    (C32_leaf_renders_empty
      { varsWithContext [⟨"x".toList, "A".toList⟩] with
        Tree := ⟨2, [⟨.TokenDoubleDot, "Judge".toList, 0, false, false, 0⟩,
                 ⟨.TokenVariable, "x".toList, 1, true, false, 0⟩,
                 ⟨.TokenFunction, "->".toList, 1, false, false, 0⟩,
                 ⟨.TokenUVar, "A".toList, 2, true, false, 0⟩,
                 ⟨.TokenUVar, "B".toList, 2, true, true, 0⟩], 2⟩ }
      1 ⟨.TokenVariable, "x".toList, 1, true, false, 0⟩ (by decide) (by decide)
      (by intro m hm; cases hm; decide)).2.1 rfl "(A->B)".toList (by decide)⟩

/-- The text a slice `s[:n]` returns has `n` characters. -/
theorem sliceTo_length (s : GoString) (n : Int) (p : GoString) (h : sliceTo s n = .ok p) :
    (p.length : Int) = n := by
  unfold sliceTo at h
  split at h
  · cases h
  · next hn =>
    cases h
    rw [List.length_take]
    omega

/-- C33: in the application rule of `findType` the function-type test compares the
first `len(T2)+3` characters of `T1` with the text `T2+"->"` of `len(T2)+2` characters:
whenever the slice can be taken the two differ.  So whenever `findType` returns on an
application, well-typed or not, the diagnostic "E1 should find a function type" has been
written, and writing it has not stopped the check. -/
theorem C33_function_type_test_always_fails (v : Vars) (e T : GoString) (v1 : Vars)
    (hr : findRule e = .ApplicationRule) (h : findType v e = .ok (T, v1)) :
    (∀ T1 T2 p : GoString, sliceTo T1 ((T2.length : Int) + 3) = .ok p → p ≠ T2 ++ "->".toList) ∧
    "Typecheck error: E1 should find a function type".toList ∈ v1.Stderr := by
  have hne : ∀ T1 T2 p : GoString, sliceTo T1 ((T2.length : Int) + 3) = .ok p →
      p ≠ T2 ++ "->".toList := by
    intro T1 T2 p hp heq
    have := sliceTo_length _ _ _ hp
    rw [heq] at this
    simp at this
  refine ⟨hne, ?_⟩
  unfold findType at h
  rw [findTypeFuel] at h
  simp only [hr] at h
  obtain ⟨E1, _, h⟩ := Res.bind_eq_ok h
  obtain ⟨E2, _, h⟩ := Res.bind_eq_ok h
  obtain ⟨r1, _, h⟩ := Res.bind_eq_ok h
  obtain ⟨r2, _, h⟩ := Res.bind_eq_ok h
  obtain ⟨p1, hp1, h⟩ := Res.bind_eq_ok h
  obtain ⟨p2, _, h⟩ := Res.bind_eq_ok h
  obtain ⟨word, _, h⟩ := Res.bind_eq_ok h
  have hp := hne _ _ _ hp1
  cases h
  rw [if_pos hp]
  split <;> simp [eprint]

/-- C33 at the well-typed application `(x y)` in the context `x : (A->B), y : A`. -/
theorem C33_function_type_test_always_fails_witness :
    findRule "(x y)".toList = .ApplicationRule ∧
    findType (varsWithContext [⟨"x".toList, "(A->B)".toList⟩, ⟨"y".toList, "A".toList⟩])
        "(x y)".toList
      = .ok ("B".toList,
          { varsWithContext [⟨"x".toList, "(A->B)".toList⟩, ⟨"y".toList, "A".toList⟩] with
            Stderr := ["Typecheck error: E1 should find a function type".toList,
                       "Typecheck error: codomain E1 not the same as type of E2".toList] }) ∧
    "Typecheck error: E1 should find a function type".toList ∈
      ["Typecheck error: E1 should find a function type".toList,
       "Typecheck error: codomain E1 not the same as type of E2".toList] :=
  ⟨by decide, by decide,
    (C33_function_type_test_always_fails
      (varsWithContext [⟨"x".toList, "(A->B)".toList⟩, ⟨"y".toList, "A".toList⟩])
      "(x y)".toList "B".toList
      { varsWithContext [⟨"x".toList, "(A->B)".toList⟩, ⟨"y".toList, "A".toList⟩] with
        Stderr := ["Typecheck error: E1 should find a function type".toList,
                   "Typecheck error: codomain E1 not the same as type of E2".toList] }
      (by decide) (by decide)).2⟩

/-! ## The builder drops tokens; `findE` -/

/-- C34, evaluated: on the tree that holds the single TypeVar node `A` (and no Lambda),
`AddToken` of the TermVar `x` returns the tree unchanged: no node records `x` and the node
count has not grown.  The same holds for a TermVar added after two applied variables
without an Application node.  In a run, the parse of the line `x : ((Ab)) -> C` reads the
whole line and ends with the nodes `Judge`, `x`, `Ab`, `->`: the type variable `C` is
not in the tree. -/
theorem C34_AddToken_can_drop_its_token :
    AddToken ⟨-1, [⟨.TokenUVar, "A".toList, 0, false, false, 0⟩], 0⟩ .TokenVariable "x".toList 0
      = .ok ⟨-1, [⟨.TokenUVar, "A".toList, 0, false, false, 0⟩], 0⟩ ∧
    AddToken ⟨-1, [⟨.TokenVariable, "x".toList, 1, true, false, 0⟩,
                   ⟨.TokenVariable, "y".toList, 1, true, true, 0⟩], 1⟩ .TokenVariable "z".toList 0
      = .ok ⟨-1, [⟨.TokenVariable, "x".toList, 1, true, false, 0⟩,
                   ⟨.TokenVariable, "y".toList, 1, true, true, 0⟩], 1⟩ ∧
    (parseLine newVars "x : ((Ab)) -> C".toList).map
        (fun v => (v.Token, v.Tree.Nodes.map fun n => n.Lexeme))
      = .ok (.LexicalEndOfLine, ["Judge".toList, "x".toList, "Ab".toList, "->".toList]) := by
  decide

/-- The loop of `findE` for a first expression: a text of ASCII bytes without brackets and
spaces is returned up to the space that follows it. -/
theorem findELoop_plain (w : GoString) : ∀ (rest acc : GoString),
    (∀ c ∈ w, c.toNat < 128) →
    (∀ c ∈ w, c ≠ '(' ∧ c ≠ ')' ∧ c ≠ ' ') →
    findELoop (w ++ ' ' :: rest) 1 true acc = acc ++ w := by
  induction w with
  | nil => intro rest acc _ _; simp [findELoop]
  | cons c w ih =>
    intro rest acc ha h
    have hc := h c (List.mem_cons_self _ _)
    have hca := ha c (List.mem_cons_self _ _)
    have hc2 : (c :: w) ++ ' ' :: rest = c :: (w ++ ' ' :: rest) := rfl
    rw [hc2, findELoop]
    have hno : ¬ (c = ')' ∨ (True ∧ c = ' ')) := by simp [hc.2.1, hc.2.2]
    simp only [hc.1, if_false]
    rw [if_neg hno, if_neg (by decide), byteToString_ascii c hca]
    have := ih rest (acc ++ [c]) (fun d hd => ha d (List.mem_cons_of_mem _ hd))
      (fun d hd => h d (List.mem_cons_of_mem _ hd))
    simp only [List.append_assoc, List.singleton_append] at this
    exact this

/-- On ASCII text `findE` returns the balanced part: when the text from position
`pre.length` on is `w ++ ")" ++ rest` with `w` bracket-balanced and of ASCII bytes,
`findE` with `firstE = false` returns exactly `w`; and when `w` holds neither brackets nor
spaces and the text goes on with a space, `findE` with `firstE = true` returns `w`. -/
theorem findE_balanced_ascii (pre w rest : GoString) (ha : ∀ c ∈ w, c.toNat < 128) :
    (bracketBalanced w = true →
      findE (pre ++ w ++ ")".toList ++ rest) (pre.length : Int) false = .ok w) ∧
    ((∀ c ∈ w, c ≠ '(' ∧ c ≠ ')' ∧ c ≠ ' ') →
      findE (pre ++ w ++ " ".toList ++ rest) (pre.length : Int) true = .ok w) := by
  constructor
  · intro hw
    unfold findE
    rw [if_neg (by omega), Int.toNat_ofNat]
    have hs : pre ++ w ++ ")".toList ++ rest = pre ++ (w ++ ')' :: rest) := by simp
    rw [hs, List.drop_left]
    have := findELoop_balanced w 0 rest [] ha hw
    simp only [Nat.cast_zero, zero_add, List.nil_append] at this
    rw [this]
  · intro hw
    unfold findE
    rw [if_neg (by omega), Int.toNat_ofNat]
    have hs : pre ++ w ++ " ".toList ++ rest = pre ++ (w ++ ' ' :: rest) := by simp
    rw [hs, List.drop_left]
    have := findELoop_plain w rest [] ha hw
    simp only [List.nil_append] at this
    rw [this]

/-- C35, evaluated: `findE` does not return a bracket-balanced part that holds a byte
above 0x7f.  The two bytes c3 a9 (the letter `é`) are bracket-balanced and hold neither
brackets nor spaces.  In the text `(\x^(é)x)` they stand at index 5 in front of a `)`,
and `findE` with `firstE = false` returns the four bytes c3 83 c2 a9; in the text
`(é y)` they stand at index 1 in front of a space, and `findE` with `firstE = true`
returns the same four bytes; the claim gives the two bytes in both cases.  With the
ASCII letter `A` in the place of `é` the two calls return `A`. -/
theorem C35_findE_doubles_bytes_above_0x7f :
    bracketBalanced (ofBytes [0xC3, 0xA9]) = true ∧
    (∀ c ∈ ofBytes [0xC3, 0xA9], c ≠ '(' ∧ c ≠ ')' ∧ c ≠ ' ') ∧
    findE ("(\\x^(".toList ++ ofBytes [0xC3, 0xA9] ++ ")".toList ++ "x)".toList)
        ("(\\x^(".toList.length : Int) false
      = .ok (ofBytes [0xC3, 0x83, 0xC2, 0xA9]) ∧
    findE ("(".toList ++ ofBytes [0xC3, 0xA9] ++ " ".toList ++ "y)".toList)
        ("(".toList.length : Int) true
      = .ok (ofBytes [0xC3, 0x83, 0xC2, 0xA9]) ∧
    ofBytes [0xC3, 0x83, 0xC2, 0xA9] ≠ ofBytes [0xC3, 0xA9] ∧
    findE ("(\\x^(".toList ++ "A".toList ++ ")".toList ++ "x)".toList)
        ("(\\x^(".toList.length : Int) false = .ok "A".toList ∧
    findE ("(".toList ++ "A".toList ++ " ".toList ++ "y)".toList)
        ("(".toList.length : Int) true = .ok "A".toList := by
  decide

end LambdaChecker
